import Mathlib

/-!
Verification of the coral-spectrum selection/synchronization core and the
Commons utility belt against their natural-language specification.

Part 1 embeds the object-path and mixin helpers of the `Commons` class
(src/unnamed/part_000) over a small model of JavaScript values.

Part 2 embeds the `Select` component's selection-state machine
(src/coralui-component-select/src/scripts/Select.js): item records, the
input/taglist/label mirrors, the `_onItemSelectedChange` cascade with its
re-entrance flag, the `values` read/write surface, `reset`, and the three
origin-change handlers.
-/

namespace CoralSpec

/-! ## Part 1: JavaScript value model and Commons helpers -/

/-- A model of JavaScript runtime values, sufficient for the Commons
object-path helpers: `undefined`, `null`, booleans, numbers (integers),
strings, plain objects as ordered field lists, and opaque function values. -/
inductive JSVal where
  | undefJS : JSVal
  | null : JSVal
  | bool : Bool → JSVal
  | num : Int → JSVal
  | str : String → JSVal
  | obj : List (String × JSVal) → JSVal
  | fn : Nat → JSVal
deriving Repr

/-- `typeof v === 'undefined'` as a Boolean test. -/
def isUndefJS : JSVal → Bool
  | .undefJS => true
  | _ => false

/-- Errors a Commons helper can signal: an explicit `throw new Error(...)`
written in the source, or an implicit runtime TypeError (reading or writing
a property of `null`/`undefined`, or creating a property on a primitive in
strict mode). -/
inductive JSErr where
  | explicitError : String → JSErr
  | typeError : String → JSErr
deriving Repr, DecidableEq

/-- Field lookup in an object's own fields (first binding wins). -/
def lookupField : List (String × JSVal) → String → Option JSVal
  | [], _ => none
  | (k, v) :: rest, key => if k = key then some v else lookupField rest key

/-- Replace the first binding of `key`, or append a new one. -/
def setField : List (String × JSVal) → String → JSVal → List (String × JSVal)
  | [], key, x => [(key, x)]
  | (k, v) :: rest, key, x =>
    if k = key then (k, x) :: rest else (k, v) :: setField rest key x

/-- `typeof` on the value model. Note `typeof null = "object"`. -/
def typeofJS : JSVal → String
  | .undefJS => "undefined"
  | .null => "object"
  | .bool _ => "boolean"
  | .num _ => "number"
  | .str _ => "string"
  | .obj _ => "object"
  | .fn _ => "function"

/-- JavaScript truthiness (NaN is not modelled). -/
def truthy : JSVal → Bool
  | .undefJS => false
  | .null => false
  | .bool b => b
  | .num n => n ≠ 0
  | .str s => s ≠ ""
  | .obj _ => true
  | .fn _ => true

/-- Property read `v[key]`: a TypeError on `null`/`undefined`, the own field
(or `undefined`) on an object, and `undefined` on primitives and function
values (prototype members are not modelled). -/
def getProp (v : JSVal) (key : String) : Except JSErr JSVal :=
  match v with
  | .undefJS => .error (.typeError "cannot read property of undefined")
  | .null => .error (.typeError "cannot read property of null")
  | .obj fs => .ok ((lookupField fs key).getD .undefJS)
  | _ => .ok .undefJS

/-- Property write `v[key] = x` in strict mode (the source files are ES
modules): objects are updated, `null`/`undefined` raise a TypeError, other
primitives raise a TypeError; writes to function values succeed but are not
observable in this model. -/
def setProp (v : JSVal) (key : String) (x : JSVal) : Except JSErr JSVal :=
  match v with
  | .obj fs => .ok (.obj (setField fs key x))
  | .fn id => .ok (.fn id)
  | .undefJS => .error (.typeError "cannot set property of undefined")
  | .null => .error (.typeError "cannot set property of null")
  | _ => .error (.typeError "cannot create property on primitive")

/-- `path.split('.')` on the character list: splitting on the single
character `.`, yielding `[""]` on the empty string, exactly as in
JavaScript. -/
def splitDotChars : List Char → List (List Char)
  | [] => [[]]
  | c :: rest =>
    if c = '.' then [] :: splitDotChars rest
    else
      match splitDotChars rest with
      | [] => [[c]]
      | g :: gs => (c :: g) :: gs

/-- `path.split('.')` as used by the Commons path helpers. -/
def splitOnDot (s : String) : List String :=
  (splitDotChars s.data).map String.mk

/-- The traversal loop of `Commons.getSubProperty` over the split path:
shift a part, read `cur[part]`; if the part is non-final and the value read
is `undefined`, throw the explicit "part not found" error, otherwise
continue from the value read. -/
def getSubPropertyParts (cur : JSVal) : List String → Except JSErr JSVal
  | [] => .ok cur
  | part :: rest =>
    match getProp cur part with
    | .error e => .error e
    | .ok v =>
      if !rest.isEmpty && isUndefJS v then
        .error (.explicitError "Coral.commons.getSubProperty: part not found")
      else
        getSubPropertyParts v rest

/-- `Commons.getSubProperty(root, path)`: split the path on `.` and traverse.
The source's dedicated single-part branch (`return curObj[path]`) coincides
with the general loop on a one-element part list. -/
def getSubProperty (root : JSVal) (path : String) : Except JSErr JSVal :=
  getSubPropertyParts root (splitOnDot path)

/-- The traversal loop of `Commons.setSubProperty`: walk all but the last
part, requiring each intermediate value to be truthy (`if (curObj[part])`),
then assign at the last part. In-place mutation of the nested object is
modelled as a functional path update. -/
def setSubPropertyParts (cur : JSVal) (parts : List String) (x : JSVal) :
    Except JSErr JSVal :=
  match parts with
  | [] => .ok cur
  | [p] => setProp cur p x
  | p :: rest =>
    match getProp cur p with
    | .error e => .error e
    | .ok v =>
      if truthy v then
        match setSubPropertyParts v rest x with
        | .error e => .error e
        | .ok v2 => setProp cur p v2
      else
        .error (.explicitError "Coral.commons.setSubProperty: part not found")

/-- `Commons.setSubProperty(root, path, obj)`. -/
def setSubProperty (root : JSVal) (path : String) (x : JSVal) :
    Except JSErr JSVal :=
  setSubPropertyParts root (splitOnDot path) x

/-- `Commons._applyMixin(target, mixin, options)`: dispatch on
`typeof mixin`; a function mixin is invoked, an object mixin is copied via
`extend`, anything else throws. Neither invocation nor copying can raise in
this model, so only the dispatch is observable. -/
def applyMixin (_target mixin : JSVal) : Except JSErr Unit :=
  let mixinType := typeofJS mixin
  if mixinType = "function" then .ok ()
  else if mixinType = "object" ∧ ¬ (mixin matches .null) then .ok ()
  else .error (.explicitError "Coral.commons.mixin: cannot mix in")

/-- Whether a helper outcome is the explicit `throw new Error(...)` of the
source (as opposed to success or an implicit TypeError). -/
def isExplicitErr {α : Type} : Except JSErr α → Bool
  | .error (.explicitError _) => true
  | _ => false

/-- Whether an outcome is a success. -/
def exceptIsOk {α : Type} : Except JSErr α → Bool
  | .ok _ => true
  | _ => false

/-- Spec-side failure condition for `getSubProperty`, following the amended
claim's words: the traversal reaches a non-final part whose value reads as
`undefined` (with every earlier read succeeding). -/
def specGetFails (cur : JSVal) : List String → Bool
  | [] => false
  | part :: rest =>
    match getProp cur part with
    | .error _ => false
    | .ok v => if !rest.isEmpty && isUndefJS v then true else specGetFails v rest

/-- Spec-side failure condition for `setSubProperty`, following the amended
claim's words: the traversal reaches a non-final part whose value is falsy
(with every earlier read succeeding and the final write succeeding). -/
def specSetFails (cur : JSVal) : List String → Bool
  | [] => false
  | [_] => false
  | part :: rest =>
    match getProp cur part with
    | .error _ => false
    | .ok v => if truthy v then specSetFails v rest else true

/-- Spec-side definition, following the claim's words: every intermediate
(non-final) part of the path exists, meaning each successive read succeeds
and yields a defined (non-`undefined`) value. -/
def intermediatesExist (cur : JSVal) : List String → Bool
  | [] => true
  | [_] => true
  | part :: rest =>
    match getProp cur part with
    | .error _ => false
    | .ok v => !isUndefJS v && intermediatesExist v rest

/-- Spec-side definition: the whole path can be traversed without any
implicit error — all intermediates exist and the final read succeeds. -/
def pathTraversable (cur : JSVal) : List String → Bool
  | [] => true
  | [p] => exceptIsOk (getProp cur p)
  | part :: rest =>
    match getProp cur part with
    | .error _ => false
    | .ok v => !isUndefJS v && pathTraversable v rest

/-- Spec-side definition: the value at a nested path, chaining property
reads and defaulting to `undefined` where a read fails (meaningful under
`pathTraversable`). -/
def valueAtPath (cur : JSVal) : List String → JSVal
  | [] => cur
  | part :: rest =>
    match getProp cur part with
    | .error _ => .undefJS
    | .ok v => valueAtPath v rest

/-! ## Part 2: the Select component's selection-state machine

The `Select` class (Select.js) keeps one logical selection consistent
across item records, a hidden input (single mode), a tag list (multiple
mode), a popup select-list and a native select.  The item collection
(`SelectableCollection`), the item element class and the tag list are
external collaborators whose sources are not in the repository snapshot;
their operations are modelled from the spec where noted.  Items are
identified by a stable `id`; the popup-list/native-option mirrors carry no
observable state of their own here, but every programmatic write to them is
logged as an origin-change notification together with the re-entrance flag
in force at that moment. -/

/-- ASCII whitespace, the relevant subset of the `\s` character class used
by `itemValueFromDOM`. -/
def isWS (c : Char) : Bool :=
  c = ' ' || c = '\t' || c = '\n' || c = '\r' || c = '\x0b' || c = '\x0c'

/-- `replace(/\s{2,}/g, ' ')`: every maximal run of two or more whitespace
characters becomes a single space; lone whitespace characters are kept. -/
def collapseWS : List Char → List Char
  | [] => []
  | c :: rest =>
    if isWS c then
      if rest.takeWhile isWS = [] then c :: collapseWS rest
      else ' ' :: collapseWS (rest.dropWhile isWS)
    else c :: collapseWS rest
termination_by l => l.length
decreasing_by
  · simp only [List.length_cons]; omega
  · simp only [List.length_cons]
    exact Nat.lt_succ_of_le (@List.dropWhile_sublist _ rest isWS).length_le
  · simp only [List.length_cons]; omega

/-- `trim()` on both ends. -/
def trimWS (l : List Char) : List Char :=
  ((l.dropWhile isWS).reverse.dropWhile isWS).reverse

/-- `textContent.replace(/\s{2,}/g, ' ').trim()`. -/
def normalizeText (s : String) : String :=
  String.mk (trimWS (collapseWS s.data))

/-- An item record: its `value` attribute (null when not set), its markup
content, and the `disabled`/`selected` attributes.  `id` stands for the
element's stable identity. -/
structure Item where
  id : Nat
  valueAttr : Option String
  content : String
  disabled : Bool
  selected : Bool
deriving Repr, DecidableEq

/-- `itemValueFromDOM`: the value attribute when set (checking explicitly
for null distinguishes missing values from empty strings), otherwise the
whitespace-normalized text content. -/
def itemValueFromDOM (it : Item) : String :=
  match it.valueAttr with
  | some a => a
  | none => normalizeText it.content

/-- `arrayDiff(a, b)`: the elements of `a` that are not in `b`. -/
def arrayDiff (a b : List Nat) : List Nat :=
  a.filter (fun x => !b.contains x)

/-- An entry in the log of observable actions produced while handlers run:
an item's selected attribute being removed or added, a programmatic
view write that makes a mirror view emit its own origin-change
notification (tagged with the `_bulkSelectionChange` flag in force at that
moment), and a `change` event triggered on the Select itself. -/
inductive Act where
  | desel : Nat → Act
  | sel : Nat → Act
  | viewNotify : Bool → Act
  | changeEvt : Act
deriving Repr, DecidableEq

/-- The observable state of one Select component. -/
structure SelectState where
  items : List Item
  multiple : Bool
  placeholderAttr : Option String
  inputValue : String
  taglist : List Nat
  labelText : String
  labelIsPlaceholder : Bool
  bulk : Bool
  initialValues : List String
  overlayOpen : Bool
deriving Repr, DecidableEq

/-- `transform.string(getAttribute('placeholder'))`: the placeholder
attribute as a string, the empty string when absent. -/
def placeholderStr (s : SelectState) : String :=
  s.placeholderAttr.getD ""

/-- Set the selected flag on the item with the given id. -/
def updItems (its : List Item) (id : Nat) (b : Bool) : List Item :=
  its.map fun it => if it.id == id then {it with selected := b} else it

/-- The ids of the selected items of a list, in order. -/
def selIdsOf (its : List Item) : List Nat :=
  (its.filter (fun it => it.selected)).map (fun it => it.id)

/-- Clear the selected flag of each listed item, as pure flag writes. -/
def itemsDeselAll (its : List Item) (l : List Nat) : List Item :=
  l.foldl (fun a j => updItems a j false) its

/-- Item lookup by identity. -/
def findItem (s : SelectState) (id : Nat) : Option Item :=
  s.items.find? (fun it => it.id == id)

/-- Set the selected flag of one item record (the raw attribute write,
before any change handler runs). -/
def updateSelected (s : SelectState) (id : Nat) (b : Bool) : SelectState :=
  {s with items := updItems s.items id b}

/-- Modelled from the spec: `SelectableCollection._getFirstSelected` — the
first item record whose selected attribute is set. -/
def getFirstSelected (s : SelectState) : Option Item :=
  s.items.find? (fun it => it.selected)

/-- Modelled from the spec: `SelectableCollection._getLastSelected` — the
last item record whose selected attribute is set. -/
def getLastSelected (s : SelectState) : Option Item :=
  (s.items.filter (fun it => it.selected)).getLast?

/-- Modelled from the spec: `SelectableCollection._getAllSelected` — all
selected item records in document order. -/
def getAllSelected (s : SelectState) : List Item :=
  s.items.filter (fun it => it.selected)

/-- Modelled from the spec: `SelectableCollection._getFirstSelectable` —
the first candidate for selection, i.e. the first non-disabled item. -/
def getFirstSelectable (s : SelectState) : Option Item :=
  s.items.find? (fun it => !it.disabled)

/-- The ids of the selected item records, in document order. -/
def selIds (s : SelectState) : List Nat :=
  selIdsOf s.items

/-- The number of selected item records. -/
def selCount (s : SelectState) : Nat :=
  (s.items.filter (fun it => it.selected)).length

/-- `Select.selectedItem`: the first selected item in multiple mode, the
last selected item otherwise. -/
def selectedItem (s : SelectState) : Option Item :=
  if s.multiple then getFirstSelected s else getLastSelected s

/-- `Select.selectedItems`: all selected items in multiple mode, the
single `selectedItem` otherwise. -/
def selectedItemsList (s : SelectState) : List Item :=
  if s.multiple then getAllSelected s
  else
    match getLastSelected s with
    | some it => [it]
    | none => []

/-- Write the re-entrance flag. -/
def setBulk (s : SelectState) (b : Bool) : SelectState :=
  {s with bulk := b}

/-- Write the hidden input's value. -/
def setInput (s : SelectState) (v : String) : SelectState :=
  {s with inputValue := v}

/-- Replace the tag list. -/
def setTags (s : SelectState) (l : List Nat) : SelectState :=
  {s with taglist := l}

/-- Write the `is-placeholder` class state of the label. -/
def setLP (s : SelectState) (lp : Bool) : SelectState :=
  {s with labelIsPlaceholder := lp}

/-- Write the label text. -/
def setLT (s : SelectState) (lt : String) : SelectState :=
  {s with labelText := lt}

/-- Open or close the overlay. -/
def setOverlay (s : SelectState) (b : Bool) : SelectState :=
  {s with overlayOpen := b}

/-- Replace the item collection. -/
def setItems (s : SelectState) (its : List Item) : SelectState :=
  {s with items := its}

/-- Replace the initial-value snapshot. -/
def setInitials (s : SelectState) (vs : List String) : SelectState :=
  {s with initialValues := vs}

/-- `Select._addTagToTagList`: prepare (or reuse) the item's tag and append
it to the tag list; appending an element already present moves it to the
end.  The tag list emits its own notification for the mutation. -/
def addTagToTagList (s : SelectState) (id : Nat) : SelectState × List Act :=
  (setTags s ((s.taglist.erase id) ++ [id]), [Act.viewNotify s.bulk])

/-- `Select._removeTagFromTagList`: remove the item's tag when it has one;
a no-op otherwise. -/
def removeTagFromTagList (s : SelectState) (id : Nat) :
    SelectState × List Act :=
  if s.taglist.contains id then
    (setTags s (s.taglist.erase id), [Act.viewNotify s.bulk])
  else (s, [])

/-- `Select._onItemSelected`: sync the popup-list and native entries (the
popup-list write emits the list's own change notification), then add a tag
(multiple) or write the item's value into the hidden input (single). -/
def onItemSelected (s : SelectState) (id : Nat) : SelectState × List Act :=
  match findItem s id with
  | none => (s, [])
  | some it =>
    if s.multiple then
      let (s1, acts1) := addTagToTagList s id
      (s1, Act.viewNotify s.bulk :: acts1)
    else
      (setInput s (itemValueFromDOM it), [Act.viewNotify s.bulk])

/-- `Select._onItemDeselected`: sync the popup-list and native entries,
and in multiple mode remove the item's tag and unhide its list entry. -/
def onItemDeselected (s : SelectState) (id : Nat) : SelectState × List Act :=
  if s.multiple then
    let (s1, acts1) := removeTagFromTagList s id
    (s1, Act.viewNotify s.bulk :: acts1)
  else
    (s, [Act.viewNotify s.bulk])

/-- `Select.values` (getter): the tag-list values in multiple mode, else
the hidden input's value when an item is selected and `[]` otherwise. -/
def valuesGetter (s : SelectState) : List String :=
  if s.multiple then
    s.taglist.filterMap (fun id => (findItem s id).map itemValueFromDOM)
  else if (selectedItem s).isSome then [s.inputValue]
  else []

/-! ### The selected-attribute change cascade

Setting or removing an item's `selected` attribute synchronously runs
`Select._onItemSelectedChange`, which itself removes other items' selected
attributes (single-mode enforcement) and re-derives the label — which can
in turn set a selected attribute (the auto-select side effect).  The
recursion is fuel-indexed; every nested dispatch consumes one unit, and the
operation level supplies `items.length + 16` units, far above the actual
nesting depth. -/

mutual

/-- `setAttribute('selected', '')` / `removeAttribute('selected')` on an
item record: a no-op when the attribute already has the requested state,
otherwise the flag flips and the item's `_selectedchanged` event runs
`Select._onItemSelectedChange` synchronously. -/
def setSelAttr : Nat → SelectState → Nat → Bool → SelectState × List Act
  | 0, s, _, _ => (s, [])
  | fuel+1, s, id, b =>
    match findItem s id with
    | none => (s, [])
    | some it =>
      if it.selected = b then (s, [])
      else
        let s1 := updateSelected s id b
        let (s2, l2) := handleSelectedChange fuel s1 id
        (s2, (if b then Act.sel id else Act.desel id) :: l2)

/-- Modelled from the spec: the iteration of
`SelectableCollection._deselectAllExcept(Last)` — remove the selected
attribute from each listed item in order, each removal running the item
change handler. -/
def deselEach : Nat → SelectState → List Nat → SelectState × List Act
  | 0, s, _ => (s, [])
  | _+1, s, [] => (s, [])
  | fuel+1, s, id :: rest =>
    let (s1, l1) := setSelAttr fuel s id false
    let (s2, l2) := deselEach fuel s1 rest
    (s2, l1 ++ l2)

/-- `Select._onItemSelectedChange`: raise the re-entrance flag, sync the
views for the item that changed (enforcing single-selection by deselecting
every other selected item), lower the flag, then update the label. -/
def handleSelectedChange : Nat → SelectState → Nat → SelectState × List Act
  | 0, s, _ => (s, [])
  | fuel+1, s, id =>
    let s0 := setBulk s true
    let (s1, l1) :=
      match findItem s0 id with
      | none => (s0, ([] : List Act))
      | some it =>
        if it.selected then
          let (sa, la) := onItemSelected s0 id
          if sa.multiple = false then
            let toDesel := (selIds sa).filter (fun j => j ≠ id)
            let (sb, lb) := deselEach fuel sa toDesel
            (sb, la ++ lb)
          else (sa, la)
        else
          onItemDeselected s0 id
    let s2 := setBulk s1 false
    let (s3, l3) := syncLabel fuel s2
    (s3, l1 ++ l3)

/-- The body of the `placeholder` setter when rerun with the current
placeholder attribute: show the placeholder (cases 1, 2, 6), the generic
"Select" label (cases 7, 8), or — no placeholder, single mode, no
selection (case 4) — clear the input and auto-select the first selectable
item, taking its content as label; with a single-mode selection the setter
changes nothing. -/
def placeholderSetterStep : Nat → SelectState → SelectState × List Act
  | 0, s => (s, [])
  | fuel+1, s =>
    let p := placeholderStr s
    if p ≠ "" ∧ (s.multiple = true ∨ selectedItem s = none) then
      (setLT (setLP s true) p, ([] : List Act))
    else if s.multiple = true then
      (setLT (setLP s true) "Select", [])
    else if selectedItem s = none then
      let sA := setLP (setInput s "") false
      match getFirstSelectable sA with
      | some it =>
        let (s2, l2) := setSelAttr fuel sA it.id true
        (setLT s2 it.content, l2)
      | none => (setLT sA "", [])
    else (s, [])

/-- `Select._syncSelectedItemPlaceholder` (the body of `_updateLabel`):
rerun the placeholder setter with the current placeholder attribute, then,
in single mode with a selection, overwrite the label with the selected
item's content (cases 3, 5). -/
def syncLabel : Nat → SelectState → SelectState × List Act
  | 0, s => (s, [])
  | fuel+1, s =>
    let (s1, l1) := placeholderSetterStep fuel s
    match selectedItem s1, s1.multiple with
    | some it, false => (setLT (setLP s1 false) it.content, l1)
    | _, _ => (s1, l1)

end

/-- Fuel supplied at operation level: far above the nesting depth any
cascade can reach. -/
def opFuel (s : SelectState) : Nat :=
  s.items.length + 16

/-- Remove the selected attribute from each listed item (the deselection
loop of the origin-change handlers); each step runs at full fuel. -/
def deselIdList (f : Nat) : SelectState → List Nat → SelectState × List Act
  | s, [] => (s, [])
  | s, id :: rest =>
    let (s1, l1) := setSelAttr f s id false
    let (s2, l2) := deselIdList f s1 rest
    (s2, l1 ++ l2)

/-- Set the selected attribute on each listed item (the selection loop of
the origin-change handlers). -/
def selIdList (f : Nat) : SelectState → List Nat → SelectState × List Act
  | s, [] => (s, [])
  | s, id :: rest =>
    let (s1, l1) := setSelAttr f s id true
    let (s2, l2) := selIdList f s1 rest
    (s2, l1 ++ l2)

/-- Modelled from the spec: `SelectableCollection._deselectAllExceptLast`
removes the selected attribute from every selected item but the last. -/
def deselectAllExceptLast (f : Nat) (s : SelectState) :
    SelectState × List Act :=
  deselEach f s (selIds s).dropLast

/-- `Select._setStateFromDOM`: in single mode, make sure only one item is
selected; with no selected item clear the input and — when no placeholder
is set — force-select the first selectable item like a native select; then
update the label. -/
def setStateFromDOM (f : Nat) (s : SelectState) : SelectState × List Act :=
  if s.multiple = false then
    let (s1, l1) := deselectAllExceptLast f s
    match getFirstSelected s1 with
    | none =>
      let s2 := setInput s1 ""
      if placeholderStr s2 = "" then
        match getFirstSelectable s2 with
        | some it =>
          let (s3, l3) := setSelAttr f s2 it.id true
          let (s5, l5) := syncLabel f (setInput s3 (itemValueFromDOM it))
          (s5, l1 ++ l3 ++ l5)
        | none =>
          let (s5, l5) := syncLabel f s2
          (s5, l1 ++ l5)
      else
        let (s5, l5) := syncLabel f s2
        (s5, l1 ++ l5)
    | some sel =>
      let (s5, l5) := syncLabel f (setInput s1 (itemValueFromDOM sel))
      (s5, l1 ++ l5)
  else
    syncLabel f s

/-- The multiple-mode loop of the `values` setter: every item whose value
is in the assigned array gets the selected attribute, every other item
loses it. -/
def valuesSetMultiLoop (f : Nat) (vs : List String) :
    SelectState → List Nat → SelectState × List Act
  | s, [] => (s, [])
  | s, id :: rest =>
    let b :=
      match findItem s id with
      | some it => vs.contains (itemValueFromDOM it)
      | none => false
    let (s1, l1) := setSelAttr f s id b
    let (s2, l2) := valuesSetMultiLoop f vs s1 rest
    (s2, l1 ++ l2)

/-- The single-mode loop of the `values` setter: select the first item
matching the value (remembering it as the target), deselect every other
item. -/
def valuesSetSingleLoop (f : Nat) (v : String) :
    SelectState → List Nat → Option Nat →
    SelectState × List Act × Option Nat
  | s, [], target => (s, [], target)
  | s, id :: rest, target =>
    match target with
    | some t =>
      let (s1, l1) := setSelAttr f s id false
      let (s2, l2, t2) := valuesSetSingleLoop f v s1 rest (some t)
      (s2, l1 ++ l2, t2)
    | none =>
      match findItem s id with
      | none =>
        let (s2, l2, t2) := valuesSetSingleLoop f v s rest none
        (s2, l2, t2)
      | some it =>
        if itemValueFromDOM it = v then
          let (s1, l1) := setSelAttr f s id true
          let (s2, l2, t2) := valuesSetSingleLoop f v s1 rest (some id)
          (s2, l1 ++ l2, t2)
        else
          let (s1, l1) := setSelAttr f s id false
          let (s2, l2, t2) := valuesSetSingleLoop f v s1 rest none
          (s2, l1 ++ l2, t2)

/-- `Select.values` (setter): in single mode only the first assigned value
counts; multiple mode sets each item's selected attribute by membership;
single mode selects the first match and deselects the rest, falling back
to `_setStateFromDOM` when no item matches. -/
def assignValues (s : SelectState) (vs0 : List String) :
    SelectState × List Act :=
  let vs := if s.multiple = false ∧ vs0.length > 1 then [vs0.headI] else vs0
  let ids := s.items.map (fun it => it.id)
  if s.multiple then
    valuesSetMultiLoop (opFuel s) vs s ids
  else
    let v := vs.headI
    let (s1, l1, target) := valuesSetSingleLoop (opFuel s) v s ids none
    match target with
    | none =>
      let (s2, l2) := setStateFromDOM (opFuel s) s1
      (s2, l1 ++ l2)
    | some _ => (s1, l1)

/-- `Select._onSelectListChange`: ignore re-entrant events; otherwise,
with distinct old/new selections, deselect the items leaving the selection
before selecting the items entering it, then close an open overlay and —
when the overlay was open and something entered the selection — trigger a
change event. -/
def onSelectListChange (s : SelectState) (old new : List Nat) :
    SelectState × List Act :=
  if s.bulk then (s, [])
  else if old ≠ new then
    let s0 := setBulk s true
    let leaving := arrayDiff old new
    let (s1, l1) := deselIdList (opFuel s) s0 leaving
    let entering := arrayDiff new old
    let (s2, l2) := selIdList (opFuel s) s1 entering
    let s3 := setBulk s2 false
    if s3.overlayOpen then
      let s4 := setOverlay s3 false
      if entering ≠ [] then (s4, l1 ++ l2 ++ [Act.changeEvt])
      else (s4, l1 ++ l2)
    else (s3, l1 ++ l2)
  else if s.overlayOpen then (setOverlay s false, [])
  else (s, [])

/-- The loop of `Select._onTagListChange` over the previously selected
items: keep an item selected iff its value is still among the tag-list
values. -/
def tagLoop (f : Nat) (vs : List String) :
    SelectState → List Nat → SelectState × List Act
  | s, [] => (s, [])
  | s, id :: rest =>
    let b :=
      match findItem s id with
      | some it => vs.contains (itemValueFromDOM it)
      | none => false
    let (s1, l1) := setSelAttr f s id b
    let (s2, l2) := tagLoop f vs s1 rest
    (s2, l1 ++ l2)

/-- `Select._onTagListChange`: ignore re-entrant events; otherwise update
the selected items against the tag-list values and trigger a change
event. -/
def onTagListChange (s : SelectState) (vs : List String) :
    SelectState × List Act :=
  if s.bulk then (s, [])
  else
    let s0 := setBulk s true
    let snapshot := (getAllSelected s0).map (fun it => it.id)
    let (s1, l1) := tagLoop (opFuel s) vs s0 snapshot
    (setBulk s1 false, l1 ++ [Act.changeEvt])

/-- `Select._onNativeSelectChange`: ignore re-entrant events; otherwise
diff the previously selected items against the checked native options,
deselect the leavers, select the enterers, and trigger a change event. -/
def onNativeSelectChange (s : SelectState) (checked : List Nat) :
    SelectState × List Act :=
  if s.bulk then (s, [])
  else
    let s0 := setBulk s true
    let oldSel := (selectedItemsList s0).map (fun it => it.id)
    let (s1, l1) := deselIdList (opFuel s) s0 (arrayDiff oldSel checked)
    let (s2, l2) := selIdList (opFuel s) s1 (arrayDiff checked oldSel)
    (setBulk s2 false, l1 ++ l2 ++ [Act.changeEvt])

/-- A user interaction with the popup list on item `id`: the select list
first emits `beforechange` (`Select._onSelectListBeforeChange` prevents it
and closes the overlay when the clicked single-mode item is already
selected); otherwise the list changes its selection — modelled from the
spec as replacement in single mode and toggling in multiple mode — and
emits the change handled by `Select._onSelectListChange`. -/
def selectListInteract (s : SelectState) (id : Nat) :
    SelectState × List Act :=
  match findItem s id with
  | none => (s, [])
  | some it =>
    if s.multiple = false ∧ it.selected = true then
      (setOverlay s false, [])
    else
      let old := (selectedItemsList s).map (fun i => i.id)
      let new :=
        if s.multiple then
          if old.contains id then old.erase id else old ++ [id]
        else [id]
      onSelectListChange s old new

/-- Adding an item element to the DOM (`_onItemAdded` followed by the
collection-change callback): ignored when the id is already taken, so that
identities stay unique. -/
def addItemOp (s : SelectState) (it : Item) : SelectState × List Act :=
  if (s.items.map (fun j => j.id)).contains it.id then (s, [])
  else
    let s1 := setItems s (s.items ++ [it])
    let (s2, l2) :=
      if s1.multiple ∧ it.selected then addTagToTagList s1 it.id
      else if s1.multiple = false ∧ it.selected then
        (setInput s1 (itemValueFromDOM it), [])
      else (s1, [])
    let (s3, l3) := setStateFromDOM (opFuel s1) s2
    (s3, l2 ++ l3)

/-- Removing an item element (`_onItemRemoved` then `_onCollectionChange`:
`_validateInitialState` drops the removed item's value from the initial
snapshot, then `_setStateFromDOM` revalidates the selection). -/
def removeItemOp (s : SelectState) (id : Nat) : SelectState × List Act :=
  match findItem s id with
  | none => (s, [])
  | some it =>
    let s1 := setItems s (s.items.filter (fun j => !(j.id == id)))
    let (s2, l2) := removeTagFromTagList s1 id
    let s3 := setInitials s2 (s2.initialValues.erase (itemValueFromDOM it))
    let (s4, l4) := setStateFromDOM (opFuel s3) s3
    (s4, l2 ++ l4)

/-- The operations a Select can undergo after attachment: direct item
attribute changes, popup-list interactions (user clicks and raw change
events), tag-list changes, native-control changes, `values` assignments,
item insertion/removal, and `reset()`. -/
inductive Op where
  | setSelected : Nat → Bool → Op
  | listInteract : Nat → Op
  | listChange : List Nat → List Nat → Op
  | tagChange : List String → Op
  | nativeChange : List Nat → Op
  | valuesAssign : List String → Op
  | addItem : Item → Op
  | removeItem : Nat → Op
  | reset : Op
deriving Repr, DecidableEq

/-- Apply one operation. `reset()` assigns the initial-value snapshot back
through the `values` setter. -/
def applyOp (s : SelectState) (op : Op) : SelectState × List Act :=
  match op with
  | .setSelected id b => setSelAttr (opFuel s) s id b
  | .listInteract id => selectListInteract s id
  | .listChange old new => onSelectListChange s old new
  | .tagChange vs => onTagListChange s vs
  | .nativeChange checked => onNativeSelectChange s checked
  | .valuesAssign vs => assignValues s vs
  | .addItem it => addItemOp s it
  | .removeItem id => removeItemOp s id
  | .reset => assignValues s s.initialValues

/-- Apply a sequence of operations, discarding logs. -/
def applyOps (s : SelectState) (ops : List Op) : SelectState :=
  ops.foldl (fun st op => (applyOp st op).1) s

/-- First attachment (`connectedCallback`): materialize the views for the
declared items, run the initial `_setStateFromDOM`, then snapshot the
selected values as the initial values used by `reset()`. -/
def attach (s : SelectState) : SelectState :=
  let s1 :=
    s.items.foldl
      (fun st it =>
        if st.multiple ∧ it.selected then (addTagToTagList st it.id).1
        else if st.multiple = false ∧ it.selected then
          setInput st (itemValueFromDOM it)
        else st)
      (setInitials s [])
  let s2 := (setStateFromDOM (opFuel s1) s1).1
  setInitials s2 ((selectedItemsList s2).map itemValueFromDOM)

/-! ### Shape preservation

The change cascade only ever mutates `selected` flags, the input value,
the tag list, the label, the overlay and the re-entrance flag: the item
identities, values, contents, disabled flags, the mode, the placeholder
attribute and the initial-value snapshot are untouched. -/

/-- Everything of an item except its selected flag. -/
def stripItem (it : Item) : Nat × Option String × String × Bool :=
  (it.id, it.valueAttr, it.content, it.disabled)

/-- The parts of the state the cascade never changes. -/
def shape (s : SelectState) :
    List (Nat × Option String × String × Bool) × Bool ×
      Option String × List String × Bool :=
  (s.items.map stripItem, s.multiple, s.placeholderAttr, s.initialValues,
    s.overlayOpen)

/-! ### List-level facts about selected flags -/

/-- Well-formedness: item identities are pairwise distinct. -/
def WFids (its : List Item) : Prop :=
  (its.map (fun it => it.id)).Nodup

/-- Well-formedness of a state. -/
def WF (s : SelectState) : Prop :=
  WFids s.items

/-- The view-materializing fold run by `connectedCallback` before the
initial `_setStateFromDOM`. -/
def attachFoldState (s : SelectState) : SelectState :=
  s.items.foldl (fun st it =>
    if st.multiple ∧ it.selected then (addTagToTagList st it.id).1
    else if st.multiple = false ∧ it.selected then
      setInput st (itemValueFromDOM it)
    else st) (setInitials s [])

/-- A concrete two-item single-mode Select used to instantiate the
single-selection invariant. -/
def sampleSingleSelect : SelectState :=
  { items :=
      [{ id := 0, valueAttr := some "a", content := "A", disabled := false,
         selected := false },
       { id := 1, valueAttr := some "b", content := "B", disabled := false,
         selected := false }],
    multiple := false, placeholderAttr := some "Pick", inputValue := "",
    taglist := [], labelText := "", labelIsPlaceholder := false,
    bulk := false, initialValues := [], overlayOpen := false }

/-- A concrete single-mode Select whose first item is selected. -/
def sampleSelectedSingle : SelectState :=
  { items :=
      [{ id := 0, valueAttr := some "a", content := "A", disabled := false,
         selected := true },
       { id := 1, valueAttr := some "b", content := "B", disabled := false,
         selected := false }],
    multiple := false, placeholderAttr := none, inputValue := "a",
    taglist := [], labelText := "A", labelIsPlaceholder := false,
    bulk := false, initialValues := ["a"], overlayOpen := true }

/-- Every view write recorded in the log happened while the re-entrance
flag was raised. -/
def notifyFlagsTrue (l : List Act) : Prop :=
  ∀ b : Bool, Act.viewNotify b ∈ l → b = true

/-- A concrete multiple-mode Select with two distinct items carrying the
same value. -/
def sampleDupMulti : SelectState :=
  { items :=
      [{ id := 0, valueAttr := some "a", content := "A", disabled := false,
         selected := false },
       { id := 1, valueAttr := some "a", content := "B", disabled := false,
         selected := false }],
    multiple := true, placeholderAttr := none, inputValue := "",
    taglist := [], labelText := "", labelIsPlaceholder := false,
    bulk := false, initialValues := [], overlayOpen := false }

/-- A concrete one-item Select, its item pre-selected in the DOM, used to
exercise the reset snapshot. -/
def sampleResetSelect : SelectState :=
  { items :=
      [{ id := 0, valueAttr := some "a", content := "A", disabled := false,
         selected := true }],
    multiple := false, placeholderAttr := some "P", inputValue := "a",
    taglist := [], labelText := "A", labelIsPlaceholder := false,
    bulk := false, initialValues := [], overlayOpen := false }

/-- The same item element, re-inserted after its removal. -/
def sampleResetItem : Item :=
  { id := 0, valueAttr := some "a", content := "A", disabled := false,
    selected := true }

/-! ## Theorems -/

/-! ### Lemmas about the Commons helpers -/

/-- `getProp` never signals the explicit source error; its failures are
implicit TypeErrors. -/
theorem getProp_not_explicit (cur : JSVal) (k : String) :
    isExplicitErr (getProp cur k) = false := by
  cases cur <;> rfl

/-- `setProp` never signals the explicit source error. -/
theorem setProp_not_explicit (cur : JSVal) (k : String) (x : JSVal) :
    isExplicitErr (setProp cur k x) = false := by
  cases cur <;> rfl

/-- The explicit-error behaviour of the `getSubProperty` traversal matches
the spec-side failure condition: an undefined value at a non-final part. -/
theorem getSubPropertyParts_explicit (parts : List String) :
    ∀ cur : JSVal, isExplicitErr (getSubPropertyParts cur parts) =
      specGetFails cur parts := by
  induction parts with
  | nil => intro cur; rfl
  | cons part rest ih =>
    intro cur
    simp only [getSubPropertyParts, specGetFails]
    cases hget : getProp cur part with
    | error e =>
      have h0 := getProp_not_explicit cur part
      rw [hget] at h0
      exact h0
    | ok v =>
      by_cases hc : (!rest.isEmpty && isUndefJS v) = true
      · simp [hc, isExplicitErr]
      · simp only [Bool.not_eq_true] at hc
        simp [hc, ih v]

/-- The explicit-error behaviour of the `setSubProperty` traversal matches
the spec-side failure condition: a falsy value at a non-final part. -/
theorem setSubPropertyParts_explicit (parts : List String) (x : JSVal) :
    ∀ cur : JSVal, isExplicitErr (setSubPropertyParts cur parts x) =
      specSetFails cur parts := by
  induction parts with
  | nil => intro cur; rfl
  | cons part rest ih =>
    intro cur
    cases rest with
    | nil =>
      simp only [setSubPropertyParts, specSetFails]
      exact setProp_not_explicit cur part x
    | cons q qs =>
      simp only [setSubPropertyParts, specSetFails]
      cases hget : getProp cur part with
      | error e =>
        have h0 := getProp_not_explicit cur part
        rw [hget] at h0
        exact h0
      | ok v =>
        by_cases ht : truthy v = true
        · simp only [ht, if_true]
          cases hrec : setSubPropertyParts v (q :: qs) x with
          | error e2 =>
            have h2 := ih v
            rw [hrec] at h2
            exact h2
          | ok v2 =>
            have h2 := ih v
            rw [hrec] at h2
            rw [← h2]
            simp only [isExplicitErr] at h2 ⊢
            exact setProp_not_explicit cur part v2
        · simp only [Bool.not_eq_true] at ht
          simp [ht, isExplicitErr]

/-- When the whole path is traversable, the `getSubProperty` loop returns
exactly the chained value at the path. -/
theorem getSubPropertyParts_traversable (parts : List String) :
    ∀ cur : JSVal, pathTraversable cur parts = true →
      getSubPropertyParts cur parts = .ok (valueAtPath cur parts) := by
  induction parts with
  | nil => intro cur _; rfl
  | cons part rest ih =>
    intro cur htrav
    cases rest with
    | nil =>
      simp only [pathTraversable] at htrav
      cases hget : getProp cur part with
      | error e => rw [hget] at htrav; simp [exceptIsOk] at htrav
      | ok v =>
        simp [getSubPropertyParts, hget, valueAtPath]
    | cons q qs =>
      simp only [pathTraversable] at htrav
      cases hget : getProp cur part with
      | error e => rw [hget] at htrav; simp at htrav
      | ok v =>
        rw [hget] at htrav
        simp only [Bool.and_eq_true, Bool.not_eq_true'] at htrav
        simp only [getSubPropertyParts, hget, valueAtPath, htrav.1,
          List.isEmpty_cons, Bool.not_false, Bool.and_false,
          Bool.false_eq_true, if_false]
        exact ih v htrav.2

/-- A spec-side failure of the get traversal refutes the existence of all
intermediate parts. -/
theorem specGetFails_not_intermediatesExist (parts : List String) :
    ∀ cur : JSVal, specGetFails cur parts = true →
      intermediatesExist cur parts = false := by
  induction parts with
  | nil => intro cur h; simp [specGetFails] at h
  | cons part rest ih =>
    intro cur h
    cases rest with
    | nil =>
      simp only [specGetFails] at h
      cases hget : getProp cur part with
      | error e => rw [hget] at h; simp at h
      | ok v => rw [hget] at h; simp [List.isEmpty_nil] at h
    | cons q qs =>
      simp only [specGetFails] at h
      simp only [intermediatesExist]
      cases hget : getProp cur part with
      | error e => rw [hget] at h
      | ok v =>
        rw [hget] at h
        by_cases hu : isUndefJS v = true
        · simp [hu]
        · simp only [Bool.not_eq_true] at hu
          simp only [hu, List.isEmpty_cons, Bool.not_false, Bool.and_false,
            Bool.false_eq_true, if_false] at h
          simp [hu, ih v h]

/-! ### Claim C8 and C10 -/

/-- C8 counterexample: `setSubProperty` on root `{a: 0}` with path `"a.b"`
raises the explicit error even though the intermediate part `a` is present
(with value `0`), refuting "each raises if and only if its failure
condition holds ... a nested property path whose intermediate part is
absent": the set-traversal tests truthiness, not absence. -/
theorem claimC8_counterexample :
    isExplicitErr
      (setSubProperty (JSVal.obj [("a", JSVal.num 0)]) "a.b" (JSVal.num 1))
      = true
    ∧ intermediatesExist (JSVal.obj [("a", JSVal.num 0)]) (splitOnDot "a.b")
      = true
    ∧ getProp (JSVal.obj [("a", JSVal.num 0)]) "a" = Except.ok (JSVal.num 0) :=
  ⟨rfl, rfl, rfl⟩

/-- C8 (amended): the explicit errors of the codebase are exactly
characterized — `_applyMixin` raises iff the mixin is neither a function
nor a non-null object; `getSubProperty` raises its explicit error iff the
traversal reads `undefined` at a non-final part; `setSubProperty` raises
its explicit error iff the traversal reads a falsy value (absent or
present-but-falsy) at a non-final part. -/
theorem claimC8_errorCharacterization :
    (∀ t m, isExplicitErr (applyMixin t m) = true ↔
      typeofJS m ≠ "function" ∧ (typeofJS m ≠ "object" ∨ m = JSVal.null))
    ∧ (∀ root path, isExplicitErr (getSubProperty root path) =
        specGetFails root (splitOnDot path))
    ∧ (∀ root path x, isExplicitErr (setSubProperty root path x) =
        specSetFails root (splitOnDot path)) := by
  refine ⟨?_, ?_, ?_⟩
  · intro t m
    cases m <;> simp [applyMixin, typeofJS, isExplicitErr]
  · intro root path
    exact getSubPropertyParts_explicit (splitOnDot path) root
  · intro root path x
    exact setSubPropertyParts_explicit (splitOnDot path) x root

/-- Witness for C8: a number mixin raises the explicit mixin error. -/
theorem claimC8_errorCharacterization_witness :
    isExplicitErr (applyMixin (JSVal.obj []) (JSVal.num 3)) = true :=
  (claimC8_errorCharacterization.1 (JSVal.obj []) (JSVal.num 3)).mpr
    ⟨by decide, Or.inl (by decide)⟩

/-- C10 counterexample: on root `{a: null}` and path `"a.b"` every
intermediate part exists, yet `getSubProperty` returns no value (reading a
property of `null` raises an implicit TypeError, not even the explicit
error the claim describes), refuting "returns the value at the path ...
throws only when an intermediate part is missing". -/
theorem claimC10_counterexample :
    exceptIsOk (getSubProperty (JSVal.obj [("a", JSVal.null)]) "a.b") = false
    ∧ isExplicitErr (getSubProperty (JSVal.obj [("a", JSVal.null)]) "a.b")
      = false
    ∧ intermediatesExist (JSVal.obj [("a", JSVal.null)]) (splitOnDot "a.b")
      = true :=
  ⟨rfl, rfl, rfl⟩

/-- C10 (amended): when every traversal step of the path succeeds (all
intermediate parts exist and no step reads a property of `null` or
`undefined`), `getSubProperty` returns the chained value at the path —
`undefined` rather than an error when only the final part is absent — and
its explicit "part not found" error implies some intermediate part is
missing. -/
theorem claimC10_getSubProperty (root : JSVal) (path : String)
    (parts : List String) (hsplit : splitOnDot path = parts) :
    (pathTraversable root parts = true →
      getSubProperty root path = Except.ok (valueAtPath root parts))
    ∧ (isExplicitErr (getSubProperty root path) = true →
      intermediatesExist root parts = false) := by
  subst hsplit
  constructor
  · intro h
    exact getSubPropertyParts_traversable (splitOnDot path) root h
  · intro h
    have h2 : specGetFails root (splitOnDot path) = true := by
      rw [← getSubPropertyParts_explicit (splitOnDot path) root]
      exact h
    exact specGetFails_not_intermediatesExist (splitOnDot path) root h2

/-- Witness for C10: reading `"a.b.c"` on `{a: {b: 7}}` traverses the
defined intermediates and returns `undefined` for the absent final part. -/
theorem claimC10_getSubProperty_witness :
    getSubProperty (JSVal.obj [("a", JSVal.obj [("b", JSVal.num 7)])]) "a.b.c"
      = Except.ok JSVal.undefJS :=
  ((claimC10_getSubProperty
      (JSVal.obj [("a", JSVal.obj [("b", JSVal.num 7)])]) "a.b.c"
      ["a", "b", "c"] (by decide)).1 (by decide)).trans rfl

theorem updateSelected_def (s : SelectState) (id : Nat) (b : Bool) :
    updateSelected s id b = {s with items := updItems s.items id b} := rfl

theorem shape_updateSelected (s : SelectState) (id : Nat) (b : Bool) :
    shape (updateSelected s id b) = shape s := by
  unfold shape updateSelected updItems
  simp only [List.map_map]
  congr 1
  apply List.map_congr_left
  intro it _
  by_cases h : it.id == id <;> simp [Function.comp, stripItem, h]

theorem shape_addTag (s : SelectState) (id : Nat) :
    shape (addTagToTagList s id).1 = shape s := rfl

theorem shape_removeTag (s : SelectState) (id : Nat) :
    shape (removeTagFromTagList s id).1 = shape s := by
  simp only [removeTagFromTagList]
  split <;> rfl

theorem shape_onItemSelected (s : SelectState) (id : Nat) :
    shape (onItemSelected s id).1 = shape s := by
  simp only [onItemSelected]
  split
  · rfl
  · split
    · exact shape_addTag _ _
    · rfl

theorem shape_onItemDeselected (s : SelectState) (id : Nat) :
    shape (onItemDeselected s id).1 = shape s := by
  simp only [onItemDeselected]
  split
  · exact shape_removeTag _ _
  · rfl

/-- Shape preservation for the whole cascade, by induction on fuel. -/
theorem knotShape : ∀ f : Nat,
    (∀ s id b, shape (setSelAttr f s id b).1 = shape s)
    ∧ (∀ s l, shape (deselEach f s l).1 = shape s)
    ∧ (∀ s id, shape (handleSelectedChange f s id).1 = shape s)
    ∧ (∀ s, shape (placeholderSetterStep f s).1 = shape s)
    ∧ (∀ s, shape (syncLabel f s).1 = shape s) := by
  intro f
  induction f with
  | zero => exact ⟨fun s id b => rfl, fun s l => rfl, fun s id => rfl,
      fun s => rfl, fun s => rfl⟩
  | succ f ih =>
    obtain ⟨ihSet, ihEach, ihHandle, ihStep, ihSync⟩ := ih
    have hSet : ∀ s id b, shape (setSelAttr (f+1) s id b).1 = shape s := by
      intro s id b
      simp only [setSelAttr]
      split
      · rfl
      · split
        · rfl
        · exact (ihHandle _ _).trans (shape_updateSelected _ _ _)
    have hEach : ∀ s l, shape (deselEach (f+1) s l).1 = shape s := by
      intro s l
      match l with
      | [] => rfl
      | id :: rest =>
        simp only [deselEach]
        exact (ihEach _ _).trans (ihSet _ _ _)
    have hHandle : ∀ s id, shape (handleSelectedChange (f+1) s id).1
        = shape s := by
      intro s id
      simp only [handleSelectedChange]
      refine (ihSync _).trans ?_
      split
      · rfl
      · split
        · split
          · exact (ihEach _ _).trans (shape_onItemSelected _ _)
          · exact shape_onItemSelected _ _
        · exact shape_onItemDeselected _ _
    have hStep : ∀ s, shape (placeholderSetterStep (f+1) s).1 = shape s := by
      intro s
      simp only [placeholderSetterStep]
      split
      · rfl
      · split
        · rfl
        · split
          · split
            · exact ihSet _ _ _
            · rfl
          · rfl
    have hSync : ∀ s, shape (syncLabel (f+1) s).1 = shape s := by
      intro s
      simp only [syncLabel]
      split
      · exact ihStep s
      · exact ihStep s
    exact ⟨hSet, hEach, hHandle, hStep, hSync⟩

theorem updItems_cons (it : Item) (rest : List Item) (id : Nat) (b : Bool) :
    updItems (it :: rest) id b =
      (if it.id == id then {it with selected := b} else it) ::
        updItems rest id b := rfl

theorem selIdsOf_cons (it : Item) (rest : List Item) :
    selIdsOf (it :: rest) =
      if it.selected then it.id :: selIdsOf rest else selIdsOf rest := by
  unfold selIdsOf
  by_cases h : it.selected = true <;> simp [List.filter_cons, h]

theorem updItems_map_id (its : List Item) (id : Nat) (b : Bool) :
    (updItems its id b).map (fun it => it.id) = its.map (fun it => it.id) := by
  induction its with
  | nil => rfl
  | cons it rest ih =>
    rw [updItems_cons]
    by_cases h : (it.id == id) = true <;> simp [h, ih]

theorem updItems_absent (its : List Item) (id : Nat) (b : Bool)
    (h : id ∉ its.map (fun it => it.id)) : updItems its id b = its := by
  induction its with
  | nil => rfl
  | cons it rest ih =>
    simp only [List.map_cons, List.mem_cons, not_or] at h
    have hne : (it.id == id) = false := by
      simp only [beq_eq_false_iff_ne, ne_eq]
      exact fun he => h.1 he.symm
    rw [updItems_cons, hne]
    simp only [Bool.false_eq_true, if_false]
    rw [ih h.2]

theorem mem_selIdsOf (its : List Item) (x : Nat) :
    x ∈ selIdsOf its → x ∈ its.map (fun it => it.id) := by
  intro hx
  unfold selIdsOf at hx
  simp only [List.mem_map, List.mem_filter] at hx
  obtain ⟨it, ⟨hmem, _⟩, hid⟩ := hx
  exact List.mem_map.mpr ⟨it, hmem, hid⟩

theorem selIdsOf_nodup (its : List Item) (h : WFids its) :
    (selIdsOf its).Nodup := by
  unfold selIdsOf
  have hsub : List.Sublist
      ((its.filter (fun it => it.selected)).map (fun it => it.id))
      (its.map (fun it => it.id)) :=
    (List.filter_sublist its).map (fun it => it.id)
  exact h.sublist hsub

theorem selIdsOf_updItems_false (its : List Item) (id : Nat)
    (h : WFids its) :
    selIdsOf (updItems its id false) = (selIdsOf its).erase id := by
  induction its with
  | nil => rfl
  | cons it rest ih =>
    simp only [WFids, List.map_cons, List.nodup_cons] at h
    obtain ⟨hhead, htail⟩ := h
    rw [updItems_cons]
    by_cases hid : (it.id == id) = true
    · have hideq : it.id = id := by simpa using hid
      have habs : id ∉ rest.map (fun j => j.id) := by
        rw [← hideq]; exact hhead
      rw [hid]
      simp only [if_true]
      rw [updItems_absent rest id false habs]
      have hnot : id ∉ selIdsOf rest := fun hc => habs (mem_selIdsOf _ _ hc)
      by_cases hsel : it.selected = true
      · rw [selIdsOf_cons, selIdsOf_cons]
        simp only [hsel, if_true]
        rw [hideq, List.erase_cons_head]
        simp
      · simp only [Bool.not_eq_true] at hsel
        rw [selIdsOf_cons, selIdsOf_cons]
        simp only [hsel, Bool.false_eq_true, if_false]
        rw [List.erase_of_not_mem hnot]
    · have hid2 : (it.id == id) = false := by
        simpa using hid
      rw [hid2]
      simp only [Bool.false_eq_true, if_false]
      have hne : it.id ≠ id := by simpa using hid
      rw [selIdsOf_cons, selIdsOf_cons]
      by_cases hsel : it.selected = true
      · simp only [hsel, if_true]
        rw [List.erase_cons_tail, ih htail]
        simpa using hne
      · simp only [Bool.not_eq_true] at hsel
        simp only [hsel, Bool.false_eq_true, if_false]
        exact ih htail

theorem selIdsOf_updItems_true_filter (its : List Item) (id : Nat) :
    (selIdsOf (updItems its id true)).filter (fun x => decide (x ≠ id)) =
      (selIdsOf its).filter (fun x => decide (x ≠ id)) := by
  induction its with
  | nil => rfl
  | cons it rest ih =>
    rw [updItems_cons]
    by_cases hid : (it.id == id) = true
    · have hideq : it.id = id := by simpa using hid
      rw [hid]
      simp only [if_true]
      rw [selIdsOf_cons, selIdsOf_cons]
      by_cases hsel : it.selected = true
      · simp only [hsel, if_true]
        simp only [List.filter_cons, hideq]
        simp only [ne_eq, not_true_eq_false, decide_False]
        exact ih
      · simp only [Bool.not_eq_true] at hsel
        simp only [hsel, Bool.false_eq_true, if_false, if_true]
        simp only [List.filter_cons, hideq]
        simp only [ne_eq, not_true_eq_false, decide_False]
        exact ih
    · have hid2 : (it.id == id) = false := by
        simpa using hid
      rw [hid2]
      simp only [Bool.false_eq_true, if_false]
      rw [selIdsOf_cons, selIdsOf_cons]
      by_cases hsel : it.selected = true
      · simp only [hsel, if_true, List.filter_cons]
        cases hdec : decide (it.id ≠ id)
        · simpa [hdec] using ih
        · simpa [hdec] using ih
      · simp only [Bool.not_eq_true] at hsel
        simp only [hsel, Bool.false_eq_true, if_false]
        exact ih

theorem mem_selIdsOf_updItems_true (its : List Item) (id : Nat)
    (hmem : id ∈ its.map (fun it => it.id)) :
    id ∈ selIdsOf (updItems its id true) := by
  induction its with
  | nil => simp at hmem
  | cons it rest ih =>
    rw [updItems_cons]
    by_cases hid : (it.id == id) = true
    · have hideq : it.id = id := by simpa using hid
      rw [hid]
      simp only [if_true]
      rw [selIdsOf_cons]
      simp [hideq]
    · simp only [List.map_cons, List.mem_cons] at hmem
      have hmem2 : id ∈ rest.map (fun it => it.id) := by
        rcases hmem with h | h
        · exact absurd h.symm (by simpa using hid)
        · exact h
      have hid2 : (it.id == id) = false := by
        simpa using hid
      rw [hid2]
      simp only [Bool.false_eq_true, if_false]
      rw [selIdsOf_cons]
      by_cases hsel : it.selected = true
      · simp only [hsel, if_true, List.mem_cons]
        exact Or.inr (ih hmem2)
      · simp only [Bool.not_eq_true] at hsel
        simp only [hsel, Bool.false_eq_true, if_false]
        exact ih hmem2

theorem filter_eq_singleton (l : List Nat) (a : Nat) (h : l.Nodup)
    (ha : a ∈ l) : l.filter (fun x => x == a) = [a] := by
  induction l with
  | nil => cases ha
  | cons x rest ih =>
    rw [List.nodup_cons] at h
    rcases List.mem_cons.mp ha with he | hm
    · subst he
      rw [List.filter_cons]
      simp only [beq_self_eq_true, if_true]
      have hnil : rest.filter (fun y => y == a) = [] :=
        List.filter_eq_nil_iff.mpr (fun y hy hp => h.1 (by
          have : y = a := by simpa using hp
          rwa [← this]))
      rw [hnil]
    · have hxa : (x == a) = false := by
        simp only [beq_eq_false_iff_ne, ne_eq]
        intro he
        exact h.1 (he ▸ hm)
      rw [List.filter_cons, hxa]
      simp only [Bool.false_eq_true, if_false]
      exact ih h.2 hm

/-- Enforcement arithmetic: keeping exactly the element `a` after
deselecting everything that differs from it. -/
theorem filter_not_contains_filter_ne (l : List Nat) (a : Nat)
    (h : l.Nodup) (ha : a ∈ l) :
    l.filter
      (fun x => !((l.filter (fun y => decide (y ≠ a))).contains x)) = [a] := by
  have hcongr : ∀ x ∈ l,
      (!((l.filter (fun y => decide (y ≠ a))).contains x)) = (x == a) := by
    intro x hx
    by_cases hxa : x = a
    · subst hxa
      have hno : x ∉ l.filter (fun y => decide (y ≠ x)) := by
        simp [List.mem_filter]
      have : (l.filter (fun y => decide (y ≠ x))).contains x = false := by
        by_contra hc
        simp only [Bool.not_eq_false] at hc
        exact hno (List.elem_iff.mp hc)
      simp [this]
    · have hin : x ∈ l.filter (fun y => decide (y ≠ a)) := by
        simp [List.mem_filter, hx, hxa]
      have hct : (l.filter (fun y => decide (y ≠ a))).contains x = true :=
        List.elem_iff.mpr hin
      rw [hct]
      simp only [Bool.not_true]
      symm
      simp only [beq_eq_false_iff_ne, ne_eq]
      exact hxa
  rw [List.filter_congr hcongr]
  exact filter_eq_singleton l a h ha

/-! ### Item lookup facts -/

theorem findItem_id (s : SelectState) (id : Nat) (it : Item)
    (h : findItem s id = some it) : it.id = id := by
  unfold findItem at h
  simpa using List.find?_some h

theorem findItem_mem (s : SelectState) (id : Nat) (it : Item)
    (h : findItem s id = some it) : it ∈ s.items :=
  List.mem_of_find?_eq_some h

theorem find_updItems_self (its : List Item) (id : Nat) (b : Bool) :
    (updItems its id b).find? (fun it => it.id == id) =
      (its.find? (fun it => it.id == id)).map
        (fun it => {it with selected := b}) := by
  induction its with
  | nil => rfl
  | cons it rest ih =>
    rw [updItems_cons]
    cases hid : (it.id == id)
    · simp only [Bool.false_eq_true, if_false]
      rw [List.find?_cons_of_neg _ (by simp [hid]),
        List.find?_cons_of_neg _ (by simp [hid])]
      exact ih
    · simp only [if_true]
      rw [List.find?_cons_of_pos _ (by simpa using hid),
        List.find?_cons_of_pos _ (by simpa using hid)]
      rfl

theorem find_updItems_other (its : List Item) (id j : Nat) (b : Bool)
    (hne : j ≠ id) :
    (updItems its id b).find? (fun it => it.id == j) =
      its.find? (fun it => it.id == j) := by
  induction its with
  | nil => rfl
  | cons it rest ih =>
    rw [updItems_cons]
    cases hid : (it.id == id)
    · simp only [Bool.false_eq_true, if_false]
      cases hj : (it.id == j)
      · rw [List.find?_cons_of_neg _ (by simp [hj]),
          List.find?_cons_of_neg _ (by simp [hj])]
        exact ih
      · rw [List.find?_cons_of_pos _ (by simpa using hj),
          List.find?_cons_of_pos _ (by simpa using hj)]
    · simp only [if_true]
      have hideq : it.id = id := by simpa using hid
      have hj : ((({it with selected := b} : Item)).id == j) = false := by
        simp only [beq_eq_false_iff_ne, ne_eq]
        simpa [hideq] using fun he => hne he.symm
      have hj2 : (it.id == j) = false := by
        simpa using hj
      rw [List.find?_cons_of_neg _ (by simp [hj]),
        List.find?_cons_of_neg _ (by simp [hj2])]
      exact ih

theorem findItem_updateSelected_self (s : SelectState) (id : Nat) (b : Bool) :
    findItem (updateSelected s id b) id =
      (findItem s id).map (fun it => {it with selected := b}) :=
  find_updItems_self s.items id b

theorem findItem_updateSelected_other (s : SelectState) (id j : Nat)
    (b : Bool) (hne : j ≠ id) :
    findItem (updateSelected s id b) j = findItem s j :=
  find_updItems_other s.items id j b hne

/-! ### Selection getters versus selected ids -/

theorem getLastSelected_eq_none_iff (s : SelectState) :
    getLastSelected s = none ↔ selIds s = [] := by
  unfold getLastSelected selIds selIdsOf
  rw [List.getLast?_eq_none_iff, List.map_eq_nil_iff]

theorem getFirstSelected_eq_none_iff (s : SelectState) :
    getFirstSelected s = none ↔ selIds s = [] := by
  unfold getFirstSelected selIds selIdsOf
  rw [List.find?_eq_none, List.map_eq_nil_iff]
  constructor
  · intro h
    cases hf : s.items.filter (fun it => it.selected) with
    | nil => rfl
    | cons x rest =>
      have hx : x ∈ s.items.filter (fun it => it.selected) := by
        rw [hf]; exact List.mem_cons_self x rest
      rw [List.mem_filter] at hx
      exact absurd hx.2 (by simpa using h x hx.1)
  · intro h it hmem hsel
    have : it ∈ s.items.filter (fun j => j.selected) := by
      rw [List.mem_filter]; exact ⟨hmem, hsel⟩
    rw [h] at this
    cases this

theorem selectedItem_single (s : SelectState) (hm : s.multiple = false) :
    selectedItem s = getLastSelected s := by
  simp [selectedItem, hm]

theorem selectedItem_single_ne_none (s : SelectState)
    (hm : s.multiple = false) (h : selIds s ≠ []) :
    selectedItem s ≠ none := by
  rw [selectedItem_single s hm]
  intro hc
  exact h ((getLastSelected_eq_none_iff s).mp hc)

/-! ### Shape corollaries and more lookup facts -/

theorem shape_eq_multiple {s t : SelectState} (h : shape t = shape s) :
    t.multiple = s.multiple := congrArg (fun q => q.2.1) h

theorem shape_eq_placeholder {s t : SelectState} (h : shape t = shape s) :
    t.placeholderAttr = s.placeholderAttr := congrArg (fun q => q.2.2.1) h

theorem shape_eq_initialValues {s t : SelectState} (h : shape t = shape s) :
    t.initialValues = s.initialValues := congrArg (fun q => q.2.2.2.1) h

theorem shape_eq_overlay {s t : SelectState} (h : shape t = shape s) :
    t.overlayOpen = s.overlayOpen := congrArg (fun q => q.2.2.2.2) h

theorem shape_eq_ids {s t : SelectState} (h : shape t = shape s) :
    t.items.map (fun it => it.id) = s.items.map (fun it => it.id) := by
  have h1 : t.items.map stripItem = s.items.map stripItem :=
    congrArg (fun q => q.1) h
  have := congrArg (List.map (fun q => q.1)) h1
  simpa [List.map_map, Function.comp, stripItem] using this

theorem shape_eq_WF {s t : SelectState} (h : shape t = shape s) :
    WF s → WF t := by
  intro hwf
  unfold WF WFids at *
  rw [shape_eq_ids h]
  exact hwf

theorem findItem_none_iff (s : SelectState) (j : Nat) :
    findItem s j = none ↔ j ∉ s.items.map (fun it => it.id) := by
  unfold findItem
  rw [List.find?_eq_none]
  constructor
  · intro h hc
    obtain ⟨it, hmem, hid⟩ := List.mem_map.mp hc
    have hne : ¬it.id = j := by simpa using h it hmem
    exact hne hid
  · intro h it hmem hp
    exact h (List.mem_map.mpr ⟨it, hmem, by simpa using hp⟩)

theorem findItem_mem_ids (s : SelectState) (j : Nat) (it : Item)
    (h : findItem s j = some it) : j ∈ s.items.map (fun i => i.id) :=
  List.mem_map.mpr ⟨it, findItem_mem s j it h, findItem_id s j it h⟩

theorem updItems_noop (its : List Item) (j : Nat) (b : Bool)
    (hwf : WFids its) (it : Item)
    (hfind : its.find? (fun i => i.id == j) = some it)
    (hsel : it.selected = b) : updItems its j b = its := by
  induction its with
  | nil => cases hfind
  | cons x rest ih =>
    simp only [WFids, List.map_cons, List.nodup_cons] at hwf
    rw [updItems_cons]
    cases hid : (x.id == j)
    · simp only [Bool.false_eq_true, if_false]
      rw [List.find?_cons_of_neg _ (by simp [hid])] at hfind
      rw [ih hwf.2 hfind]
    · simp only [if_true]
      rw [List.find?_cons_of_pos _ (by simpa using hid)] at hfind
      have hx : x = it := by injection hfind
      have habs : j ∉ rest.map (fun i => i.id) := by
        have : x.id = j := by simpa using hid
        rw [← this]
        exact hwf.1
      rw [updItems_absent rest j b habs]
      subst hx
      rw [← hsel]

theorem mem_selIdsOf_updItems_ne (its : List Item) (j k : Nat) (b : Bool)
    (hkj : k ≠ j) (hk : k ∈ selIdsOf its) :
    k ∈ selIdsOf (updItems its j b) := by
  unfold selIdsOf at *
  simp only [List.mem_map, List.mem_filter] at *
  obtain ⟨it, ⟨hmem, hsel⟩, hid⟩ := hk
  have hne : (it.id == j) = false := by
    simp only [beq_eq_false_iff_ne, ne_eq]
    rw [hid]
    exact hkj
  refine ⟨it, ⟨?_, hsel⟩, hid⟩
  unfold updItems
  refine List.mem_map.mpr ⟨it, hmem, ?_⟩
  rw [hne]
  simp

theorem selCount_eq_length (s : SelectState) :
    selCount s = (selIds s).length := by
  unfold selCount selIds selIdsOf
  rw [List.length_map]

/-! ### The quiet paths of the label sync

When there is a placeholder, a selection, or multiple mode, rerunning the
placeholder setter and the label sync touches only the label fields. -/

theorem placeholderSetterStep_quiet (f : Nat) (s : SelectState)
    (h : s.multiple = true ∨ placeholderStr s ≠ "" ∨ selectedItem s ≠ none) :
    (placeholderSetterStep f s).1.items = s.items
    ∧ (placeholderSetterStep f s).1.inputValue = s.inputValue
    ∧ (placeholderSetterStep f s).1.taglist = s.taglist
    ∧ (placeholderSetterStep f s).1.bulk = s.bulk
    ∧ (placeholderSetterStep f s).2 = [] := by
  cases f with
  | zero => exact ⟨rfl, rfl, rfl, rfl, rfl⟩
  | succ f =>
    unfold placeholderSetterStep
    by_cases c1 : placeholderStr s ≠ "" ∧
        (s.multiple = true ∨ selectedItem s = none)
    · rw [if_pos c1]
      exact ⟨rfl, rfl, rfl, rfl, rfl⟩
    · rw [if_neg c1]
      by_cases c2 : s.multiple = true
      · rw [if_pos c2]
        exact ⟨rfl, rfl, rfl, rfl, rfl⟩
      · rw [if_neg c2]
        by_cases c3 : selectedItem s = none
        · exfalso
          rcases h with hmul | hp | hsel
          · exact c2 hmul
          · exact c1 ⟨hp, Or.inr c3⟩
          · exact hsel c3
        · rw [if_neg c3]
          exact ⟨rfl, rfl, rfl, rfl, rfl⟩

theorem selectedItem_eq_of_items (s t : SelectState)
    (hits : t.items = s.items) (hmul : t.multiple = s.multiple) :
    selectedItem t = selectedItem s := by
  unfold selectedItem getFirstSelected getLastSelected
  rw [hits, hmul]

theorem syncLabel_quiet (f : Nat) (s : SelectState)
    (h : s.multiple = true ∨ placeholderStr s ≠ "" ∨ selectedItem s ≠ none) :
    (syncLabel f s).1.items = s.items
    ∧ (syncLabel f s).1.inputValue = s.inputValue
    ∧ (syncLabel f s).1.taglist = s.taglist
    ∧ (syncLabel f s).1.bulk = s.bulk
    ∧ (syncLabel f s).2 = [] := by
  cases f with
  | zero => exact ⟨rfl, rfl, rfl, rfl, rfl⟩
  | succ f =>
    obtain ⟨hi, hv, ht, hb, hl⟩ := placeholderSetterStep_quiet f s h
    unfold syncLabel
    cases hsel : selectedItem (placeholderSetterStep f s).1 <;>
      cases hmul : (placeholderSetterStep f s).1.multiple <;>
        simp only [hsel, hmul, hi, hv, ht, hb, hl] <;> trivial

/-! ### Setter reduction helpers

The named field setters keep every rewrite pattern first-order; each lemma
is definitional. -/

theorem findItem_setBulk (s : SelectState) (b : Bool) (j : Nat) :
    findItem (setBulk s b) j = findItem s j := rfl

theorem selIds_setBulk (s : SelectState) (b : Bool) :
    selIds (setBulk s b) = selIds s := rfl

theorem selectedItem_setBulk (s : SelectState) (b : Bool) :
    selectedItem (setBulk s b) = selectedItem s := rfl

theorem multiple_setBulk (s : SelectState) (b : Bool) :
    (setBulk s b).multiple = s.multiple := rfl

theorem items_setBulk (s : SelectState) (b : Bool) :
    (setBulk s b).items = s.items := rfl

theorem inputValue_setBulk (s : SelectState) (b : Bool) :
    (setBulk s b).inputValue = s.inputValue := rfl

theorem taglist_setBulk (s : SelectState) (b : Bool) :
    (setBulk s b).taglist = s.taglist := rfl

theorem items_setInput (s : SelectState) (v : String) :
    (setInput s v).items = s.items := rfl

theorem inputValue_setInput (s : SelectState) (v : String) :
    (setInput s v).inputValue = v := rfl

theorem taglist_setInput (s : SelectState) (v : String) :
    (setInput s v).taglist = s.taglist := rfl

theorem selIds_setInput (s : SelectState) (v : String) :
    selIds (setInput s v) = selIds s := rfl

theorem selectedItem_setInput (s : SelectState) (v : String) :
    selectedItem (setInput s v) = selectedItem s := rfl

theorem multiple_setInput (s : SelectState) (v : String) :
    (setInput s v).multiple = s.multiple := rfl

theorem findItem_setInput (s : SelectState) (v : String) (j : Nat) :
    findItem (setInput s v) j = findItem s j := rfl

theorem items_setTags (s : SelectState) (l : List Nat) :
    (setTags s l).items = s.items := rfl

theorem taglist_setTags (s : SelectState) (l : List Nat) :
    (setTags s l).taglist = l := rfl

theorem inputValue_setTags (s : SelectState) (l : List Nat) :
    (setTags s l).inputValue = s.inputValue := rfl

theorem selIds_setTags (s : SelectState) (l : List Nat) :
    selIds (setTags s l) = selIds s := rfl

theorem selectedItem_setTags (s : SelectState) (l : List Nat) :
    selectedItem (setTags s l) = selectedItem s := rfl

theorem items_setLT (s : SelectState) (c : String) :
    (setLT s c).items = s.items := rfl

theorem items_setLP (s : SelectState) (b : Bool) :
    (setLP s b).items = s.items := rfl

theorem selIds_setLT (s : SelectState) (c : String) :
    selIds (setLT s c) = selIds s := rfl

theorem selIds_setLP (s : SelectState) (b : Bool) :
    selIds (setLP s b) = selIds s := rfl

theorem multiple_setLP (s : SelectState) (b : Bool) :
    (setLP s b).multiple = s.multiple := rfl

theorem multiple_setLT (s : SelectState) (c : String) :
    (setLT s c).multiple = s.multiple := rfl

theorem findItem_setLP (s : SelectState) (b : Bool) (j : Nat) :
    findItem (setLP s b) j = findItem s j := rfl

theorem inputValue_setLT (s : SelectState) (c : String) :
    (setLT s c).inputValue = s.inputValue := rfl

theorem taglist_setLT (s : SelectState) (c : String) :
    (setLT s c).taglist = s.taglist := rfl

theorem labelText_setLT (s : SelectState) (c : String) :
    (setLT s c).labelText = c := rfl

theorem lp_setLT (s : SelectState) (c : String) :
    (setLT s c).labelIsPlaceholder = s.labelIsPlaceholder := rfl

theorem lp_setLP (s : SelectState) (b : Bool) :
    (setLP s b).labelIsPlaceholder = b := rfl

theorem inputValue_setLP (s : SelectState) (b : Bool) :
    (setLP s b).inputValue = s.inputValue := rfl

theorem taglist_setLP (s : SelectState) (b : Bool) :
    (setLP s b).taglist = s.taglist := rfl

theorem getFirstSelectable_setLP_setInput (s : SelectState) (v : String)
    (b : Bool) :
    getFirstSelectable (setLP (setInput s v) b) = getFirstSelectable s := rfl

theorem multiple_updateSelected (s : SelectState) (j : Nat) (b : Bool) :
    (updateSelected s j b).multiple = s.multiple := rfl

theorem inputValue_updateSelected (s : SelectState) (j : Nat) (b : Bool) :
    (updateSelected s j b).inputValue = s.inputValue := rfl

theorem taglist_updateSelected (s : SelectState) (j : Nat) (b : Bool) :
    (updateSelected s j b).taglist = s.taglist := rfl

theorem items_updateSelected (s : SelectState) (j : Nat) (b : Bool) :
    (updateSelected s j b).items = updItems s.items j b := rfl

theorem selIds_updateSelected (s : SelectState) (j : Nat) (b : Bool) :
    selIds (updateSelected s j b) = selIdsOf (updItems s.items j b) := rfl

theorem selectedItem_updateSelected_ne_none (s : SelectState) (j k : Nat)
    (hm : s.multiple = false) (hk : k ∈ selIds s) (hkj : k ≠ j) :
    selectedItem (updateSelected s j false) ≠ none := by
  refine selectedItem_single_ne_none (updateSelected s j false)
    (by rw [multiple_updateSelected]; exact hm) ?_
  rw [selIds_updateSelected]
  intro hc
  have := mem_selIdsOf_updItems_ne s.items j k false hkj hk
  rw [hc] at this
  cases this

theorem onItemDeselected_single (s : SelectState) (id : Nat)
    (hm : s.multiple = false) :
    onItemDeselected s id = (s, [Act.viewNotify s.bulk]) := by
  unfold onItemDeselected
  simp [hm]

theorem onItemSelected_single (s : SelectState) (id : Nat) (it : Item)
    (hm : s.multiple = false) (hfind : findItem s id = some it) :
    onItemSelected s id =
      (setInput s (itemValueFromDOM it), [Act.viewNotify s.bulk]) := by
  unfold onItemSelected
  rw [hfind]
  simp only [hm, Bool.false_eq_true, if_false]

/-! ### The deselection path -/

/-- `_onItemSelectedChange` for a deselection that leaves some other item
selected: the items, input and tag list are untouched. -/
theorem handle_desel_state (f : Nat) (s1 : SelectState) (j : Nat)
    (hm : s1.multiple = false) (it : Item)
    (hfind : findItem s1 j = some it) (hsel : it.selected = false)
    (hquiet : selectedItem s1 ≠ none) :
    (handleSelectedChange f s1 j).1.items = s1.items
    ∧ (handleSelectedChange f s1 j).1.inputValue = s1.inputValue
    ∧ (handleSelectedChange f s1 j).1.taglist = s1.taglist := by
  cases f with
  | zero => exact ⟨rfl, rfl, rfl⟩
  | succ f =>
    unfold handleSelectedChange
    simp only [findItem_setBulk, hfind, hsel, Bool.false_eq_true, if_false]
    rw [onItemDeselected_single _ _ (by exact hm)]
    have hquiet2 : selectedItem (setBulk (setBulk s1 true) false) ≠ none := by
      rw [selectedItem_setBulk, selectedItem_setBulk]
      exact hquiet
    obtain ⟨hi, hv, ht, hb, hl⟩ := syncLabel_quiet f
      (setBulk (setBulk s1 true) false) (Or.inr (Or.inr hquiet2))
    exact ⟨hi, hv, ht⟩

/-- Removing the selected attribute, when some other item stays selected:
items get the flag cleared, input and tag list are untouched. -/
theorem setSelAttr_false_state (f : Nat) (s : SelectState) (j : Nat)
    (hm : s.multiple = false) (hwf : WF s)
    (k : Nat) (hk : k ∈ selIds s) (hkj : k ≠ j) (hf : 1 ≤ f) :
    (setSelAttr f s j false).1.items = updItems s.items j false
    ∧ (setSelAttr f s j false).1.inputValue = s.inputValue
    ∧ (setSelAttr f s j false).1.taglist = s.taglist := by
  cases f with
  | zero => omega
  | succ f =>
    unfold setSelAttr
    cases hfind : findItem s j with
    | none =>
      have habs : j ∉ s.items.map (fun it => it.id) :=
        (findItem_none_iff s j).mp hfind
      simp only [hfind]
      refine ⟨(updItems_absent _ _ _ habs).symm, ?_, ?_⟩ <;> trivial
    | some it =>
      simp only [hfind]
      by_cases hsel : it.selected = false
      · rw [if_pos hsel]
        refine ⟨(updItems_noop s.items j false hwf it hfind hsel).symm,
          ?_, ?_⟩ <;> trivial
      · rw [if_neg hsel]
        have hfind2 : findItem (updateSelected s j false) j =
            some {it with selected := false} := by
          rw [findItem_updateSelected_self, hfind]
          rfl
        have hquiet : selectedItem (updateSelected s j false) ≠ none :=
          selectedItem_updateSelected_ne_none s j k hm hk hkj
        obtain ⟨hi, hv, ht⟩ := handle_desel_state f (updateSelected s j false)
          j (by rw [multiple_updateSelected]; exact hm)
          {it with selected := false} hfind2 rfl hquiet
        refine ⟨?_, ?_, ?_⟩
        · rw [hi, items_updateSelected]
        · rw [hv, inputValue_updateSelected]
        · rw [ht, taglist_updateSelected]

theorem shape_setSelAttr (f : Nat) (s : SelectState) (id : Nat) (b : Bool) :
    shape (setSelAttr f s id b).1 = shape s := (knotShape f).1 s id b

theorem shape_deselEach (f : Nat) (s : SelectState) (l : List Nat) :
    shape (deselEach f s l).1 = shape s := (knotShape f).2.1 s l

theorem shape_handle (f : Nat) (s : SelectState) (id : Nat) :
    shape (handleSelectedChange f s id).1 = shape s := (knotShape f).2.2.1 s id

theorem shape_setterStep (f : Nat) (s : SelectState) :
    shape (placeholderSetterStep f s).1 = shape s := (knotShape f).2.2.2.1 s

theorem shape_syncLabel (f : Nat) (s : SelectState) :
    shape (syncLabel f s).1 = shape s := (knotShape f).2.2.2.2 s

theorem WFids_updItems (its : List Item) (id : Nat) (b : Bool)
    (h : WFids its) : WFids (updItems its id b) := by
  unfold WFids
  rw [updItems_map_id]
  exact h

theorem itemsDeselAll_cons (its : List Item) (j : Nat) (rest : List Nat) :
    itemsDeselAll its (j :: rest) =
      itemsDeselAll (updItems its j false) rest := rfl

theorem selIdsOf_itemsDeselAll (l : List Nat) :
    ∀ its : List Item, WFids its →
      selIdsOf (itemsDeselAll its l) =
        (selIdsOf its).filter (fun x => !(l.contains x)) := by
  induction l with
  | nil =>
    intro its h
    simp only [itemsDeselAll, List.foldl_nil]
    symm
    have hall : ∀ x ∈ selIdsOf its, (!(List.contains [] x)) = true := by
      intro x _
      rfl
    rw [List.filter_congr hall, List.filter_true]
  | cons j rest ih =>
    intro its h
    rw [itemsDeselAll_cons, ih (updItems its j false) (WFids_updItems _ _ _ h),
      selIdsOf_updItems_false its j h,
      (selIdsOf_nodup its h).erase_eq_filter j, List.filter_filter]
    apply List.filter_congr
    intro x hx
    rw [List.contains_cons]
    cases hxj : (x == j) <;> cases hxc : rest.contains x <;>
      simp [hxj, hxc] <;>
        simpa using hxj

/-- The deselection fold of the enforcement loops: when some item outside
the list stays selected throughout, folding deselections just clears the
listed flags, leaving input and tag list untouched. -/
theorem deselEach_keep : ∀ (l : List Nat) (f : Nat) (s : SelectState)
    (k : Nat), s.multiple = false → WF s → k ∈ selIds s → k ∉ l →
    l.length + 1 ≤ f →
    (deselEach f s l).1.items = itemsDeselAll s.items l
    ∧ (deselEach f s l).1.inputValue = s.inputValue
    ∧ (deselEach f s l).1.taglist = s.taglist := by
  intro l
  induction l with
  | nil =>
    intro f s k hm hwf hk hkl hf
    cases f with
    | zero => omega
    | succ f => exact ⟨rfl, rfl, rfl⟩
  | cons j rest ih =>
    intro f s k hm hwf hk hkl hf
    cases f with
    | zero => omega
    | succ f =>
      have hkj : k ≠ j := fun he => hkl (he ▸ List.mem_cons_self j rest)
      have hkrest : k ∉ rest := fun hc => hkl (List.mem_cons_of_mem j hc)
      obtain ⟨hi1, hv1, ht1⟩ :=
        setSelAttr_false_state f s j hm hwf k hk hkj (by
          simp only [List.length_cons] at hf
          omega)
      have hshape := shape_setSelAttr f s j false
      have hwf2 : WF (setSelAttr f s j false).1 := shape_eq_WF hshape hwf
      have hm2 : (setSelAttr f s j false).1.multiple = false := by
        rw [shape_eq_multiple hshape]
        exact hm
      have hk2 : k ∈ selIds (setSelAttr f s j false).1 := by
        show k ∈ selIdsOf (setSelAttr f s j false).1.items
        rw [hi1]
        exact mem_selIdsOf_updItems_ne s.items j k false hkj hk
      obtain ⟨hi2, hv2, ht2⟩ := ih f (setSelAttr f s j false).1 k hm2 hwf2
        hk2 hkrest (by
          simp only [List.length_cons] at hf
          omega)
      refine ⟨?_, ?_, ?_⟩
      · show (deselEach f (setSelAttr f s j false).1 rest).1.items = _
        rw [hi2, hi1, ← itemsDeselAll_cons]
      · show (deselEach f (setSelAttr f s j false).1 rest).1.inputValue = _
        rw [hv2, hv1]
      · show (deselEach f (setSelAttr f s j false).1 rest).1.taglist = _
        rw [ht2, ht1]

theorem mem_selIds_of_findItem (s : SelectState) (j : Nat) (it : Item)
    (hfind : findItem s j = some it) (hsel : it.selected = true) :
    j ∈ selIds s := by
  refine List.mem_map.mpr ⟨it, ?_, findItem_id s j it hfind⟩
  rw [List.mem_filter]
  exact ⟨findItem_mem s j it hfind, hsel⟩

theorem not_mem_filter_ne_self (l : List Nat) (j : Nat) :
    j ∉ l.filter (fun x => decide (x ≠ j)) := by
  intro hc
  rw [List.mem_filter] at hc
  simpa using hc.2

/-- `_onItemSelectedChange` for a selection in single mode: the enforcement
loop leaves exactly the changed item selected, the input carries its value,
and the tag list is untouched. -/
theorem handle_select_single (f : Nat) (s1 : SelectState) (j : Nat)
    (it1 : Item) (hm : s1.multiple = false) (hwf : WF s1)
    (hfind : findItem s1 j = some it1) (hsel : it1.selected = true)
    (hf : (selIds s1).length + 2 ≤ f) :
    selIds (handleSelectedChange f s1 j).1 = [j]
    ∧ (handleSelectedChange f s1 j).1.inputValue = itemValueFromDOM it1
    ∧ (handleSelectedChange f s1 j).1.taglist = s1.taglist := by
  cases f with
  | zero => omega
  | succ f =>
    simp only [handleSelectedChange]
    rw [findItem_setBulk, hfind]
    simp only [hsel, if_true]
    rw [onItemSelected_single (setBulk s1 true) j it1
      (by rw [multiple_setBulk]; exact hm)
      (by rw [findItem_setBulk]; exact hfind)]
    have hmSa : (setInput (setBulk s1 true) (itemValueFromDOM it1)).multiple
        = false := by
      rw [multiple_setInput, multiple_setBulk]
      exact hm
    simp only [hmSa, if_true]
    have hjmem : j ∈ selIds s1 := mem_selIds_of_findItem s1 j it1 hfind hsel
    have hselSa : selIds (setInput (setBulk s1 true) (itemValueFromDOM it1))
        = selIds s1 := by
      rw [selIds_setInput, selIds_setBulk]
    have hwfSa : WF (setInput (setBulk s1 true) (itemValueFromDOM it1)) := hwf
    obtain ⟨hi1, hv1, ht1⟩ := deselEach_keep
      ((selIds (setInput (setBulk s1 true) (itemValueFromDOM it1))).filter
        (fun q => decide (q ≠ j)))
      f (setInput (setBulk s1 true) (itemValueFromDOM it1)) j
      (by rw [multiple_setInput, multiple_setBulk]; exact hm)
      hwfSa
      (by rw [hselSa]; exact hjmem)
      (by rw [hselSa]; exact not_mem_filter_ne_self (selIds s1) j)
      (by
        have hle : ((selIds (setInput (setBulk s1 true)
            (itemValueFromDOM it1))).filter (fun q => decide (q ≠ j))).length
            ≤ (selIds s1).length := by
          rw [hselSa]
          exact List.length_filter_le _ _
        omega)
    set sa := setInput (setBulk s1 true) (itemValueFromDOM it1) with hsa
    set toDesel := (selIds sa).filter (fun q => decide (q ≠ j)) with htd
    have hselsb : selIds (deselEach f sa toDesel).1 = [j] := by
      show selIdsOf (deselEach f sa toDesel).1.items = [j]
      rw [hi1]
      rw [selIdsOf_itemsDeselAll toDesel sa.items hwfSa]
      have hsa_items : selIdsOf sa.items = selIds s1 := hselSa
      rw [hsa_items]
      have htd2 : toDesel = (selIds s1).filter (fun q => decide (q ≠ j)) := by
        rw [htd, hselSa]
      rw [htd2]
      exact filter_not_contains_filter_ne (selIds s1) j
        (selIdsOf_nodup s1.items hwf) hjmem
    have hquiet : selectedItem (setBulk (deselEach f sa toDesel).1 false)
        ≠ none := by
      rw [selectedItem_setBulk]
      apply selectedItem_single_ne_none
      · rw [shape_eq_multiple (shape_deselEach f sa toDesel)]
        rw [multiple_setInput, multiple_setBulk]
        exact hm
      · rw [hselsb]
        simp
    obtain ⟨hi2, hv2, ht2, hb2, hl2⟩ :=
      syncLabel_quiet f (setBulk (deselEach f sa toDesel).1 false)
        (Or.inr (Or.inr hquiet))
    refine ⟨?_, ?_, ?_⟩
    · show selIdsOf (syncLabel f
        (setBulk (deselEach f sa toDesel).1 false)).1.items = [j]
      rw [hi2]
      exact hselsb
    · show (syncLabel f
        (setBulk (deselEach f sa toDesel).1 false)).1.inputValue = _
      rw [hv2]
      show (deselEach f sa toDesel).1.inputValue = _
      rw [hv1]
      rw [hsa, inputValue_setInput]
    · show (syncLabel f
        (setBulk (deselEach f sa toDesel).1 false)).1.taglist = _
      rw [ht2]
      show (deselEach f sa toDesel).1.taglist = _
      rw [ht1]
      rw [hsa, taglist_setInput, taglist_setBulk]

theorem selIds_length_le (s : SelectState) :
    (selIds s).length ≤ s.items.length := by
  unfold selIds selIdsOf
  rw [List.length_map]
  exact List.length_filter_le _ _

theorem updItems_length (its : List Item) (j : Nat) (b : Bool) :
    (updItems its j b).length = its.length := by
  unfold updItems
  rw [List.length_map]

/-- Setting the selected attribute in single mode: when the item was not
selected, afterwards it is the only selected item, the input holds its
value and the tag list is untouched; when it was already selected, the
write is a complete no-op. -/
theorem setSelAttr_true_single (f : Nat) (s : SelectState) (j : Nat)
    (it : Item) (hm : s.multiple = false) (hwf : WF s)
    (hfind : findItem s j = some it) (hsel : it.selected = false)
    (hf : s.items.length + 3 ≤ f) :
    selIds (setSelAttr f s j true).1 = [j]
    ∧ (setSelAttr f s j true).1.inputValue = itemValueFromDOM it
    ∧ (setSelAttr f s j true).1.taglist = s.taglist := by
  cases f with
  | zero => omega
  | succ f =>
    unfold setSelAttr
    simp only [hfind, hsel, Bool.false_eq_true, if_false]
    have hfind2 : findItem (updateSelected s j true) j =
        some {it with selected := true} := by
      rw [findItem_updateSelected_self, hfind]
      rfl
    have hwf2 : WF (updateSelected s j true) := by
      unfold WF WFids
      rw [items_updateSelected, updItems_map_id]
      exact hwf
    have hm2 : (updateSelected s j true).multiple = false := hm
    have hlen : (selIds (updateSelected s j true)).length + 2 ≤ f := by
      have h1 : (selIds (updateSelected s j true)).length
          ≤ (updateSelected s j true).items.length :=
        selIds_length_le (updateSelected s j true)
      rw [items_updateSelected, updItems_length] at h1
      omega
    obtain ⟨h1, h2, h3⟩ := handle_select_single f (updateSelected s j true) j
      {it with selected := true} hm2 hwf2 hfind2 rfl hlen
    exact ⟨h1, h2, h3.trans (taglist_updateSelected s j true)⟩

theorem setSelAttr_noop (f : Nat) (s : SelectState) (j : Nat) (it : Item)
    (b : Bool) (hfind : findItem s j = some it) (hsel : it.selected = b) :
    setSelAttr f s j b = (s, []) := by
  cases f with
  | zero => rfl
  | succ f =>
    unfold setSelAttr
    simp [hfind, hsel]

theorem setSelAttr_missing (f : Nat) (s : SelectState) (j : Nat) (b : Bool)
    (hfind : findItem s j = none) : setSelAttr f s j b = (s, []) := by
  cases f with
  | zero => rfl
  | succ f =>
    unfold setSelAttr
    simp [hfind]

theorem find_of_mem_nodup (its : List Item) (hwf : WFids its) (it : Item)
    (hmem : it ∈ its) : its.find? (fun i => i.id == it.id) = some it := by
  induction its with
  | nil => cases hmem
  | cons x rest ih =>
    rw [WFids, List.map_cons, List.nodup_cons] at hwf
    rcases List.mem_cons.mp hmem with he | hm2
    · subst he
      exact List.find?_cons_of_pos _ (by simp)
    · have hxne : (x.id == it.id) = false := by
        simp only [beq_eq_false_iff_ne, ne_eq]
        intro he
        exact hwf.1 (he ▸ List.mem_map.mpr ⟨it, hm2, rfl⟩)
      rw [List.find?_cons_of_neg _ (by simp [hxne])]
      exact ih hwf.2 hm2

theorem findItem_of_mem (s : SelectState) (hwf : WF s) (it : Item)
    (hmem : it ∈ s.items) : findItem s it.id = some it :=
  find_of_mem_nodup s.items hwf it hmem

theorem all_unselected_of_selIds_nil (s : SelectState)
    (h : selIds s = []) : ∀ it ∈ s.items, it.selected = false := by
  intro it hmem
  by_contra hc
  simp only [Bool.not_eq_false] at hc
  have : it.id ∈ selIds s :=
    List.mem_map.mpr ⟨it, List.mem_filter.mpr ⟨hmem, hc⟩, rfl⟩
  rw [h] at this
  cases this

theorem getFirstSelectable_mem (s : SelectState) (it : Item)
    (h : getFirstSelectable s = some it) : it ∈ s.items :=
  List.mem_of_find?_eq_some h

/-- In single mode with a selection present, the label sync lowers the
`is-placeholder` state. -/
theorem syncLabel_lp (f : Nat) (s : SelectState) (hm : s.multiple = false)
    (hne : selectedItem s ≠ none) (hf : 1 ≤ f) :
    (syncLabel f s).1.labelIsPlaceholder = false := by
  cases f with
  | zero => omega
  | succ f =>
    obtain ⟨hi, hv, ht, hb, hl⟩ :=
      placeholderSetterStep_quiet f s (Or.inr (Or.inr hne))
    unfold syncLabel
    have hsel1 : selectedItem (placeholderSetterStep f s).1 =
        selectedItem s :=
      selectedItem_eq_of_items _ _ hi
        (shape_eq_multiple (shape_setterStep f s))
    have hmul1 : (placeholderSetterStep f s).1.multiple = false := by
      rw [shape_eq_multiple (shape_setterStep f s)]
      exact hm
    cases hso : selectedItem s with
    | none => exact absurd hso hne
    | some it =>
      rw [hso] at hsel1
      simp only [hsel1, hmul1]
      rfl

/-- In single mode with `selectedItem s = some it`, the label sync only
rewrites the label: text becomes the item's content, placeholder state
drops. -/
theorem syncLabel_selected (f : Nat) (s : SelectState) (it : Item)
    (hm : s.multiple = false) (hsel : selectedItem s = some it)
    (hf : 1 ≤ f) :
    (syncLabel f s).1.items = s.items
    ∧ (syncLabel f s).1.inputValue = s.inputValue
    ∧ (syncLabel f s).1.taglist = s.taglist
    ∧ (syncLabel f s).1.labelText = it.content
    ∧ (syncLabel f s).1.labelIsPlaceholder = false := by
  cases f with
  | zero => omega
  | succ f =>
    have hne : selectedItem s ≠ none := by
      rw [hsel]
      exact Option.some_ne_none it
    obtain ⟨hi, hv, ht, hb, hl⟩ :=
      placeholderSetterStep_quiet f s (Or.inr (Or.inr hne))
    unfold syncLabel
    have hsel1 : selectedItem (placeholderSetterStep f s).1 =
        selectedItem s :=
      selectedItem_eq_of_items _ _ hi
        (shape_eq_multiple (shape_setterStep f s))
    have hmul1 : (placeholderSetterStep f s).1.multiple = false := by
      rw [shape_eq_multiple (shape_setterStep f s)]
      exact hm
    rw [hsel] at hsel1
    simp only [hsel1, hmul1]
    exact ⟨hi, hv, ht, rfl, rfl⟩

theorem map_singleton_inv {α β : Type} (f : α → β) (l : List α) (y : β)
    (h : l.map f = [y]) : ∃ x, l = [x] ∧ f x = y := by
  cases l with
  | nil => cases h
  | cons a rest =>
    cases rest with
    | nil =>
      refine ⟨a, rfl, ?_⟩
      injection h
    | cons b r2 => simp at h

theorem getLastSelected_of_selIds_single (t : SelectState) (a : Nat)
    (h : selIds t = [a]) :
    ∃ itb, getLastSelected t = some itb ∧ itb.id = a
      ∧ itb.selected = true ∧ itb ∈ t.items := by
  unfold selIds selIdsOf at h
  obtain ⟨itb, hfil, hid⟩ := map_singleton_inv _ _ _ h
  refine ⟨itb, ?_, hid, ?_, ?_⟩
  · unfold getLastSelected
    rw [hfil]
    rfl
  · have : itb ∈ t.items.filter (fun it => it.selected) := by
      rw [hfil]
      exact List.mem_cons_self _ _
    exact (List.mem_filter.mp this).2
  · have : itb ∈ t.items.filter (fun it => it.selected) := by
      rw [hfil]
      exact List.mem_cons_self _ _
    exact (List.mem_filter.mp this).1

/-- An item of a shape-equal state with the id of a looked-up item agrees
with it on everything but the selected flag. -/
theorem strip_mem_find : ∀ (l1 l2 : List Item),
    l1.map stripItem = l2.map stripItem → WFids l2 →
    ∀ itb ∈ l1, ∀ a, itb.id = a →
    ∀ ita, l2.find? (fun i => i.id == a) = some ita →
    stripItem itb = stripItem ita := by
  intro l1
  induction l1 with
  | nil => intro l2 _ _ itb hmem; cases hmem
  | cons x r1 ih =>
    intro l2 hmap hwf itb hmem a hid ita hfind
    cases l2 with
    | nil => cases hmap
    | cons y r2 =>
      simp only [List.map_cons, List.cons.injEq] at hmap
      obtain ⟨hxy, hr⟩ := hmap
      rw [WFids, List.map_cons, List.nodup_cons] at hwf
      have hidxy : x.id = y.id := congrArg (fun q => q.1) hxy
      rcases List.mem_cons.mp hmem with he | hm2
      · subst he
        have hya : (y.id == a) = true := by
          simp only [beq_iff_eq]
          rw [← hidxy, hid]
        have h2 : List.find? (fun i => i.id == a) (y :: r2) = some y :=
          List.find?_cons_of_pos _ (by simpa using hya)
        rw [h2] at hfind
        have : y = ita := by injection hfind
        subst this
        exact hxy
      · cases hya : (y.id == a) with
        | true =>
          exfalso
          have hyaeq : y.id = a := by simpa using hya
          have hidsr : r1.map (fun i => i.id) = r2.map (fun i => i.id) := by
            have := congrArg (List.map (fun q => q.1)) hr
            simpa [List.map_map, Function.comp, stripItem] using this
          have : a ∈ r2.map (fun i => i.id) := by
            rw [← hidsr]
            exact List.mem_map.mpr ⟨itb, hm2, hid⟩
          rw [← hyaeq] at this
          exact hwf.1 this
        | false =>
          rw [List.find?_cons_of_neg _ (by simp [hya])] at hfind
          exact ih r2 hr hwf.2 itb hm2 a hid ita hfind

/-- The auto-select branch of the placeholder setter: with no placeholder,
single mode, no selection, and a selectable item present, that item gets
selected; the input and label carry its value and content. -/
theorem setterStep_autosel_some (f : Nat) (s : SelectState) (it : Item)
    (hm : s.multiple = false) (hwf : WF s) (hp : placeholderStr s = "")
    (hsel : selectedItem s = none) (hfs : getFirstSelectable s = some it)
    (hf : s.items.length + 4 ≤ f) :
    selIds (placeholderSetterStep f s).1 = [it.id]
    ∧ (placeholderSetterStep f s).1.inputValue = itemValueFromDOM it
    ∧ (placeholderSetterStep f s).1.taglist = s.taglist
    ∧ (placeholderSetterStep f s).1.labelText = it.content := by
  cases f with
  | zero => omega
  | succ f =>
    have hc1 : ¬(placeholderStr s ≠ "" ∧
        (s.multiple = true ∨ selectedItem s = none)) := fun hc => hc.1 hp
    have hc2 : ¬(s.multiple = true) := by
      rw [hm]
      exact Bool.false_ne_true
    simp only [placeholderSetterStep]
    rw [if_neg hc1, if_neg hc2, if_pos hsel,
      getFirstSelectable_setLP_setInput, hfs]
    have hmemit : it ∈ s.items := getFirstSelectable_mem s it hfs
    have hnil : selIds s = [] := by
      rw [selectedItem_single s hm] at hsel
      exact (getLastSelected_eq_none_iff s).mp hsel
    have hitsel : it.selected = false := all_unselected_of_selIds_nil s hnil
      it hmemit
    have hfind : findItem (setLP (setInput s "") false) it.id = some it := by
      rw [show findItem (setLP (setInput s "") false) it.id
          = findItem s it.id from rfl]
      exact findItem_of_mem s hwf it hmemit
    obtain ⟨h1, h2, h3⟩ := setSelAttr_true_single f
      (setLP (setInput s "") false) it.id it
      (by rw [show (setLP (setInput s "") false).multiple
          = s.multiple from rfl]; exact hm)
      (by exact hwf) hfind hitsel
      (by
        rw [show (setLP (setInput s "") false).items.length
            = s.items.length from rfl]
        omega)
    refine ⟨?_, ?_, ?_, ?_⟩
    · show selIds (setLT
        (setSelAttr f (setLP (setInput s "") false) it.id true).1
        it.content) = [it.id]
      rw [selIds_setLT]
      exact h1
    · show (setLT
        (setSelAttr f (setLP (setInput s "") false) it.id true).1
        it.content).inputValue = itemValueFromDOM it
      rw [inputValue_setLT]
      exact h2
    · show (setLT
        (setSelAttr f (setLP (setInput s "") false) it.id true).1
        it.content).taglist = s.taglist
      rw [taglist_setLT, h3]
      rfl
    · show (setLT
        (setSelAttr f (setLP (setInput s "") false) it.id true).1
        it.content).labelText = it.content
      rw [labelText_setLT]

/-- The auto-select branch when no selectable item exists: input and label
are cleared and no selection appears. -/
theorem setterStep_autosel_none (f : Nat) (s : SelectState)
    (hp : placeholderStr s = "") (hm : s.multiple = false)
    (hsel : selectedItem s = none) (hfs : getFirstSelectable s = none)
    (hf : 1 ≤ f) :
    selIds (placeholderSetterStep f s).1 = selIds s
    ∧ (placeholderSetterStep f s).1.inputValue = ""
    ∧ (placeholderSetterStep f s).1.taglist = s.taglist
    ∧ (placeholderSetterStep f s).1.labelText = ""
    ∧ (placeholderSetterStep f s).1.labelIsPlaceholder = false := by
  cases f with
  | zero => omega
  | succ f =>
    have hc1 : ¬(placeholderStr s ≠ "" ∧
        (s.multiple = true ∨ selectedItem s = none)) := fun hc => hc.1 hp
    have hc2 : ¬(s.multiple = true) := by
      rw [hm]
      exact Bool.false_ne_true
    simp only [placeholderSetterStep]
    rw [if_neg hc1, if_neg hc2, if_pos hsel,
      getFirstSelectable_setLP_setInput, hfs]
    exact ⟨rfl, rfl, rfl, rfl, rfl⟩

/-- The full label sync in the auto-select case with a selectable item:
the item ends up as the only selection, its value in the input, its
content as label. -/
theorem syncLabel_autosel_some (f : Nat) (s : SelectState) (it : Item)
    (hm : s.multiple = false) (hwf : WF s) (hp : placeholderStr s = "")
    (hsel : selectedItem s = none) (hfs : getFirstSelectable s = some it)
    (hf : s.items.length + 5 ≤ f) :
    selIds (syncLabel f s).1 = [it.id]
    ∧ (syncLabel f s).1.inputValue = itemValueFromDOM it
    ∧ (syncLabel f s).1.taglist = s.taglist
    ∧ (syncLabel f s).1.labelText = it.content
    ∧ (syncLabel f s).1.labelIsPlaceholder = false := by
  cases f with
  | zero => omega
  | succ f =>
    obtain ⟨h1, h2, h3, h4⟩ := setterStep_autosel_some f s it hm hwf hp hsel
      hfs (by omega)
    obtain ⟨itb, hlast, hidb, hselb, hmemb⟩ :=
      getLastSelected_of_selIds_single (placeholderSetterStep f s).1 it.id h1
    have hmul1 : (placeholderSetterStep f s).1.multiple = false := by
      rw [shape_eq_multiple (shape_setterStep f s)]
      exact hm
    have hsel1 : selectedItem (placeholderSetterStep f s).1 = some itb := by
      rw [selectedItem_single _ hmul1]
      exact hlast
    have hstrip : stripItem itb = stripItem it := by
      refine strip_mem_find (placeholderSetterStep f s).1.items s.items
        (congrArg (fun q => q.1) (shape_setterStep f s)) hwf itb hmemb
        it.id hidb it ?_
      exact findItem_of_mem s hwf it (getFirstSelectable_mem s it hfs)
    have hcontent : itb.content = it.content :=
      congrArg (fun q => q.2.2.1) hstrip
    unfold syncLabel
    simp only [hsel1, hmul1]
    refine ⟨?_, ?_, ?_, ?_, ?_⟩
    · show selIds (setLT (setLP (placeholderSetterStep f s).1 false)
        itb.content) = [it.id]
      rw [selIds_setLT, selIds_setLP]
      exact h1
    · show (setLT (setLP (placeholderSetterStep f s).1 false)
        itb.content).inputValue = itemValueFromDOM it
      rw [inputValue_setLT, inputValue_setLP]
      exact h2
    · show (setLT (setLP (placeholderSetterStep f s).1 false)
        itb.content).taglist = s.taglist
      rw [taglist_setLT, taglist_setLP]
      exact h3
    · show (setLT (setLP (placeholderSetterStep f s).1 false)
        itb.content).labelText = it.content
      rw [labelText_setLT]
      exact hcontent
    · show (setLT (setLP (placeholderSetterStep f s).1 false)
        itb.content).labelIsPlaceholder = false
      rw [lp_setLT, lp_setLP]

/-- The full label sync in the auto-select case without a selectable item:
everything stays unselected, input and label are cleared. -/
theorem syncLabel_autosel_none (f : Nat) (s : SelectState)
    (hm : s.multiple = false) (hp : placeholderStr s = "")
    (hsel : selectedItem s = none) (hfs : getFirstSelectable s = none)
    (hf : 2 ≤ f) :
    selIds (syncLabel f s).1 = selIds s
    ∧ (syncLabel f s).1.inputValue = ""
    ∧ (syncLabel f s).1.taglist = s.taglist
    ∧ (syncLabel f s).1.labelText = ""
    ∧ (syncLabel f s).1.labelIsPlaceholder = false := by
  cases f with
  | zero => omega
  | succ f =>
    obtain ⟨h1, h2, h3, h4, h5⟩ := setterStep_autosel_none f s hp hm hsel
      hfs (by omega)
    have hnil : selIds s = [] := by
      rw [selectedItem_single s hm] at hsel
      exact (getLastSelected_eq_none_iff s).mp hsel
    have hmul1 : (placeholderSetterStep f s).1.multiple = false := by
      rw [shape_eq_multiple (shape_setterStep f s)]
      exact hm
    have hsel1 : selectedItem (placeholderSetterStep f s).1 = none := by
      rw [selectedItem_single _ hmul1, getLastSelected_eq_none_iff]
      show selIds (placeholderSetterStep f s).1 = []
      rw [h1, hnil]
    unfold syncLabel
    simp only [hsel1, hmul1]
    exact ⟨h1, h2, h3, h4, h5⟩

/-- The label sync leaves at most one selection behind, and never adds one
when something is already selected. -/
theorem syncLabel_count (f : Nat) (s : SelectState)
    (hm : s.multiple = false) (hwf : WF s)
    (hf : s.items.length + 5 ≤ f) :
    selCount (syncLabel f s).1 ≤ max (selCount s) 1 := by
  by_cases hsel : selectedItem s = none
  · by_cases hp : placeholderStr s = ""
    · cases hfs : getFirstSelectable s with
      | some it =>
        obtain ⟨h1, _, _, _, _⟩ := syncLabel_autosel_some f s it hm hwf hp
          hsel hfs hf
        rw [selCount_eq_length, h1]
        simp
      | none =>
        obtain ⟨h1, _, _, _, _⟩ := syncLabel_autosel_none f s hm hp hsel
          hfs (by omega)
        rw [selCount_eq_length, h1, ← selCount_eq_length]
        exact Nat.le_max_left _ _
    · obtain ⟨hi, _, _, _, _⟩ := syncLabel_quiet f s (Or.inr (Or.inl hp))
      have : selCount (syncLabel f s).1 = selCount s := by
        unfold selCount
        rw [hi]
      rw [this]
      exact Nat.le_max_left _ _
  · obtain ⟨hi, _, _, _, _⟩ := syncLabel_quiet f s (Or.inr (Or.inr hsel))
    have : selCount (syncLabel f s).1 = selCount s := by
      unfold selCount
      rw [hi]
    rw [this]
    exact Nat.le_max_left _ _

theorem shape_eq_len {s t : SelectState} (h : shape t = shape s) :
    t.items.length = s.items.length := by
  have h1 : t.items.map stripItem = s.items.map stripItem :=
    congrArg (fun q => q.1) h
  have := congrArg List.length h1
  simpa using this

theorem deselEach_nil (f : Nat) (s : SelectState) :
    deselEach f s [] = (s, []) := by
  cases f <;> rfl

/-- `_onItemSelectedChange` after a deselection never drives the selection
count above one (only the auto-select of the label sync can add one). -/
theorem handle_count (f : Nat) (s1 : SelectState) (j : Nat) (it1 : Item)
    (hm : s1.multiple = false) (hwf : WF s1)
    (hfind : findItem s1 j = some it1) (hsel : it1.selected = false)
    (hf : s1.items.length + 6 ≤ f) :
    selCount (handleSelectedChange f s1 j).1 ≤ max (selCount s1) 1 := by
  cases f with
  | zero => omega
  | succ f =>
    unfold handleSelectedChange
    simp only [findItem_setBulk, hfind, hsel, Bool.false_eq_true, if_false]
    rw [onItemDeselected_single _ _ (by exact hm)]
    have hc := syncLabel_count f (setBulk (setBulk s1 true) false)
      (by exact hm) (by exact hwf)
      (by show s1.items.length + 5 ≤ f; omega)
    exact hc

/-- A single selected-attribute write preserves "at most one selected" in
single mode. -/
theorem setSelAttr_count (f : Nat) (s : SelectState) (j : Nat) (b : Bool)
    (hm : s.multiple = false) (hwf : WF s) (hc : selCount s ≤ 1)
    (hf : s.items.length + 7 ≤ f) :
    selCount (setSelAttr f s j b).1 ≤ 1 := by
  cases hfind : findItem s j with
  | none => rw [setSelAttr_missing f s j b hfind]; exact hc
  | some it =>
    by_cases hsel : it.selected = b
    · rw [setSelAttr_noop f s j it b hfind hsel]
      exact hc
    · cases b with
      | true =>
        have hsel2 : it.selected = false := by
          cases h : it.selected with
          | false => rfl
          | true => exact absurd h hsel
        obtain ⟨h1, _, _⟩ := setSelAttr_true_single f s j it hm hwf hfind
          hsel2 (by omega)
        rw [selCount_eq_length, h1]
        simp
      | false =>
        have hsel2 : it.selected = true := by
          cases h : it.selected with
          | true => rfl
          | false => exact absurd h hsel
        cases f with
        | zero => omega
        | succ f =>
          unfold setSelAttr
          simp only [hfind, hsel2, Bool.true_eq_false, if_false]
          have hfind2 : findItem (updateSelected s j false) j =
              some {it with selected := false} := by
            rw [findItem_updateSelected_self, hfind]
            rfl
          have hwf2 : WF (updateSelected s j false) := by
            unfold WF WFids
            rw [items_updateSelected, updItems_map_id]
            exact hwf
          have hcu : selCount (updateSelected s j false) ≤ 1 := by
            rw [selCount_eq_length]
            show (selIdsOf (updItems s.items j false)).length ≤ 1
            rw [selIdsOf_updItems_false s.items j hwf]
            have hsub : ((selIdsOf s.items).erase j).length
                ≤ (selIdsOf s.items).length :=
              (List.erase_sublist j (selIdsOf s.items)).length_le
            rw [selCount_eq_length] at hc
            have hx : (selIds s).length = (selIdsOf s.items).length := rfl
            rw [hx] at hc
            show ((selIdsOf s.items).erase j).length ≤ 1
            omega
          have hcnt := handle_count f (updateSelected s j false) j
            {it with selected := false} (by exact hm) hwf2 hfind2 rfl
            (by rw [items_updateSelected, updItems_length]; omega)
          have hmax : max (selCount (updateSelected s j false)) 1 = 1 := by
            omega
          rw [hmax] at hcnt
          exact hcnt

theorem getLast_not_mem_dropLast (l : List Nat) (h : l.Nodup)
    (hne : l ≠ []) : l.getLast hne ∉ l.dropLast := by
  intro hc
  have hsplit : l.dropLast ++ [l.getLast hne] = l :=
    List.dropLast_append_getLast hne
  rw [← hsplit, List.nodup_append] at h
  exact h.2.2 hc (List.mem_singleton_self _)

theorem filter_not_contains_dropLast (l : List Nat) (h : l.Nodup)
    (hne : l ≠ []) :
    l.filter (fun x => !(l.dropLast.contains x)) = [l.getLast hne] := by
  have hnm : l.getLast hne ∉ l.dropLast := getLast_not_mem_dropLast l h hne
  have hcontains : l.dropLast.contains (l.getLast hne) = false := by
    cases hcc : l.dropLast.contains (l.getLast hne) with
    | false => rfl
    | true => exact absurd (List.elem_iff.mp hcc) hnm
  have h1 : l.dropLast.filter (fun x => !(l.dropLast.contains x)) = [] := by
    rw [List.filter_eq_nil_iff]
    intro a ha
    have hca : l.dropLast.contains a = true := List.elem_iff.mpr ha
    rw [hca]
    decide
  have h2 : [l.getLast hne].filter (fun x => !(l.dropLast.contains x))
      = [l.getLast hne] := by
    rw [List.filter_cons]
    simp only [hcontains, Bool.not_false, if_true, List.filter_nil]
  have heq : l = l.dropLast ++ [l.getLast hne] :=
    (List.dropLast_append_getLast hne).symm
  conv_lhs =>
    arg 2
    rw [heq]
  rw [List.filter_append, h1, h2, List.nil_append]

/-- `_deselectAllExceptLast` with a nonempty selection: exactly the last
selected item survives and nothing else changes. -/
theorem deselectAllExceptLast_spec (f : Nat) (s : SelectState)
    (hm : s.multiple = false) (hwf : WF s) (hne : selIds s ≠ [])
    (hf : s.items.length + 1 ≤ f) :
    selIds (deselectAllExceptLast f s).1 = [(selIds s).getLast hne]
    ∧ (deselectAllExceptLast f s).1.inputValue = s.inputValue
    ∧ (deselectAllExceptLast f s).1.taglist = s.taglist := by
  unfold deselectAllExceptLast
  have hnodup : (selIds s).Nodup := selIdsOf_nodup s.items hwf
  have hk : (selIds s).getLast hne ∈ selIds s := List.getLast_mem hne
  have hknot : (selIds s).getLast hne ∉ (selIds s).dropLast :=
    getLast_not_mem_dropLast (selIds s) hnodup hne
  obtain ⟨hi, hv, ht⟩ := deselEach_keep ((selIds s).dropLast) f s
    ((selIds s).getLast hne) hm hwf hk hknot (by
      have hle := selIds_length_le s
      have hd : (selIds s).dropLast.length = (selIds s).length - 1 :=
        List.length_dropLast _
      omega)
  refine ⟨?_, hv, ht⟩
  show selIdsOf (deselEach f s ((selIds s).dropLast)).1.items = _
  rw [hi, selIdsOf_itemsDeselAll _ _ hwf]
  exact filter_not_contains_dropLast (selIds s) hnodup hne

/-- `_setStateFromDOM` in single mode always settles with at most one
selected item. -/
theorem setStateFromDOM_count (f : Nat) (s : SelectState)
    (hm : s.multiple = false) (hwf : WF s)
    (hf : s.items.length + 6 ≤ f) :
    selCount (setStateFromDOM f s).1 ≤ 1 := by
  unfold setStateFromDOM
  rw [if_pos hm]
  by_cases hne : selIds s = []
  · have hdrop : (selIds s).dropLast = [] := by
      rw [hne]
      rfl
    have hd : deselectAllExceptLast f s = (s, []) := by
      unfold deselectAllExceptLast
      rw [hdrop, deselEach_nil]
    have hfs0 : getFirstSelected s = none :=
      (getFirstSelected_eq_none_iff s).mpr hne
    simp only [hd, hfs0]
    by_cases hp : placeholderStr (setInput s "") = ""
    · rw [if_pos hp]
      cases hfsel : getFirstSelectable (setInput s "") with
      | none =>
        have hsel2 : selectedItem (setInput s "") = none := by
          rw [selectedItem_single _ (by exact hm),
            getLastSelected_eq_none_iff]
          exact hne
        obtain ⟨h1, _, _, _, _⟩ := syncLabel_autosel_none f (setInput s "")
          (by exact hm) hp hsel2 hfsel (by omega)
        show selCount (syncLabel f (setInput s "")).1 ≤ 1
        rw [selCount_eq_length, h1, selIds_setInput, hne]
        simp
      | some it =>
        have hmem : it ∈ s.items :=
          getFirstSelectable_mem (setInput s "") it hfsel
        have hfind : findItem (setInput s "") it.id = some it :=
          findItem_of_mem (setInput s "") (by exact hwf) it hmem
        have hsel2 : it.selected = false :=
          all_unselected_of_selIds_nil s hne it hmem
        obtain ⟨h1, _, _⟩ := setSelAttr_true_single f (setInput s "") it.id
          it (by exact hm) (by exact hwf) hfind hsel2 (by
            show s.items.length + 3 ≤ f
            omega)
        have hquiet : selectedItem (setInput
            (setSelAttr f (setInput s "") it.id true).1
            (itemValueFromDOM it)) ≠ none := by
          rw [selectedItem_setInput]
          apply selectedItem_single_ne_none
          · rw [shape_eq_multiple (shape_setSelAttr f (setInput s "")
              it.id true)]
            exact hm
          · rw [h1]
            simp
        obtain ⟨h2, _, _, _, _⟩ := syncLabel_quiet f (setInput
          (setSelAttr f (setInput s "") it.id true).1
          (itemValueFromDOM it)) (Or.inr (Or.inr hquiet))
        show selCount (syncLabel f (setInput
          (setSelAttr f (setInput s "") it.id true).1
          (itemValueFromDOM it))).1 ≤ 1
        rw [selCount_eq_length]
        show (selIdsOf (syncLabel f (setInput
          (setSelAttr f (setInput s "") it.id true).1
          (itemValueFromDOM it))).1.items).length ≤ 1
        rw [h2]
        show (selIds (setSelAttr f (setInput s "") it.id true).1).length ≤ 1
        rw [h1]
        simp
    · rw [if_neg hp]
      have hquiet : placeholderStr (setInput s "") ≠ "" := hp
      obtain ⟨h2, _, _, _, _⟩ := syncLabel_quiet f (setInput s "")
        (Or.inr (Or.inl hquiet))
      show selCount (syncLabel f (setInput s "")).1 ≤ 1
      rw [selCount_eq_length]
      show (selIdsOf (syncLabel f (setInput s "")).1.items).length ≤ 1
      rw [h2]
      show (selIds (setInput s "")).length ≤ 1
      rw [selIds_setInput, hne]
      simp
  · obtain ⟨h1, _, _⟩ := deselectAllExceptLast_spec f s hm hwf hne
      (by omega)
    cases hfs : getFirstSelected (deselectAllExceptLast f s).1 with
    | none =>
      exfalso
      have := (getFirstSelected_eq_none_iff _).mp hfs
      rw [h1] at this
      cases this
    | some sel =>
      simp only [hfs]
      have hquiet : selectedItem (setInput (deselectAllExceptLast f s).1
          (itemValueFromDOM sel)) ≠ none := by
        rw [selectedItem_setInput]
        apply selectedItem_single_ne_none
        · show (deselEach f s ((selIds s).dropLast)).1.multiple = false
          rw [shape_eq_multiple (shape_deselEach f s ((selIds s).dropLast))]
          exact hm
        · rw [h1]
          simp
      obtain ⟨h2, _, _, _, _⟩ := syncLabel_quiet f
        (setInput (deselectAllExceptLast f s).1 (itemValueFromDOM sel))
        (Or.inr (Or.inr hquiet))
      show selCount (syncLabel f (setInput (deselectAllExceptLast f s).1
        (itemValueFromDOM sel))).1 ≤ 1
      rw [selCount_eq_length]
      show (selIdsOf (syncLabel f (setInput (deselectAllExceptLast f s).1
        (itemValueFromDOM sel))).1.items).length ≤ 1
      rw [h2]
      show (selIds (deselectAllExceptLast f s).1).length ≤ 1
      rw [h1]
      simp

theorem shape_setInput (s : SelectState) (v : String) :
    shape (setInput s v) = shape s := rfl

theorem shape_setBulk (s : SelectState) (b : Bool) :
    shape (setBulk s b) = shape s := rfl

theorem shape_setTags (s : SelectState) (l : List Nat) :
    shape (setTags s l) = shape s := rfl

theorem shape_setLT (s : SelectState) (c : String) :
    shape (setLT s c) = shape s := rfl

theorem shape_setLP (s : SelectState) (b : Bool) :
    shape (setLP s b) = shape s := rfl

theorem shape_deselectAllExceptLast (f : Nat) (s : SelectState) :
    shape (deselectAllExceptLast f s).1 = shape s :=
  shape_deselEach f s ((selIds s).dropLast)

theorem shape_setStateFromDOM (f : Nat) (s : SelectState) :
    shape (setStateFromDOM f s).1 = shape s := by
  unfold setStateFromDOM
  by_cases hm : s.multiple = false
  · rw [if_pos hm]
    cases hfs : getFirstSelected (deselectAllExceptLast f s).1 with
    | none =>
      simp only [hfs]
      by_cases hp : placeholderStr
          (setInput (deselectAllExceptLast f s).1 "") = ""
      · rw [if_pos hp]
        cases hfsel : getFirstSelectable
            (setInput (deselectAllExceptLast f s).1 "") with
        | some it =>
          simp only [hfsel]
          show shape (syncLabel f (setInput (setSelAttr f
            (setInput (deselectAllExceptLast f s).1 "") it.id true).1
            (itemValueFromDOM it))).1 = shape s
          rw [shape_syncLabel, shape_setInput, shape_setSelAttr,
            shape_setInput, shape_deselectAllExceptLast]
        | none =>
          simp only [hfsel]
          show shape (syncLabel f
            (setInput (deselectAllExceptLast f s).1 "")).1 = shape s
          rw [shape_syncLabel, shape_setInput, shape_deselectAllExceptLast]
      · rw [if_neg hp]
        show shape (syncLabel f
          (setInput (deselectAllExceptLast f s).1 "")).1 = shape s
        rw [shape_syncLabel, shape_setInput, shape_deselectAllExceptLast]
    | some sel =>
      simp only [hfs]
      show shape (syncLabel f (setInput (deselectAllExceptLast f s).1
        (itemValueFromDOM sel))).1 = shape s
      rw [shape_syncLabel, shape_setInput, shape_deselectAllExceptLast]
  · rw [if_neg hm]
    exact shape_syncLabel f s

theorem shape_deselIdList (l : List Nat) (f : Nat) :
    ∀ s : SelectState, shape (deselIdList f s l).1 = shape s := by
  induction l with
  | nil => intro s; rfl
  | cons id rest ih =>
    intro s
    show shape (deselIdList f (setSelAttr f s id false).1 rest).1 = shape s
    rw [ih, shape_setSelAttr]

theorem shape_selIdList (l : List Nat) (f : Nat) :
    ∀ s : SelectState, shape (selIdList f s l).1 = shape s := by
  induction l with
  | nil => intro s; rfl
  | cons id rest ih =>
    intro s
    show shape (selIdList f (setSelAttr f s id true).1 rest).1 = shape s
    rw [ih, shape_setSelAttr]

theorem shape_tagLoop (vs : List String) (l : List Nat) (f : Nat) :
    ∀ s : SelectState, shape (tagLoop f vs s l).1 = shape s := by
  induction l with
  | nil => intro s; rfl
  | cons id rest ih =>
    intro s
    show shape (tagLoop f vs (setSelAttr f s id
      (match findItem s id with
       | some it => vs.contains (itemValueFromDOM it)
       | none => false)).1 rest).1 = shape s
    rw [ih, shape_setSelAttr]

theorem shape_valuesSetMultiLoop (vs : List String) (l : List Nat)
    (f : Nat) :
    ∀ s : SelectState, shape (valuesSetMultiLoop f vs s l).1 = shape s := by
  induction l with
  | nil => intro s; rfl
  | cons id rest ih =>
    intro s
    show shape (valuesSetMultiLoop f vs (setSelAttr f s id
      (match findItem s id with
       | some it => vs.contains (itemValueFromDOM it)
       | none => false)).1 rest).1 = shape s
    rw [ih, shape_setSelAttr]

theorem shape_valuesSetSingleLoop (v : String) (l : List Nat) (f : Nat) :
    ∀ (s : SelectState) (target : Option Nat),
      shape (valuesSetSingleLoop f v s l target).1 = shape s := by
  induction l with
  | nil => intro s target; rfl
  | cons id rest ih =>
    intro s target
    cases target with
    | some t =>
      show shape (valuesSetSingleLoop f v
        (setSelAttr f s id false).1 rest (some t)).1 = shape s
      rw [ih, shape_setSelAttr]
    | none =>
      cases hfind : findItem s id with
      | none =>
        show shape (valuesSetSingleLoop f v s (id :: rest) none).1 = shape s
        simp only [valuesSetSingleLoop, hfind]
        exact ih s none
      | some it =>
        show shape (valuesSetSingleLoop f v s (id :: rest) none).1 = shape s
        simp only [valuesSetSingleLoop, hfind]
        by_cases hv : itemValueFromDOM it = v
        · rw [if_pos hv]
          show shape (valuesSetSingleLoop f v
            (setSelAttr f s id true).1 rest (some id)).1 = shape s
          rw [ih, shape_setSelAttr]
        · rw [if_neg hv]
          show shape (valuesSetSingleLoop f v
            (setSelAttr f s id false).1 rest none).1 = shape s
          rw [ih, shape_setSelAttr]

theorem deselIdList_count (l : List Nat) (f : Nat) :
    ∀ s : SelectState, s.multiple = false → WF s → selCount s ≤ 1 →
    s.items.length + 7 ≤ f → selCount (deselIdList f s l).1 ≤ 1 := by
  induction l with
  | nil => intro s _ _ hc _; exact hc
  | cons id rest ih =>
    intro s hm hwf hc hf
    have hsh := shape_setSelAttr f s id false
    have h1 := setSelAttr_count f s id false hm hwf hc hf
    show selCount (deselIdList f (setSelAttr f s id false).1 rest).1 ≤ 1
    exact ih (setSelAttr f s id false).1
      (by rw [shape_eq_multiple hsh]; exact hm)
      (shape_eq_WF hsh hwf) h1
      (by rw [shape_eq_len hsh]; exact hf)

theorem selIdList_count (l : List Nat) (f : Nat) :
    ∀ s : SelectState, s.multiple = false → WF s → selCount s ≤ 1 →
    s.items.length + 7 ≤ f → selCount (selIdList f s l).1 ≤ 1 := by
  induction l with
  | nil => intro s _ _ hc _; exact hc
  | cons id rest ih =>
    intro s hm hwf hc hf
    have hsh := shape_setSelAttr f s id true
    have h1 := setSelAttr_count f s id true hm hwf hc hf
    show selCount (selIdList f (setSelAttr f s id true).1 rest).1 ≤ 1
    exact ih (setSelAttr f s id true).1
      (by rw [shape_eq_multiple hsh]; exact hm)
      (shape_eq_WF hsh hwf) h1
      (by rw [shape_eq_len hsh]; exact hf)

theorem tagLoop_count (vs : List String) (l : List Nat) (f : Nat) :
    ∀ s : SelectState, s.multiple = false → WF s → selCount s ≤ 1 →
    s.items.length + 7 ≤ f → selCount (tagLoop f vs s l).1 ≤ 1 := by
  induction l with
  | nil => intro s _ _ hc _; exact hc
  | cons id rest ih =>
    intro s hm hwf hc hf
    have hsh := shape_setSelAttr f s id
      (match findItem s id with
       | some it => vs.contains (itemValueFromDOM it)
       | none => false)
    have h1 := setSelAttr_count f s id
      (match findItem s id with
       | some it => vs.contains (itemValueFromDOM it)
       | none => false) hm hwf hc hf
    show selCount (tagLoop f vs (setSelAttr f s id
      (match findItem s id with
       | some it => vs.contains (itemValueFromDOM it)
       | none => false)).1 rest).1 ≤ 1
    exact ih _ (by rw [shape_eq_multiple hsh]; exact hm)
      (shape_eq_WF hsh hwf) h1
      (by rw [shape_eq_len hsh]; exact hf)

theorem valuesSetSingleLoop_count (v : String) (l : List Nat) (f : Nat) :
    ∀ (s : SelectState) (target : Option Nat),
    s.multiple = false → WF s → selCount s ≤ 1 →
    s.items.length + 7 ≤ f →
    selCount (valuesSetSingleLoop f v s l target).1 ≤ 1 := by
  induction l with
  | nil => intro s target _ _ hc _; exact hc
  | cons id rest ih =>
    intro s target hm hwf hc hf
    cases target with
    | some t =>
      have hsh := shape_setSelAttr f s id false
      have h1 := setSelAttr_count f s id false hm hwf hc hf
      show selCount (valuesSetSingleLoop f v
        (setSelAttr f s id false).1 rest (some t)).1 ≤ 1
      exact ih _ _ (by rw [shape_eq_multiple hsh]; exact hm)
        (shape_eq_WF hsh hwf) h1
        (by rw [shape_eq_len hsh]; exact hf)
    | none =>
      cases hfind : findItem s id with
      | none =>
        show selCount (valuesSetSingleLoop f v s (id :: rest) none).1 ≤ 1
        simp only [valuesSetSingleLoop, hfind]
        exact ih s none hm hwf hc hf
      | some it =>
        show selCount (valuesSetSingleLoop f v s (id :: rest) none).1 ≤ 1
        simp only [valuesSetSingleLoop, hfind]
        by_cases hv : itemValueFromDOM it = v
        · rw [if_pos hv]
          have hsh := shape_setSelAttr f s id true
          have h1 := setSelAttr_count f s id true hm hwf hc hf
          show selCount (valuesSetSingleLoop f v
            (setSelAttr f s id true).1 rest (some id)).1 ≤ 1
          exact ih _ _ (by rw [shape_eq_multiple hsh]; exact hm)
            (shape_eq_WF hsh hwf) h1
            (by rw [shape_eq_len hsh]; exact hf)
        · rw [if_neg hv]
          have hsh := shape_setSelAttr f s id false
          have h1 := setSelAttr_count f s id false hm hwf hc hf
          show selCount (valuesSetSingleLoop f v
            (setSelAttr f s id false).1 rest none).1 ≤ 1
          exact ih _ _ (by rw [shape_eq_multiple hsh]; exact hm)
            (shape_eq_WF hsh hwf) h1
            (by rw [shape_eq_len hsh]; exact hf)

/-- `_onSelectListChange` keeps single mode, well-formed ids and the
at-most-one-selected invariant. -/
theorem onSelectListChange_inv (s : SelectState) (old new : List Nat)
    (hm : s.multiple = false) (hwf : WF s) (hc : selCount s ≤ 1) :
    (onSelectListChange s old new).1.multiple = false
    ∧ WF (onSelectListChange s old new).1
    ∧ selCount (onSelectListChange s old new).1 ≤ 1 := by
  simp only [onSelectListChange]
  by_cases hbulk : s.bulk = true
  · rw [if_pos hbulk]
    exact ⟨hm, hwf, hc⟩
  · rw [if_neg hbulk]
    by_cases hnew : old ≠ new
    · rw [if_pos hnew]
      have h1 : selCount (deselIdList (opFuel s) (setBulk s true)
          (arrayDiff old new)).1 ≤ 1 :=
        deselIdList_count _ _ _ (by exact hm) (by exact hwf) (by exact hc)
          (by show s.items.length + 7 ≤ s.items.length + 16; omega)
      have hsh1 : shape (deselIdList (opFuel s) (setBulk s true)
          (arrayDiff old new)).1 = shape s :=
        (shape_deselIdList _ _ _).trans (shape_setBulk s true)
      have h2 : selCount (selIdList (opFuel s) (deselIdList (opFuel s)
          (setBulk s true) (arrayDiff old new)).1 (arrayDiff new old)).1
          ≤ 1 :=
        selIdList_count _ _ _ (by rw [shape_eq_multiple hsh1]; exact hm)
          (shape_eq_WF hsh1 hwf) h1
          (by
            rw [shape_eq_len hsh1]
            show s.items.length + 7 ≤ s.items.length + 16
            omega)
      have hsh2 : shape (selIdList (opFuel s) (deselIdList (opFuel s)
          (setBulk s true) (arrayDiff old new)).1 (arrayDiff new old)).1
          = shape s :=
        (shape_selIdList _ _ _).trans hsh1
      have hm2 : (selIdList (opFuel s) (deselIdList (opFuel s)
          (setBulk s true) (arrayDiff old new)).1
          (arrayDiff new old)).1.multiple = false := by
        rw [shape_eq_multiple hsh2]
        exact hm
      have hwf2 : WF (selIdList (opFuel s) (deselIdList (opFuel s)
          (setBulk s true) (arrayDiff old new)).1 (arrayDiff new old)).1 :=
        shape_eq_WF hsh2 hwf
      by_cases hov : (setBulk (selIdList (opFuel s) (deselIdList (opFuel s)
          (setBulk s true) (arrayDiff old new)).1
          (arrayDiff new old)).1 false).overlayOpen = true
      · rw [if_pos hov]
        by_cases hent : arrayDiff new old ≠ []
        · rw [if_pos hent]
          exact ⟨hm2, hwf2, h2⟩
        · rw [if_neg hent]
          exact ⟨hm2, hwf2, h2⟩
      · rw [if_neg hov]
        exact ⟨hm2, hwf2, h2⟩
    · rw [if_neg hnew]
      by_cases hov : s.overlayOpen = true
      · rw [if_pos hov]
        exact ⟨hm, hwf, hc⟩
      · rw [if_neg hov]
        exact ⟨hm, hwf, hc⟩

/-- `_onTagListChange` keeps single mode, well-formed ids and the
at-most-one-selected invariant. -/
theorem onTagListChange_inv (s : SelectState) (vs : List String)
    (hm : s.multiple = false) (hwf : WF s) (hc : selCount s ≤ 1) :
    (onTagListChange s vs).1.multiple = false
    ∧ WF (onTagListChange s vs).1
    ∧ selCount (onTagListChange s vs).1 ≤ 1 := by
  simp only [onTagListChange]
  by_cases hbulk : s.bulk = true
  · rw [if_pos hbulk]
    exact ⟨hm, hwf, hc⟩
  · rw [if_neg hbulk]
    have h1 : selCount (tagLoop (opFuel s) vs (setBulk s true)
        ((getAllSelected (setBulk s true)).map (fun it => it.id))).1 ≤ 1 :=
      tagLoop_count _ _ _ _ (by exact hm) (by exact hwf) (by exact hc)
        (by show s.items.length + 7 ≤ s.items.length + 16; omega)
    have hsh1 : shape (tagLoop (opFuel s) vs (setBulk s true)
        ((getAllSelected (setBulk s true)).map (fun it => it.id))).1
        = shape s :=
      (shape_tagLoop _ _ _ _).trans (shape_setBulk s true)
    exact ⟨(shape_eq_multiple hsh1).trans hm, shape_eq_WF hsh1 hwf, h1⟩

/-- `_onNativeSelectChange` keeps single mode, well-formed ids and the
at-most-one-selected invariant. -/
theorem onNativeSelectChange_inv (s : SelectState) (checked : List Nat)
    (hm : s.multiple = false) (hwf : WF s) (hc : selCount s ≤ 1) :
    (onNativeSelectChange s checked).1.multiple = false
    ∧ WF (onNativeSelectChange s checked).1
    ∧ selCount (onNativeSelectChange s checked).1 ≤ 1 := by
  simp only [onNativeSelectChange]
  by_cases hbulk : s.bulk = true
  · rw [if_pos hbulk]
    exact ⟨hm, hwf, hc⟩
  · rw [if_neg hbulk]
    have h1 : selCount (deselIdList (opFuel s) (setBulk s true)
        (arrayDiff ((selectedItemsList (setBulk s true)).map
          (fun it => it.id)) checked)).1 ≤ 1 :=
      deselIdList_count _ _ _ (by exact hm) (by exact hwf) (by exact hc)
        (by show s.items.length + 7 ≤ s.items.length + 16; omega)
    have hsh1 : shape (deselIdList (opFuel s) (setBulk s true)
        (arrayDiff ((selectedItemsList (setBulk s true)).map
          (fun it => it.id)) checked)).1 = shape s :=
      (shape_deselIdList _ _ _).trans (shape_setBulk s true)
    have h2 : selCount (selIdList (opFuel s) (deselIdList (opFuel s)
        (setBulk s true) (arrayDiff ((selectedItemsList
          (setBulk s true)).map (fun it => it.id)) checked)).1
        (arrayDiff checked ((selectedItemsList (setBulk s true)).map
          (fun it => it.id)))).1 ≤ 1 :=
      selIdList_count _ _ _ (by rw [shape_eq_multiple hsh1]; exact hm)
        (shape_eq_WF hsh1 hwf) h1
        (by
          rw [shape_eq_len hsh1]
          show s.items.length + 7 ≤ s.items.length + 16
          omega)
    have hsh2 : shape (selIdList (opFuel s) (deselIdList (opFuel s)
        (setBulk s true) (arrayDiff ((selectedItemsList
          (setBulk s true)).map (fun it => it.id)) checked)).1
        (arrayDiff checked ((selectedItemsList (setBulk s true)).map
          (fun it => it.id)))).1 = shape s :=
      (shape_selIdList _ _ _).trans hsh1
    exact ⟨(shape_eq_multiple hsh2).trans hm, shape_eq_WF hsh2 hwf, h2⟩

/-- The `values` setter in single mode keeps single mode, well-formed ids
and the at-most-one-selected invariant. -/
theorem assignValues_inv (s : SelectState) (vs0 : List String)
    (hm : s.multiple = false) (hwf : WF s) (hc : selCount s ≤ 1) :
    (assignValues s vs0).1.multiple = false
    ∧ WF (assignValues s vs0).1
    ∧ selCount (assignValues s vs0).1 ≤ 1 := by
  simp only [assignValues]
  rw [if_neg (by rw [hm]; exact Bool.false_ne_true)]
  have hcnt1 := valuesSetSingleLoop_count
    (if s.multiple = false ∧ vs0.length > 1 then [vs0.headI] else vs0).headI
    (s.items.map (fun it => it.id)) (opFuel s) s none hm hwf hc
    (by show s.items.length + 7 ≤ s.items.length + 16; omega)
  have hsh1 := shape_valuesSetSingleLoop
    (if s.multiple = false ∧ vs0.length > 1 then [vs0.headI] else vs0).headI
    (s.items.map (fun it => it.id)) (opFuel s) s none
  cases ht : (valuesSetSingleLoop (opFuel s)
      (if s.multiple = false ∧ vs0.length > 1 then [vs0.headI]
       else vs0).headI
      s (s.items.map (fun it => it.id)) none).2.2 with
  | some t =>
    simp only [ht]
    exact ⟨(shape_eq_multiple hsh1).trans hm, shape_eq_WF hsh1 hwf, hcnt1⟩
  | none =>
    simp only [ht]
    have hm1 : (valuesSetSingleLoop (opFuel s)
        (if s.multiple = false ∧ vs0.length > 1 then [vs0.headI]
         else vs0).headI
        s (s.items.map (fun it => it.id)) none).1.multiple = false :=
      (shape_eq_multiple hsh1).trans hm
    have hwf1 := shape_eq_WF hsh1 hwf
    refine ⟨?_, shape_eq_WF (shape_setStateFromDOM _ _) hwf1,
      setStateFromDOM_count _ _ hm1 hwf1 (by
        rw [shape_eq_len hsh1]
        show s.items.length + 6 ≤ s.items.length + 16
        omega)⟩
    exact (shape_eq_multiple (shape_setStateFromDOM _ _)).trans hm1

/-- A popup-list interaction keeps single mode, well-formed ids and the
at-most-one-selected invariant. -/
theorem selectListInteract_inv (s : SelectState) (id : Nat)
    (hm : s.multiple = false) (hwf : WF s) (hc : selCount s ≤ 1) :
    (selectListInteract s id).1.multiple = false
    ∧ WF (selectListInteract s id).1
    ∧ selCount (selectListInteract s id).1 ≤ 1 := by
  cases hfind : findItem s id with
  | none =>
    simp only [selectListInteract, hfind]
    exact ⟨hm, hwf, hc⟩
  | some it =>
    simp only [selectListInteract, hfind]
    by_cases hps : s.multiple = false ∧ it.selected = true
    · rw [if_pos hps]
      exact ⟨hm, hwf, hc⟩
    · rw [if_neg hps]
      exact onSelectListChange_inv s _ _ hm hwf hc

set_option maxHeartbeats 1000000 in
/-- Adding an item keeps single mode, well-formed ids and the
at-most-one-selected invariant. -/
theorem addItemOp_inv (s : SelectState) (it : Item)
    (hm : s.multiple = false) (hwf : WF s) (hc : selCount s ≤ 1) :
    (addItemOp s it).1.multiple = false
    ∧ WF (addItemOp s it).1
    ∧ selCount (addItemOp s it).1 ≤ 1 := by
  unfold addItemOp
  by_cases hcon : (s.items.map (fun j => j.id)).contains it.id = true
  · rw [if_pos hcon]
    exact ⟨hm, hwf, hc⟩
  · rw [if_neg hcon]
    have hnm : it.id ∉ s.items.map (fun j => j.id) := by
      intro hmm
      exact hcon (List.elem_iff.mpr hmm)
    have hwf1 : ((s.items ++ [it]).map (fun j => j.id)).Nodup := by
      rw [List.map_append]
      rw [List.nodup_append]
      refine ⟨hwf, List.nodup_singleton _, ?_⟩
      intro a ha hb
      simp only [List.map_cons, List.map_nil, List.mem_singleton] at hb
      subst hb
      exact hnm ha
    have hmain : ∀ t : SelectState, t.items = s.items ++ [it] →
        t.multiple = false →
        (setStateFromDOM (opFuel (setItems s (s.items ++ [it]))) t).1.multiple
          = false
        ∧ WF (setStateFromDOM (opFuel (setItems s (s.items ++ [it]))) t).1
        ∧ selCount (setStateFromDOM (opFuel (setItems s
            (s.items ++ [it]))) t).1 ≤ 1 := by
      intro t hti htm
      have hwft : WF t := by
        unfold WF WFids
        rw [hti]
        exact hwf1
      refine ⟨(shape_eq_multiple (shape_setStateFromDOM _ t)).trans htm,
        shape_eq_WF (shape_setStateFromDOM _ t) hwft,
        setStateFromDOM_count _ t htm hwft (by
          rw [hti]
          show (s.items ++ [it]).length + 6 ≤ (s.items ++ [it]).length + 16
          omega)⟩
    simp only []
    split_ifs with h1 h2
    · exfalso
      have hx : s.multiple = true := h1.1
      rw [hm] at hx
      cases hx
    · exact hmain (setInput (setItems s (s.items ++ [it]))
        (itemValueFromDOM it)) rfl hm
    · exact hmain (setItems s (s.items ++ [it])) rfl hm

/-- Removing an item keeps single mode, well-formed ids and the
at-most-one-selected invariant. -/
theorem removeItemOp_inv (s : SelectState) (id : Nat)
    (hm : s.multiple = false) (hwf : WF s) (hc : selCount s ≤ 1) :
    (removeItemOp s id).1.multiple = false
    ∧ WF (removeItemOp s id).1
    ∧ selCount (removeItemOp s id).1 ≤ 1 := by
  cases hfind : findItem s id with
  | none =>
    simp only [removeItemOp, hfind]
    exact ⟨hm, hwf, hc⟩
  | some it0 =>
    simp only [removeItemOp, hfind]
    have hwf1 : ((s.items.filter
        (fun j => !(j.id == id))).map (fun j => j.id)).Nodup := by
      have hsub : List.Sublist ((s.items.filter
          (fun j => !(j.id == id))).map (fun j => j.id))
          (s.items.map (fun j => j.id)) :=
        List.Sublist.map _ (List.filter_sublist _)
      exact List.Nodup.sublist hsub hwf
    have hmain : ∀ t : SelectState,
        t.items = s.items.filter (fun j => !(j.id == id)) →
        t.multiple = false →
        (setStateFromDOM (opFuel t) t).1.multiple = false
        ∧ WF (setStateFromDOM (opFuel t) t).1
        ∧ selCount (setStateFromDOM (opFuel t) t).1 ≤ 1 := by
      intro t hti htm
      have hwft : WF t := by
        unfold WF WFids
        rw [hti]
        exact hwf1
      exact ⟨(shape_eq_multiple (shape_setStateFromDOM _ t)).trans htm,
        shape_eq_WF (shape_setStateFromDOM _ t) hwft,
        setStateFromDOM_count _ t htm hwft (by
          show t.items.length + 6 ≤ t.items.length + 16
          omega)⟩
    by_cases htag : (setItems s (s.items.filter
        (fun j => !(j.id == id)))).taglist.contains id = true
    · simp only [removeTagFromTagList, htag, if_true]
      exact hmain _ rfl hm
    · simp only [removeTagFromTagList, htag, if_false]
      exact hmain _ rfl hm

/-- Every operation keeps single mode, well-formed ids and the
at-most-one-selected invariant. -/
theorem applyOp_inv (s : SelectState) (op : Op)
    (hm : s.multiple = false) (hwf : WF s) (hc : selCount s ≤ 1) :
    (applyOp s op).1.multiple = false
    ∧ WF (applyOp s op).1
    ∧ selCount (applyOp s op).1 ≤ 1 := by
  cases op with
  | setSelected id b =>
    exact ⟨(shape_eq_multiple (shape_setSelAttr (opFuel s) s id b)).trans hm,
      shape_eq_WF (shape_setSelAttr (opFuel s) s id b) hwf,
      setSelAttr_count (opFuel s) s id b hm hwf hc
        (by show s.items.length + 7 ≤ s.items.length + 16; omega)⟩
  | listInteract id => exact selectListInteract_inv s id hm hwf hc
  | listChange old new => exact onSelectListChange_inv s old new hm hwf hc
  | tagChange vs => exact onTagListChange_inv s vs hm hwf hc
  | nativeChange checked => exact onNativeSelectChange_inv s checked hm hwf hc
  | valuesAssign vs => exact assignValues_inv s vs hm hwf hc
  | addItem it => exact addItemOp_inv s it hm hwf hc
  | removeItem id => exact removeItemOp_inv s id hm hwf hc
  | reset => exact assignValues_inv s s.initialValues hm hwf hc

/-- Operation sequences keep single mode, well-formed ids and the
at-most-one-selected invariant. -/
theorem applyOps_inv (ops : List Op) : ∀ s : SelectState,
    s.multiple = false → WF s → selCount s ≤ 1 →
    (applyOps s ops).multiple = false ∧ WF (applyOps s ops)
    ∧ selCount (applyOps s ops) ≤ 1 := by
  induction ops with
  | nil => intro s hm hwf hc; exact ⟨hm, hwf, hc⟩
  | cons op rest ih =>
    intro s hm hwf hc
    obtain ⟨h1, h2, h3⟩ := applyOp_inv s op hm hwf hc
    exact ih (applyOp s op).1 h1 h2 h3

theorem attachFold_items (l : List Item) : ∀ st : SelectState,
    (l.foldl (fun st it =>
      if st.multiple ∧ it.selected then (addTagToTagList st it.id).1
      else if st.multiple = false ∧ it.selected then
        setInput st (itemValueFromDOM it)
      else st) st).items = st.items
    ∧ (l.foldl (fun st it =>
      if st.multiple ∧ it.selected then (addTagToTagList st it.id).1
      else if st.multiple = false ∧ it.selected then
        setInput st (itemValueFromDOM it)
      else st) st).multiple = st.multiple := by
  induction l with
  | nil => intro st; exact ⟨rfl, rfl⟩
  | cons it rest ih =>
    intro st
    obtain ⟨hi, hmm⟩ := ih (if st.multiple ∧ it.selected then
      (addTagToTagList st it.id).1
      else if st.multiple = false ∧ it.selected then
        setInput st (itemValueFromDOM it)
      else st)
    constructor
    · rw [List.foldl_cons, hi]
      split_ifs <;> rfl
    · rw [List.foldl_cons, hmm]
      split_ifs <;> rfl

theorem attachFoldState_items (s : SelectState) :
    (attachFoldState s).items = s.items :=
  (attachFold_items s.items (setInitials s [])).1

theorem attachFoldState_multiple (s : SelectState) :
    (attachFoldState s).multiple = s.multiple :=
  (attachFold_items s.items (setInitials s [])).2

/-- First attachment settles in single mode with at most one selected
item. -/
theorem attach_inv (s : SelectState) (hm : s.multiple = false)
    (hwf : WF s) :
    (attach s).multiple = false ∧ WF (attach s)
    ∧ selCount (attach s) ≤ 1 := by
  have hm1 : (attachFoldState s).multiple = false := by
    rw [attachFoldState_multiple]
    exact hm
  have hwf1 : WF (attachFoldState s) := by
    unfold WF WFids
    rw [attachFoldState_items]
    exact hwf
  have h2m : (setStateFromDOM (opFuel (attachFoldState s))
      (attachFoldState s)).1.multiple = false :=
    (shape_eq_multiple (shape_setStateFromDOM (opFuel (attachFoldState s))
      (attachFoldState s))).trans hm1
  have h2wf : WF (setStateFromDOM (opFuel (attachFoldState s))
      (attachFoldState s)).1 :=
    shape_eq_WF (shape_setStateFromDOM (opFuel (attachFoldState s))
      (attachFoldState s)) hwf1
  have h2c := setStateFromDOM_count (opFuel (attachFoldState s))
    (attachFoldState s) hm1 hwf1 (by
      show (attachFoldState s).items.length + 6
        ≤ (attachFoldState s).items.length + 16
      omega)
  exact ⟨h2m, h2wf, h2c⟩

/-- C1: on a Select whose `multiple` attribute is absent, after attachment
and any sequence of select/deselect operations (item attribute changes,
popup-list interactions, tag-list changes, native-control interactions,
`values` assignments, item insertion/removal, `reset()`), at most one item
record has `selected = true`; and setting the selected attribute of a
not-yet-selected item leaves exactly that item — the most recent write —
selected, every other selection having been forcibly removed
(last-write-wins). -/
theorem claimC1_singleSelectionInvariant (s0 : SelectState) (ops : List Op)
    (hm : s0.multiple = false) (hwf : WF s0) :
    selCount (applyOps (attach s0) ops) ≤ 1
    ∧ (∀ (id : Nat) (it : Item),
        findItem (applyOps (attach s0) ops) id = some it →
        it.selected = false →
        selIds (applyOp (applyOps (attach s0) ops)
          (Op.setSelected id true)).1 = [id]) := by
  obtain ⟨ham, hawf, hac⟩ := attach_inv s0 hm hwf
  obtain ⟨hm1, hwf1, hc1⟩ := applyOps_inv ops (attach s0) ham hawf hac
  refine ⟨hc1, ?_⟩
  intro id it hfind hsel
  obtain ⟨h1, _, _⟩ := setSelAttr_true_single
    (opFuel (applyOps (attach s0) ops)) (applyOps (attach s0) ops) id it
    hm1 hwf1 hfind hsel
    (by
      show (applyOps (attach s0) ops).items.length + 3
        ≤ (applyOps (attach s0) ops).items.length + 16
      omega)
  exact h1

/-- C1 witness: the invariant instantiated on a concrete two-item Select
and a concrete operation sequence. -/
theorem claimC1_singleSelectionInvariant_witness :
    selCount (applyOps (attach sampleSingleSelect)
      [Op.setSelected 0 true, Op.setSelected 1 true]) ≤ 1
    ∧ (∀ (id : Nat) (it : Item),
        findItem (applyOps (attach sampleSingleSelect)
          [Op.setSelected 0 true, Op.setSelected 1 true]) id = some it →
        it.selected = false →
        selIds (applyOp (applyOps (attach sampleSingleSelect)
          [Op.setSelected 0 true, Op.setSelected 1 true])
          (Op.setSelected id true)).1 = [id]) :=
  claimC1_singleSelectionInvariant sampleSingleSelect
    [Op.setSelected 0 true, Op.setSelected 1 true]
    (by decide) (by show ([0, 1] : List Nat).Nodup; decide)

/-- C9: with `multiple` false, assigning more than one value through the
`values` setter behaves exactly like assigning just the first value — the
loop breaks after the head, so later elements never affect anything. -/
theorem claimC9_singleModeFirstValueOnly (s : SelectState)
    (vs : List String) (hm : s.multiple = false) (hlen : 1 < vs.length) :
    assignValues s vs = assignValues s [vs.headI] := by
  simp only [assignValues]
  have h1 : s.multiple = false ∧ vs.length > 1 := ⟨hm, hlen⟩
  have h2 : ¬(s.multiple = false ∧ ([vs.headI] : List String).length > 1) :=
    fun hx => by simp at hx
  rw [if_pos h1, if_neg h2]

/-- C9 witness: a concrete two-value assignment in single mode. -/
theorem claimC9_singleModeFirstValueOnly_witness :
    assignValues sampleSingleSelect ["a", "b"]
      = assignValues sampleSingleSelect ["a"] :=
  claimC9_singleModeFirstValueOnly sampleSingleSelect ["a", "b"]
    (by decide) (by decide)

/-- C7: clicking the already-selected item of a single-mode Select in the
popup list cancels the pending list change: the selection state and every
other field are untouched except that the overlay closes, and no
notification of any kind is emitted. -/
theorem claimC7_alreadySelectedNoop (s : SelectState) (id : Nat)
    (it : Item) (hm : s.multiple = false)
    (hfind : findItem s id = some it) (hsel : it.selected = true) :
    selectListInteract s id = (setOverlay s false, []) := by
  simp only [selectListInteract, hfind]
  rw [if_pos ⟨hm, hsel⟩]

/-- C7 witness: clicking the selected item of the concrete Select. -/
theorem claimC7_alreadySelectedNoop_witness :
    findItem sampleSelectedSingle 0 =
      some { id := 0, valueAttr := some "a", content := "A",
             disabled := false, selected := true }
    ∧ selectListInteract sampleSelectedSingle 0 =
      (setOverlay sampleSelectedSingle false, []) :=
  ⟨by decide,
   claimC7_alreadySelectedNoop sampleSelectedSingle 0
     { id := 0, valueAttr := some "a", content := "A", disabled := false,
       selected := true }
     (by decide) (by decide) (by decide)⟩

theorem notifyFlagsTrue_nil : notifyFlagsTrue [] := by
  intro b hb
  cases hb

theorem notifyFlagsTrue_append {l1 l2 : List Act}
    (h1 : notifyFlagsTrue l1) (h2 : notifyFlagsTrue l2) :
    notifyFlagsTrue (l1 ++ l2) := by
  intro b hb
  rcases List.mem_append.mp hb with h | h
  · exact h1 b h
  · exact h2 b h

theorem notifyFlagsTrue_cons_sel {l : List Act} (id : Nat)
    (h : notifyFlagsTrue l) : notifyFlagsTrue (Act.sel id :: l) := by
  intro b hb
  rcases List.mem_cons.mp hb with h1 | h1
  · cases h1
  · exact h b h1

theorem notifyFlagsTrue_cons_desel {l : List Act} (id : Nat)
    (h : notifyFlagsTrue l) : notifyFlagsTrue (Act.desel id :: l) := by
  intro b hb
  rcases List.mem_cons.mp hb with h1 | h1
  · cases h1
  · exact h b h1

theorem notifyFlagsTrue_cons_notify {l : List Act} {b0 : Bool}
    (hb0 : b0 = true) (h : notifyFlagsTrue l) :
    notifyFlagsTrue (Act.viewNotify b0 :: l) := by
  intro b hb
  rcases List.mem_cons.mp hb with h1 | h1
  · injection h1 with h2
    rw [h2]
    exact hb0
  · exact h b h1

theorem onItemSelected_notify (s : SelectState) (id : Nat)
    (hb : s.bulk = true) : notifyFlagsTrue (onItemSelected s id).2 := by
  simp only [onItemSelected, addTagToTagList]
  split
  · exact notifyFlagsTrue_nil
  · split
    · exact notifyFlagsTrue_cons_notify hb
        (notifyFlagsTrue_cons_notify hb notifyFlagsTrue_nil)
    · exact notifyFlagsTrue_cons_notify hb notifyFlagsTrue_nil

theorem onItemDeselected_notify (s : SelectState) (id : Nat)
    (hb : s.bulk = true) : notifyFlagsTrue (onItemDeselected s id).2 := by
  simp only [onItemDeselected, removeTagFromTagList]
  split
  · split
    · exact notifyFlagsTrue_cons_notify hb
        (notifyFlagsTrue_cons_notify hb notifyFlagsTrue_nil)
    · exact notifyFlagsTrue_cons_notify hb notifyFlagsTrue_nil
  · exact notifyFlagsTrue_cons_notify hb notifyFlagsTrue_nil

/-- Throughout the selected-attribute change cascade, every view write is
performed with the re-entrance flag raised. -/
theorem knotNotify : ∀ f : Nat,
    (∀ s id b, notifyFlagsTrue (setSelAttr f s id b).2)
    ∧ (∀ s l, notifyFlagsTrue (deselEach f s l).2)
    ∧ (∀ s id, notifyFlagsTrue (handleSelectedChange f s id).2)
    ∧ (∀ s, notifyFlagsTrue (placeholderSetterStep f s).2)
    ∧ (∀ s, notifyFlagsTrue (syncLabel f s).2) := by
  intro f
  induction f with
  | zero => exact ⟨fun s id b => notifyFlagsTrue_nil,
      fun s l => notifyFlagsTrue_nil, fun s id => notifyFlagsTrue_nil,
      fun s => notifyFlagsTrue_nil, fun s => notifyFlagsTrue_nil⟩
  | succ f ih =>
    obtain ⟨ihSet, ihEach, ihHandle, ihStep, ihSync⟩ := ih
    have hSet : ∀ s id b, notifyFlagsTrue (setSelAttr (f+1) s id b).2 := by
      intro s id b
      simp only [setSelAttr]
      split
      · exact notifyFlagsTrue_nil
      · split
        · exact notifyFlagsTrue_nil
        · cases b with
          | true =>
            simp only [if_true]
            exact notifyFlagsTrue_cons_sel _ (ihHandle _ _)
          | false =>
            simp only [Bool.false_eq_true, if_false]
            exact notifyFlagsTrue_cons_desel _ (ihHandle _ _)
    have hEach : ∀ s l, notifyFlagsTrue (deselEach (f+1) s l).2 := by
      intro s l
      match l with
      | [] => exact notifyFlagsTrue_nil
      | id :: rest =>
        simp only [deselEach]
        exact notifyFlagsTrue_append (ihSet _ _ _) (ihEach _ _)
    have hHandle : ∀ s id,
        notifyFlagsTrue (handleSelectedChange (f+1) s id).2 := by
      intro s id
      simp only [handleSelectedChange]
      refine notifyFlagsTrue_append ?_ (ihSync _)
      split
      · exact notifyFlagsTrue_nil
      · split
        · split
          · exact notifyFlagsTrue_append
              (onItemSelected_notify (setBulk s true) id rfl) (ihEach _ _)
          · exact onItemSelected_notify (setBulk s true) id rfl
        · exact onItemDeselected_notify (setBulk s true) id rfl
    have hStep : ∀ s, notifyFlagsTrue (placeholderSetterStep (f+1) s).2 := by
      intro s
      simp only [placeholderSetterStep]
      split
      · exact notifyFlagsTrue_nil
      · split
        · exact notifyFlagsTrue_nil
        · split
          · split
            · exact ihSet _ _ _
            · exact notifyFlagsTrue_nil
          · exact notifyFlagsTrue_nil
    have hSync : ∀ s, notifyFlagsTrue (syncLabel (f+1) s).2 := by
      intro s
      simp only [syncLabel]
      split
      · exact ihStep s
      · exact ihStep s
    exact ⟨hSet, hEach, hHandle, hStep, hSync⟩

/-- C6: the `_bulkSelectionChange` re-entrance flag.  Every origin-change
handler (popup-list change, tag-list change, native-control change)
observed while the flag is raised returns with the state untouched and an
empty log — no selection change, no change notification; and during the
fan-out run by `_onItemSelectedChange`, every view write carries a raised
flag, so the mirroring writes it performs are all ignored by those same
handlers. -/
theorem claimC6_reentranceGuard (s : SelectState) (old new checked : List Nat)
    (vs : List String) (f : Nat) (id : Nat) (hbulk : s.bulk = true) :
    onSelectListChange s old new = (s, [])
    ∧ onTagListChange s vs = (s, [])
    ∧ onNativeSelectChange s checked = (s, [])
    ∧ notifyFlagsTrue (handleSelectedChange f s id).2 := by
  refine ⟨?_, ?_, ?_, (knotNotify f).2.2.1 s id⟩
  · unfold onSelectListChange
    rw [if_pos hbulk]
  · unfold onTagListChange
    rw [if_pos hbulk]
  · unfold onNativeSelectChange
    rw [if_pos hbulk]

/-- C6 witness: the guards instantiated on a concrete re-entrant state. -/
theorem claimC6_reentranceGuard_witness :
    onSelectListChange (setBulk sampleSelectedSingle true) [0] [1]
      = (setBulk sampleSelectedSingle true, [])
    ∧ onTagListChange (setBulk sampleSelectedSingle true) ["b"]
      = (setBulk sampleSelectedSingle true, [])
    ∧ onNativeSelectChange (setBulk sampleSelectedSingle true) [1]
      = (setBulk sampleSelectedSingle true, [])
    ∧ notifyFlagsTrue (handleSelectedChange 3
        (setBulk sampleSelectedSingle true) 0).2 :=
  claimC6_reentranceGuard (setBulk sampleSelectedSingle true) [0] [1] [1]
    ["b"] 3 0 (by decide)

theorem setterStep_placeholder_branch (f : Nat) (s : SelectState)
    (hc1 : placeholderStr s ≠ "" ∧
      (s.multiple = true ∨ selectedItem s = none)) (hf : 1 ≤ f) :
    placeholderSetterStep f s
      = (setLT (setLP s true) (placeholderStr s), []) := by
  cases f with
  | zero => omega
  | succ f =>
    unfold placeholderSetterStep
    rw [if_pos hc1]

theorem setterStep_genericSelect (f : Nat) (s : SelectState)
    (hp : placeholderStr s = "") (hm : s.multiple = true) (hf : 1 ≤ f) :
    placeholderSetterStep f s = (setLT (setLP s true) "Select", []) := by
  cases f with
  | zero => omega
  | succ f =>
    unfold placeholderSetterStep
    rw [if_neg (fun hc => hc.1 hp), if_pos hm]

theorem syncLabel_succ_multiple (g : Nat) (s : SelectState)
    (hm : s.multiple = true) :
    syncLabel (g+1) s = placeholderSetterStep g s := by
  unfold syncLabel
  have hm1 : (placeholderSetterStep g s).1.multiple = true := by
    rw [shape_eq_multiple (shape_setterStep g s)]
    exact hm
  cases hso : selectedItem (placeholderSetterStep g s).1 <;>
    simp only [hso, hm1]

theorem syncLabel_succ_noSel (g : Nat) (s : SelectState)
    (hsel1 : selectedItem (placeholderSetterStep g s).1 = none) :
    syncLabel (g+1) s = placeholderSetterStep g s := by
  unfold syncLabel
  simp only [hsel1]

/-- C4: the label table of the placeholder/label resolver, with p =
placeholder set, m = multiple, se = selection present.  p,m,* → the
placeholder; p,!m,!se → the placeholder; !m,se → the selected item's text
(whether or not a placeholder is set); !p,!m,!se → the first selectable
item's text, that item being auto-selected as a side effect; !p,m,* → the
generic "Select" label. -/
theorem claimC4_labelTable (f : Nat) (s : SelectState)
    (hwf : WF s) (hf : s.items.length + 5 ≤ f) :
    (placeholderStr s ≠ "" → s.multiple = true →
      (syncLabel f s).1.labelText = placeholderStr s
      ∧ (syncLabel f s).1.labelIsPlaceholder = true)
    ∧ (placeholderStr s ≠ "" → s.multiple = false →
        selectedItem s = none →
      (syncLabel f s).1.labelText = placeholderStr s
      ∧ (syncLabel f s).1.labelIsPlaceholder = true)
    ∧ (∀ it : Item, s.multiple = false → selectedItem s = some it →
      (syncLabel f s).1.labelText = it.content
      ∧ (syncLabel f s).1.labelIsPlaceholder = false)
    ∧ (∀ it : Item, placeholderStr s = "" → s.multiple = false →
        selectedItem s = none → getFirstSelectable s = some it →
      (syncLabel f s).1.labelText = it.content
      ∧ selIds (syncLabel f s).1 = [it.id])
    ∧ (placeholderStr s = "" → s.multiple = true →
      (syncLabel f s).1.labelText = "Select") := by
  cases f with
  | zero => omega
  | succ g =>
    refine ⟨?_, ?_, ?_, ?_, ?_⟩
    · intro hp hm
      rw [syncLabel_succ_multiple g s hm,
        setterStep_placeholder_branch g s ⟨hp, Or.inl hm⟩ (by omega)]
      exact ⟨rfl, rfl⟩
    · intro hp hm hsel
      have hsel1 : selectedItem (placeholderSetterStep g s).1 = none := by
        rw [setterStep_placeholder_branch g s ⟨hp, Or.inr hsel⟩ (by omega)]
        exact hsel
      rw [syncLabel_succ_noSel g s hsel1,
        setterStep_placeholder_branch g s ⟨hp, Or.inr hsel⟩ (by omega)]
      exact ⟨rfl, rfl⟩
    · intro it hm hsel
      obtain ⟨_, _, _, h4, h5⟩ := syncLabel_selected (g+1) s it hm hsel
        (by omega)
      exact ⟨h4, h5⟩
    · intro it hp hm hsel hfs
      obtain ⟨h1, _, _, h4, _⟩ := syncLabel_autosel_some (g+1) s it hm hwf
        hp hsel hfs (by omega)
      exact ⟨h4, h1⟩
    · intro hp hm
      rw [syncLabel_succ_multiple g s hm,
        setterStep_genericSelect g s hp hm (by omega)]
      rfl

/-- C4 witness: the label table instantiated on a concrete Select. -/
theorem claimC4_labelTable_witness :
    (placeholderStr sampleSelectedSingle ≠ "" →
      sampleSelectedSingle.multiple = true →
      (syncLabel 7 sampleSelectedSingle).1.labelText
        = placeholderStr sampleSelectedSingle
      ∧ (syncLabel 7 sampleSelectedSingle).1.labelIsPlaceholder = true)
    ∧ (placeholderStr sampleSelectedSingle ≠ "" →
        sampleSelectedSingle.multiple = false →
        selectedItem sampleSelectedSingle = none →
      (syncLabel 7 sampleSelectedSingle).1.labelText
        = placeholderStr sampleSelectedSingle
      ∧ (syncLabel 7 sampleSelectedSingle).1.labelIsPlaceholder = true)
    ∧ (∀ it : Item, sampleSelectedSingle.multiple = false →
        selectedItem sampleSelectedSingle = some it →
      (syncLabel 7 sampleSelectedSingle).1.labelText = it.content
      ∧ (syncLabel 7 sampleSelectedSingle).1.labelIsPlaceholder = false)
    ∧ (∀ it : Item, placeholderStr sampleSelectedSingle = "" →
        sampleSelectedSingle.multiple = false →
        selectedItem sampleSelectedSingle = none →
        getFirstSelectable sampleSelectedSingle = some it →
      (syncLabel 7 sampleSelectedSingle).1.labelText = it.content
      ∧ selIds (syncLabel 7 sampleSelectedSingle).1 = [it.id])
    ∧ (placeholderStr sampleSelectedSingle = "" →
        sampleSelectedSingle.multiple = true →
      (syncLabel 7 sampleSelectedSingle).1.labelText = "Select") :=
  claimC4_labelTable 7 sampleSelectedSingle
    (by show ([0, 1] : List Nat).Nodup; decide) (by decide)

theorem findItem_of_selIds (s : SelectState) (hwf : WF s) (a : Nat)
    (ha : a ∈ selIds s) :
    ∃ it, findItem s a = some it ∧ it.selected = true := by
  unfold selIds selIdsOf at ha
  obtain ⟨itb, hmemf, hid⟩ := List.mem_map.mp ha
  rw [List.mem_filter] at hmemf
  refine ⟨itb, ?_, hmemf.2⟩
  have hfind := find_of_mem_nodup s.items hwf itb hmemf.1
  rw [hid] at hfind
  exact hfind

/-- A deselecting attribute write on a selected item logs the deselection
first, before anything the cascade does. -/
theorem setSelAttr_false_log (f : Nat) (s : SelectState) (a : Nat)
    (ita : Item) (hfind : findItem s a = some ita)
    (hsel : ita.selected = true) (hf : 1 ≤ f) :
    ∃ rest, (setSelAttr f s a false).2 = Act.desel a :: rest := by
  cases f with
  | zero => omega
  | succ f =>
    unfold setSelAttr
    simp only [hfind, hsel, Bool.true_eq_false, if_false]
    exact ⟨_, rfl⟩

theorem arrayDiff_single_notmem (a : Nat) (l : List Nat) (h : a ∉ l) :
    arrayDiff [a] l = [a] := by
  unfold arrayDiff
  rw [List.filter_cons]
  have hc : l.contains a = false := by
    cases hc : l.contains a with
    | false => rfl
    | true => exact absurd (List.elem_iff.mp hc) h
  simp only [hc, Bool.not_false, if_true, List.filter_nil]

theorem deselIdList_single_log (f : Nat) (s : SelectState) (a : Nat) :
    (deselIdList f s [a]).2 = (setSelAttr f s a false).2 ++ [] := rfl

/-- C5: a synchronization pass carrying the actual old selection `[a]` and
a new selection not containing `a` (single mode): both the popup-list
handler and the native-control handler log the deselection of the leaving
item strictly before every other action — in particular before any
entering item's selection. -/
theorem claimC5_deselectionsFirst (s : SelectState) (a : Nat)
    (new checked : List Nat) (hm : s.multiple = false) (hwf : WF s)
    (hbulk : s.bulk = false) (hsel : selIds s = [a])
    (hanew : a ∉ new) (hach : a ∉ checked) (hne : selIds s ≠ new) :
    (∃ rest, (onSelectListChange s (selIds s) new).2 = Act.desel a :: rest)
    ∧ (∃ rest, (onNativeSelectChange s checked).2 = Act.desel a :: rest) := by
  have hbulk2 : ¬(s.bulk = true) := by
    rw [hbulk]
    exact Bool.false_ne_true
  obtain ⟨ita, hfinda, hsela⟩ := findItem_of_selIds s hwf a (by
    rw [hsel]
    exact List.mem_singleton_self a)
  obtain ⟨r1, hr1⟩ := setSelAttr_false_log (opFuel s) (setBulk s true) a
    ita (by rw [findItem_setBulk]; exact hfinda) hsela
    (by show 1 ≤ s.items.length + 16; omega)
  constructor
  · simp only [onSelectListChange]
    rw [if_neg hbulk2, if_pos hne, hsel,
      arrayDiff_single_notmem a new hanew]
    by_cases hov : (setBulk (selIdList (opFuel s) (deselIdList (opFuel s)
        (setBulk s true) [a]).1 (arrayDiff new [a])).1
        false).overlayOpen = true
    · rw [if_pos hov]
      by_cases hent : arrayDiff new [a] ≠ []
      · rw [if_pos hent]
        refine ⟨r1 ++ [] ++ ((selIdList (opFuel s) (deselIdList (opFuel s)
          (setBulk s true) [a]).1 (arrayDiff new [a])).2 ++ [Act.changeEvt]),
          ?_⟩
        show (deselIdList (opFuel s) (setBulk s true) [a]).2 ++ _ ++ _ = _
        rw [deselIdList_single_log, hr1]
        simp
      · rw [if_neg hent]
        refine ⟨r1 ++ [] ++ (selIdList (opFuel s) (deselIdList (opFuel s)
          (setBulk s true) [a]).1 (arrayDiff new [a])).2, ?_⟩
        show (deselIdList (opFuel s) (setBulk s true) [a]).2 ++ _ = _
        rw [deselIdList_single_log, hr1]
        simp
    · rw [if_neg hov]
      refine ⟨r1 ++ [] ++ (selIdList (opFuel s) (deselIdList (opFuel s)
        (setBulk s true) [a]).1 (arrayDiff new [a])).2, ?_⟩
      show (deselIdList (opFuel s) (setBulk s true) [a]).2 ++ _ = _
      rw [deselIdList_single_log, hr1]
      simp
  · obtain ⟨itb, hlast, hidb, hselb, hmemb⟩ :=
      getLastSelected_of_selIds_single s a hsel
    have hsl : (selectedItemsList (setBulk s true)).map (fun it => it.id)
        = [a] := by
      unfold selectedItemsList
      rw [if_neg (by
        rw [multiple_setBulk, hm]
        exact Bool.false_ne_true)]
      have hlast2 : getLastSelected (setBulk s true) = some itb := hlast
      rw [hlast2, List.map_cons, List.map_nil, hidb]
    simp only [onNativeSelectChange]
    rw [if_neg hbulk2, hsl, arrayDiff_single_notmem a checked hach]
    refine ⟨r1 ++ [] ++ ((selIdList (opFuel s) (deselIdList (opFuel s)
      (setBulk s true) [a]).1 (arrayDiff checked [a])).2
      ++ [Act.changeEvt]), ?_⟩
    show (deselIdList (opFuel s) (setBulk s true) [a]).2 ++ _ ++ _ = _
    rw [deselIdList_single_log, hr1]
    simp

/-- C5 witness: the ordering instantiated on the concrete selected
Select. -/
theorem claimC5_deselectionsFirst_witness :
    (∃ rest, (onSelectListChange sampleSelectedSingle
      (selIds sampleSelectedSingle) [1]).2 = Act.desel 0 :: rest)
    ∧ (∃ rest, (onNativeSelectChange sampleSelectedSingle [1]).2
      = Act.desel 0 :: rest) :=
  claimC5_deselectionsFirst sampleSelectedSingle 0 [1] [1]
    (by decide) (by show ([0, 1] : List Nat).Nodup; decide) (by decide)
    (by decide) (by decide) (by decide) (by decide)

/-- C2 counterexample: with two items sharing the value "a" in multiple
mode, setting `values = ["a"]` and reading back yields `["a", "a"]`, not
`["a"]`, although some item's value equals "a". -/
theorem claimC2_counterexample :
    (∃ it ∈ sampleDupMulti.items, itemValueFromDOM it = "a")
    ∧ valuesGetter (assignValues sampleDupMulti ["a"]).1 = ["a", "a"]
    ∧ valuesGetter (assignValues sampleDupMulti ["a"]).1 ≠ ["a"] := by
  refine ⟨?_, by decide, by decide⟩
  decide

theorem valuesSetSingleLoop_target_noop (f : Nat) (v : String) :
    ∀ (l : List Nat) (s : SelectState) (t : Nat),
    (∀ id ∈ l, findItem s id = none
      ∨ ∃ it, findItem s id = some it ∧ it.selected = false) →
    valuesSetSingleLoop f v s l (some t) = (s, [], some t) := by
  intro l
  induction l with
  | nil => intro s t _; rfl
  | cons id rest ih =>
    intro s t hall
    have hid := hall id (List.mem_cons_self id rest)
    have hstep : setSelAttr f s id false = (s, []) := by
      rcases hid with h | ⟨it, hfind, hsel⟩
      · exact setSelAttr_missing f s id false h
      · exact setSelAttr_noop f s id it false hfind hsel
    show valuesSetSingleLoop f v s (id :: rest) (some t) = (s, [], some t)
    simp only [valuesSetSingleLoop, hstep]
    rw [ih s t (fun id2 hm2 => hall id2 (List.mem_cons_of_mem id hm2))]
    rfl

theorem valuesSetSingleLoop_nomatch (f : Nat) (v : String) :
    ∀ (l : List Nat) (s : SelectState),
    (∀ id ∈ l, findItem s id = none
      ∨ ∃ it, findItem s id = some it ∧ it.selected = false
          ∧ itemValueFromDOM it ≠ v) →
    valuesSetSingleLoop f v s l none = (s, [], none) := by
  intro l
  induction l with
  | nil => intro s _; rfl
  | cons id rest ih =>
    intro s hall
    have htail := fun id2 hm2 => hall id2 (List.mem_cons_of_mem id hm2)
    rcases hall id (List.mem_cons_self id rest) with h | ⟨it, hfind, hsel, hv⟩
    · show valuesSetSingleLoop f v s (id :: rest) none = (s, [], none)
      simp only [valuesSetSingleLoop, h]
      exact ih s htail
    · show valuesSetSingleLoop f v s (id :: rest) none = (s, [], none)
      simp only [valuesSetSingleLoop, hfind]
      rw [if_neg hv]
      have hstep : setSelAttr f s id false = (s, []) :=
        setSelAttr_noop f s id it false hfind hsel
      simp only [hstep]
      rw [ih s htail]
      rfl

theorem valuesSetSingleLoop_match (f : Nat) (v : String) :
    ∀ (l : List Nat) (s : SelectState),
    s.multiple = false → WF s → selIds s = [] → l.Nodup →
    (∃ id ∈ l, ∃ it, findItem s id = some it ∧ itemValueFromDOM it = v) →
    s.items.length + 3 ≤ f →
    ∃ t, (valuesSetSingleLoop f v s l none).2.2 = some t
      ∧ selIds (valuesSetSingleLoop f v s l none).1 = [t]
      ∧ (valuesSetSingleLoop f v s l none).1.inputValue = v := by
  intro l
  induction l with
  | nil =>
    intro s _ _ _ _ hex _
    obtain ⟨id, hid, _⟩ := hex
    cases hid
  | cons id rest ih =>
    intro s hm hwf hfresh hnodup hex hf
    rw [List.nodup_cons] at hnodup
    cases hfind : findItem s id with
    | none =>
      have hex2 : ∃ id2 ∈ rest, ∃ it, findItem s id2 = some it
          ∧ itemValueFromDOM it = v := by
        obtain ⟨id2, hid2, it2, hfind2, hv2⟩ := hex
        rcases List.mem_cons.mp hid2 with he | hr
        · subst he
          rw [hfind] at hfind2
          cases hfind2
        · exact ⟨id2, hr, it2, hfind2, hv2⟩
      obtain ⟨t, h1, h2, h3⟩ := ih s hm hwf hfresh hnodup.2 hex2 hf
      refine ⟨t, ?_, ?_, ?_⟩ <;>
        · show _
          simp only [valuesSetSingleLoop, hfind]
          assumption
    | some it =>
      have hsel : it.selected = false :=
        all_unselected_of_selIds_nil s hfresh it (findItem_mem s id it hfind)
      by_cases hv : itemValueFromDOM it = v
      · obtain ⟨h1, h2, h3⟩ := setSelAttr_true_single f s id it hm hwf
          hfind hsel (by omega)
        have hall2 : ∀ id2 ∈ rest, findItem (setSelAttr f s id true).1 id2
            = none ∨ ∃ it2, findItem (setSelAttr f s id true).1 id2
            = some it2 ∧ it2.selected = false := by
          intro id2 hid2
          cases hf2 : findItem (setSelAttr f s id true).1 id2 with
          | none => exact Or.inl rfl
          | some it2 =>
            refine Or.inr ⟨it2, rfl, ?_⟩
            cases hs2 : it2.selected with
            | false => rfl
            | true =>
              exfalso
              have hmem2 : id2 ∈ selIds (setSelAttr f s id true).1 :=
                mem_selIds_of_findItem _ id2 it2 hf2 hs2
              rw [h1, List.mem_singleton] at hmem2
              exact hnodup.1 (hmem2 ▸ hid2)
        have hloop := valuesSetSingleLoop_target_noop f v rest
          (setSelAttr f s id true).1 id hall2
        refine ⟨id, ?_, ?_, ?_⟩
        · show (valuesSetSingleLoop f v s (id :: rest) none).2.2 = some id
          simp only [valuesSetSingleLoop, hfind]
          rw [if_pos hv]
          simp only [hloop]
        · show selIds (valuesSetSingleLoop f v s (id :: rest) none).1 = [id]
          simp only [valuesSetSingleLoop, hfind]
          rw [if_pos hv]
          simp only [hloop]
          exact h1
        · show (valuesSetSingleLoop f v s (id :: rest) none).1.inputValue = v
          simp only [valuesSetSingleLoop, hfind]
          rw [if_pos hv]
          simp only [hloop]
          rw [h2, hv]
      · have hstep : setSelAttr f s id false = (s, []) :=
          setSelAttr_noop f s id it false hfind hsel
        have hex2 : ∃ id2 ∈ rest, ∃ it2, findItem s id2 = some it2
            ∧ itemValueFromDOM it2 = v := by
          obtain ⟨id2, hid2, it2, hfind2, hv2⟩ := hex
          rcases List.mem_cons.mp hid2 with he | hr
          · subst he
            rw [hfind] at hfind2
            injection hfind2 with he2
            subst he2
            exact absurd hv2 hv
          · exact ⟨id2, hr, it2, hfind2, hv2⟩
        obtain ⟨t, h1, h2, h3⟩ := ih s hm hwf hfresh hnodup.2 hex2 hf
        refine ⟨t, ?_, ?_, ?_⟩ <;>
          · show _
            simp only [valuesSetSingleLoop, hfind]
            rw [if_neg hv]
            simp only [hstep]
            assumption

theorem valuesGetter_single_none (t : SelectState)
    (hm : t.multiple = false) (hsel : selectedItem t = none) :
    valuesGetter t = [] := by
  unfold valuesGetter
  rw [if_neg (by rw [hm]; exact Bool.false_ne_true), hsel]
  rfl

theorem valuesGetter_single_some (t : SelectState) (it : Item)
    (hm : t.multiple = false) (hsel : selectedItem t = some it) :
    valuesGetter t = [t.inputValue] := by
  unfold valuesGetter
  rw [if_neg (by rw [hm]; exact Bool.false_ne_true), hsel]
  rfl

theorem selectedItem_none_of_ids_nil (t : SelectState)
    (hm : t.multiple = false) (h : selIds t = []) :
    selectedItem t = none := by
  rw [selectedItem_single t hm, getLastSelected_eq_none_iff]
  exact h

theorem selectedItem_some_of_ids_single (t : SelectState) (a : Nat)
    (hm : t.multiple = false) (h : selIds t = [a]) :
    ∃ itb, selectedItem t = some itb := by
  obtain ⟨itb, hlast, _, _, _⟩ := getLastSelected_of_selIds_single t a h
  exact ⟨itb, by rw [selectedItem_single t hm]; exact hlast⟩

theorem assignValues_single_someTarget (s : SelectState) (v : String)
    (t : Nat) (hm : s.multiple = false)
    (h : (valuesSetSingleLoop (opFuel s) v s
      (s.items.map (fun it2 => it2.id)) none).2.2 = some t) :
    (assignValues s [v]).1 = (valuesSetSingleLoop (opFuel s) v s
      (s.items.map (fun it2 => it2.id)) none).1 := by
  simp only [assignValues, List.headI]
  rw [if_neg (fun hx : s.multiple = false ∧ ([v] : List String).length > 1
      => absurd hx.2 (by simp)),
    if_neg (by rw [hm]; exact Bool.false_ne_true), h]

theorem assignValues_single_noTarget (s : SelectState) (v : String)
    (hm : s.multiple = false)
    (h : (valuesSetSingleLoop (opFuel s) v s
      (s.items.map (fun it2 => it2.id)) none).2.2 = none) :
    (assignValues s [v]).1 = (setStateFromDOM (opFuel s)
      (valuesSetSingleLoop (opFuel s) v s
        (s.items.map (fun it2 => it2.id)) none).1).1 := by
  simp only [assignValues, List.headI]
  rw [if_neg (fun hx : s.multiple = false ∧ ([v] : List String).length > 1
      => absurd hx.2 (by simp)),
    if_neg (by rw [hm]; exact Bool.false_ne_true), h]

/-- `_setStateFromDOM` on a fresh (nothing selected) single-mode state:
the `values` read afterwards is empty when a placeholder is set or no item
is selectable, and the auto-selected first selectable item's value
otherwise. -/
theorem setStateFromDOM_fresh (f : Nat) (s : SelectState)
    (hm : s.multiple = false) (hwf : WF s) (hfresh : selIds s = [])
    (hf : s.items.length + 6 ≤ f) :
    (placeholderStr s ≠ "" →
      valuesGetter (setStateFromDOM f s).1 = [])
    ∧ (∀ itf, placeholderStr s = "" → getFirstSelectable s = some itf →
      valuesGetter (setStateFromDOM f s).1 = [itemValueFromDOM itf])
    ∧ (placeholderStr s = "" → getFirstSelectable s = none →
      valuesGetter (setStateFromDOM f s).1 = []) := by
  unfold setStateFromDOM
  rw [if_pos hm]
  have hdrop : (selIds s).dropLast = [] := by
    rw [hfresh]
    rfl
  have hd : deselectAllExceptLast f s = (s, []) := by
    unfold deselectAllExceptLast
    rw [hdrop, deselEach_nil]
  have hfs0 : getFirstSelected s = none :=
    (getFirstSelected_eq_none_iff s).mpr hfresh
  simp only [hd, hfs0]
  refine ⟨?_, ?_, ?_⟩
  · intro hp
    rw [if_neg (show ¬placeholderStr (setInput s "") = "" from hp)]
    have hquiet : placeholderStr (setInput s "") ≠ "" := hp
    obtain ⟨h2, _, _, _, _⟩ := syncLabel_quiet f (setInput s "")
      (Or.inr (Or.inl hquiet))
    have hmul : (syncLabel f (setInput s "")).1.multiple = false :=
      (shape_eq_multiple (shape_syncLabel f (setInput s ""))).trans hm
    have hids : selIds (syncLabel f (setInput s "")).1 = [] := by
      show selIdsOf (syncLabel f (setInput s "")).1.items = []
      rw [h2]
      exact hfresh
    exact valuesGetter_single_none _ hmul
      (selectedItem_none_of_ids_nil _ hmul hids)
  · intro itf hp hfsel
    rw [if_pos (show placeholderStr (setInput s "") = "" from hp)]
    have hfsel2 : getFirstSelectable (setInput s "") = some itf := hfsel
    simp only [hfsel2]
    have hmem : itf ∈ s.items := getFirstSelectable_mem _ itf hfsel
    have hfind : findItem (setInput s "") itf.id = some itf :=
      findItem_of_mem (setInput s "") (by exact hwf) itf hmem
    have hsel2 : itf.selected = false :=
      all_unselected_of_selIds_nil s hfresh itf hmem
    obtain ⟨h1, h2, h3⟩ := setSelAttr_true_single f (setInput s "") itf.id
      itf (by exact hm) (by exact hwf) hfind hsel2 (by
        show s.items.length + 3 ≤ f
        omega)
    have hquiet : selectedItem (setInput
        (setSelAttr f (setInput s "") itf.id true).1
        (itemValueFromDOM itf)) ≠ none := by
      rw [selectedItem_setInput]
      apply selectedItem_single_ne_none
      · rw [shape_eq_multiple (shape_setSelAttr f (setInput s "")
          itf.id true)]
        exact hm
      · rw [h1]
        simp
    obtain ⟨h4, h5, _, _, _⟩ := syncLabel_quiet f (setInput
      (setSelAttr f (setInput s "") itf.id true).1
      (itemValueFromDOM itf)) (Or.inr (Or.inr hquiet))
    have hmul : (syncLabel f (setInput
        (setSelAttr f (setInput s "") itf.id true).1
        (itemValueFromDOM itf))).1.multiple = false := by
      rw [shape_eq_multiple (shape_syncLabel f _), multiple_setInput,
        shape_eq_multiple (shape_setSelAttr f (setInput s "") itf.id true)]
      exact hm
    have hids : selIds (syncLabel f (setInput
        (setSelAttr f (setInput s "") itf.id true).1
        (itemValueFromDOM itf))).1 = [itf.id] := by
      show selIdsOf (syncLabel f (setInput
        (setSelAttr f (setInput s "") itf.id true).1
        (itemValueFromDOM itf))).1.items = [itf.id]
      rw [h4]
      exact h1
    obtain ⟨itb, hsome⟩ := selectedItem_some_of_ids_single _ itf.id hmul hids
    rw [valuesGetter_single_some _ itb hmul hsome, h5, inputValue_setInput]
  · intro hp hfsel
    rw [if_pos (show placeholderStr (setInput s "") = "" from hp)]
    have hfsel2 : getFirstSelectable (setInput s "") = none := hfsel
    simp only [hfsel2]
    have hsel2 : selectedItem (setInput s "") = none :=
      selectedItem_none_of_ids_nil _ (by exact hm) (by
        rw [selIds_setInput]
        exact hfresh)
    obtain ⟨h1, _, _, _, _⟩ := syncLabel_autosel_none f (setInput s "")
      (by exact hm) hp hsel2 hfsel2 (by omega)
    have hmul : (syncLabel f (setInput s "")).1.multiple = false :=
      (shape_eq_multiple (shape_syncLabel f (setInput s ""))).trans hm
    have hids : selIds (syncLabel f (setInput s "")).1 = [] := by
      rw [h1, selIds_setInput]
      exact hfresh
    exact valuesGetter_single_none _ hmul
      (selectedItem_none_of_ids_nil _ hmul hids)

/-- C3 counterexample: the snapshot captured at first attachment is
`["a"]`, but after removing the backing item and re-adding it, `reset()`
restores nothing — the snapshot entry was erased on removal and re-adding
does not bring it back. -/
theorem claimC3_counterexample :
    (attach sampleResetSelect).initialValues = ["a"]
    ∧ (applyOps (attach sampleResetSelect)
        [Op.removeItem 0, Op.addItem sampleResetItem,
         Op.reset]).items.map (fun it => it.id) = [0]
    ∧ valuesGetter (applyOps (attach sampleResetSelect)
        [Op.removeItem 0, Op.addItem sampleResetItem, Op.reset]) = []
    ∧ valuesGetter (applyOps (attach sampleResetSelect)
        [Op.removeItem 0, Op.addItem sampleResetItem, Op.reset])
      ≠ ["a"] := by
  refine ⟨by decide, by decide, by decide, by decide⟩

theorem onSelectListChange_initials (s : SelectState) (old new : List Nat) :
    (onSelectListChange s old new).1.initialValues = s.initialValues := by
  simp only [onSelectListChange]
  by_cases hbulk : s.bulk = true
  · rw [if_pos hbulk]
  · rw [if_neg hbulk]
    by_cases hnew : old ≠ new
    · rw [if_pos hnew]
      have hsh2 : shape (selIdList (opFuel s) (deselIdList (opFuel s)
          (setBulk s true) (arrayDiff old new)).1 (arrayDiff new old)).1
          = shape s :=
        (shape_selIdList _ _ _).trans
          ((shape_deselIdList _ _ _).trans (shape_setBulk s true))
      have hini := shape_eq_initialValues hsh2
      by_cases hov : (setBulk (selIdList (opFuel s) (deselIdList (opFuel s)
          (setBulk s true) (arrayDiff old new)).1
          (arrayDiff new old)).1 false).overlayOpen = true
      · rw [if_pos hov]
        by_cases hent : arrayDiff new old ≠ []
        · rw [if_pos hent]
          exact hini
        · rw [if_neg hent]
          exact hini
      · rw [if_neg hov]
        exact hini
    · rw [if_neg hnew]
      by_cases hov : s.overlayOpen = true
      · rw [if_pos hov]
        rfl
      · rw [if_neg hov]

theorem onTagListChange_initials (s : SelectState) (vs : List String) :
    (onTagListChange s vs).1.initialValues = s.initialValues := by
  simp only [onTagListChange]
  by_cases hbulk : s.bulk = true
  · rw [if_pos hbulk]
  · rw [if_neg hbulk]
    exact shape_eq_initialValues
      ((shape_tagLoop _ _ _ _).trans (shape_setBulk s true))

theorem onNativeSelectChange_initials (s : SelectState)
    (checked : List Nat) :
    (onNativeSelectChange s checked).1.initialValues
      = s.initialValues := by
  simp only [onNativeSelectChange]
  by_cases hbulk : s.bulk = true
  · rw [if_pos hbulk]
  · rw [if_neg hbulk]
    exact shape_eq_initialValues ((shape_selIdList _ _ _).trans
      ((shape_deselIdList _ _ _).trans (shape_setBulk s true)))

theorem assignValues_initials (s : SelectState) (vs : List String) :
    (assignValues s vs).1.initialValues = s.initialValues := by
  simp only [assignValues]
  by_cases hmul : s.multiple = true
  · rw [if_pos hmul]
    exact shape_eq_initialValues (shape_valuesSetMultiLoop _ _ _ s)
  · rw [if_neg hmul]
    cases ht : (valuesSetSingleLoop (opFuel s)
        (if s.multiple = false ∧ vs.length > 1 then [vs.headI]
         else vs).headI
        s (s.items.map (fun it => it.id)) none).2.2 with
    | some t =>
      simp only [ht]
      exact shape_eq_initialValues (shape_valuesSetSingleLoop _ _ _ s none)
    | none =>
      simp only [ht]
      exact (shape_eq_initialValues (shape_setStateFromDOM _ _)).trans
        (shape_eq_initialValues (shape_valuesSetSingleLoop _ _ _ s none))

theorem selectListInteract_initials (s : SelectState) (id : Nat) :
    (selectListInteract s id).1.initialValues = s.initialValues := by
  cases hfind : findItem s id with
  | none =>
    simp only [selectListInteract, hfind]
  | some it =>
    simp only [selectListInteract, hfind]
    by_cases hps : s.multiple = false ∧ it.selected = true
    · rw [if_pos hps]
      rfl
    · rw [if_neg hps]
      exact onSelectListChange_initials s _ _

theorem addItemOp_initials (s : SelectState) (it : Item) :
    (addItemOp s it).1.initialValues = s.initialValues := by
  unfold addItemOp
  by_cases hcon : (s.items.map (fun j => j.id)).contains it.id = true
  · rw [if_pos hcon]
  · rw [if_neg hcon]
    simp only []
    split_ifs
    · exact (shape_eq_initialValues (shape_setStateFromDOM _ _)).trans rfl
    · exact (shape_eq_initialValues (shape_setStateFromDOM _ _)).trans rfl
    · exact (shape_eq_initialValues (shape_setStateFromDOM _ _)).trans rfl

theorem removeItemOp_initials (s : SelectState) (id : Nat) :
    (∀ it, findItem s id = some it →
      (removeItemOp s id).1.initialValues
        = s.initialValues.erase (itemValueFromDOM it))
    ∧ (findItem s id = none →
      (removeItemOp s id).1.initialValues = s.initialValues) := by
  constructor
  · intro it hfind
    simp only [removeItemOp, hfind]
    by_cases htag : (setItems s (s.items.filter
        (fun j => !(j.id == id)))).taglist.contains id = true
    · simp only [removeTagFromTagList, htag, if_true]
      exact (shape_eq_initialValues (shape_setStateFromDOM _ _)).trans rfl
    · simp only [removeTagFromTagList, htag, if_false]
      exact (shape_eq_initialValues (shape_setStateFromDOM _ _)).trans rfl
  · intro hfind
    simp only [removeItemOp, hfind]

/-- C3 (amended): `reset()` re-assigns the *current* initial-value
snapshot through the `values` setter.  The snapshot is untouched by every
operation except an item removal, which permanently erases the removed
item's value — re-adding the item does not restore the entry, so after a
remove/re-add cycle `reset()` restores the mutated snapshot, not the one
captured at first attachment.  When the snapshot still holds `[v]`, the
backing item is present and nothing is currently selected, `reset()`
restores `values = [v]`. -/
theorem claimC3_resetSnapshot (s : SelectState) :
    applyOp s Op.reset = assignValues s s.initialValues
    ∧ (∀ id b, (applyOp s (Op.setSelected id b)).1.initialValues
        = s.initialValues)
    ∧ (∀ id, (applyOp s (Op.listInteract id)).1.initialValues
        = s.initialValues)
    ∧ (∀ old new, (applyOp s (Op.listChange old new)).1.initialValues
        = s.initialValues)
    ∧ (∀ vs, (applyOp s (Op.tagChange vs)).1.initialValues
        = s.initialValues)
    ∧ (∀ checked, (applyOp s (Op.nativeChange checked)).1.initialValues
        = s.initialValues)
    ∧ (∀ vs, (applyOp s (Op.valuesAssign vs)).1.initialValues
        = s.initialValues)
    ∧ (∀ it, (applyOp s (Op.addItem it)).1.initialValues
        = s.initialValues)
    ∧ (applyOp s Op.reset).1.initialValues = s.initialValues
    ∧ (∀ id it, findItem s id = some it →
        (applyOp s (Op.removeItem id)).1.initialValues
          = s.initialValues.erase (itemValueFromDOM it))
    ∧ (∀ id, findItem s id = none →
        (applyOp s (Op.removeItem id)).1.initialValues = s.initialValues)
    ∧ (∀ v, s.multiple = false → WF s → selIds s = [] →
        s.initialValues = [v] →
        (∃ it0 ∈ s.items, itemValueFromDOM it0 = v) →
        valuesGetter (applyOp s Op.reset).1 = [v]) := by
  refine ⟨rfl,
    fun id b => shape_eq_initialValues (shape_setSelAttr (opFuel s) s id b),
    fun id => selectListInteract_initials s id,
    fun old new => onSelectListChange_initials s old new,
    fun vs => onTagListChange_initials s vs,
    fun checked => onNativeSelectChange_initials s checked,
    fun vs => assignValues_initials s vs,
    fun it => addItemOp_initials s it,
    assignValues_initials s s.initialValues,
    fun id it hfind => (removeItemOp_initials s id).1 it hfind,
    fun id hfind => (removeItemOp_initials s id).2 hfind,
    ?_⟩
  intro v hm hwf hfresh hsnap ⟨it0, hmem0, hval0⟩
  show valuesGetter (assignValues s s.initialValues).1 = [v]
  rw [hsnap]
  have hex : ∃ id ∈ s.items.map (fun it2 => it2.id), ∃ it,
      findItem s id = some it ∧ itemValueFromDOM it = v :=
    ⟨it0.id, List.mem_map.mpr ⟨it0, hmem0, rfl⟩, it0,
      findItem_of_mem s hwf it0 hmem0, hval0⟩
  obtain ⟨t, h1, h2, h3⟩ := valuesSetSingleLoop_match (opFuel s) v
    (s.items.map (fun it2 => it2.id)) s hm hwf hfresh
    (show (s.items.map (fun it2 => it2.id)).Nodup from hwf) hex
    (by show s.items.length + 3 ≤ s.items.length + 16; omega)
  rw [assignValues_single_someTarget s v t hm h1]
  have hmul : (valuesSetSingleLoop (opFuel s) v s
      (s.items.map (fun it2 => it2.id)) none).1.multiple = false :=
    (shape_eq_multiple (shape_valuesSetSingleLoop v _ _ s none)).trans hm
  obtain ⟨itb, hsome⟩ := selectedItem_some_of_ids_single _ t hmul h2
  rw [valuesGetter_single_some _ itb hmul hsome, h3]

/-- C3 witness: the snapshot laws instantiated on the concrete selected
Select. -/
theorem claimC3_resetSnapshot_witness :
    applyOp sampleSelectedSingle Op.reset
      = assignValues sampleSelectedSingle sampleSelectedSingle.initialValues
    ∧ (∀ id b, (applyOp sampleSelectedSingle
        (Op.setSelected id b)).1.initialValues
        = sampleSelectedSingle.initialValues)
    ∧ (∀ id, (applyOp sampleSelectedSingle
        (Op.listInteract id)).1.initialValues
        = sampleSelectedSingle.initialValues)
    ∧ (∀ old new, (applyOp sampleSelectedSingle
        (Op.listChange old new)).1.initialValues
        = sampleSelectedSingle.initialValues)
    ∧ (∀ vs, (applyOp sampleSelectedSingle
        (Op.tagChange vs)).1.initialValues
        = sampleSelectedSingle.initialValues)
    ∧ (∀ checked, (applyOp sampleSelectedSingle
        (Op.nativeChange checked)).1.initialValues
        = sampleSelectedSingle.initialValues)
    ∧ (∀ vs, (applyOp sampleSelectedSingle
        (Op.valuesAssign vs)).1.initialValues
        = sampleSelectedSingle.initialValues)
    ∧ (∀ it, (applyOp sampleSelectedSingle
        (Op.addItem it)).1.initialValues
        = sampleSelectedSingle.initialValues)
    ∧ (applyOp sampleSelectedSingle Op.reset).1.initialValues
        = sampleSelectedSingle.initialValues
    ∧ (∀ id it, findItem sampleSelectedSingle id = some it →
        (applyOp sampleSelectedSingle
          (Op.removeItem id)).1.initialValues
          = sampleSelectedSingle.initialValues.erase (itemValueFromDOM it))
    ∧ (∀ id, findItem sampleSelectedSingle id = none →
        (applyOp sampleSelectedSingle
          (Op.removeItem id)).1.initialValues
          = sampleSelectedSingle.initialValues)
    ∧ (∀ v, sampleSelectedSingle.multiple = false →
        WF sampleSelectedSingle → selIds sampleSelectedSingle = [] →
        sampleSelectedSingle.initialValues = [v] →
        (∃ it0 ∈ sampleSelectedSingle.items, itemValueFromDOM it0 = v) →
        valuesGetter (applyOp sampleSelectedSingle Op.reset).1 = [v]) :=
  claimC3_resetSnapshot sampleSelectedSingle

/-! ### Strip congruence: the cascade changes only selected flags, so
lookups and the first-selectable computation agree up to those flags. -/

theorem value_eq_of_strip {a b : Item} (h : stripItem a = stripItem b) :
    itemValueFromDOM a = itemValueFromDOM b := by
  have hv : a.valueAttr = b.valueAttr := congrArg (fun q => q.2.1) h
  have hcnt : a.content = b.content := congrArg (fun q => q.2.2.1) h
  unfold itemValueFromDOM
  rw [hv, hcnt]

theorem id_eq_of_strip {a b : Item} (h : stripItem a = stripItem b) :
    a.id = b.id := congrArg (fun q => q.1) h

theorem find_id_strip : ∀ (l1 l2 : List Item),
    l1.map stripItem = l2.map stripItem → ∀ a : Nat,
    (l1.find? (fun i => i.id == a)).map stripItem
      = (l2.find? (fun i => i.id == a)).map stripItem := by
  intro l1
  induction l1 with
  | nil =>
    intro l2 h a
    cases l2 with
    | nil => rfl
    | cons y r2 => cases h
  | cons x r1 ih =>
    intro l2 h a
    cases l2 with
    | nil => cases h
    | cons y r2 =>
      simp only [List.map_cons, List.cons.injEq] at h
      obtain ⟨hxy, hr⟩ := h
      have hid : x.id = y.id := id_eq_of_strip hxy
      cases hxa : (x.id == a) with
      | true =>
        have hya : (y.id == a) = true := by rw [← hid]; exact hxa
        have h1 : List.find? (fun i => i.id == a) (x :: r1) = some x :=
          List.find?_cons_of_pos _ (by simpa using hxa)
        have h2 : List.find? (fun i => i.id == a) (y :: r2) = some y :=
          List.find?_cons_of_pos _ (by simpa using hya)
        rw [h1, h2, Option.map_some', Option.map_some', hxy]
      | false =>
        have hya : (y.id == a) = false := by rw [← hid]; exact hxa
        have h1 : List.find? (fun i => i.id == a) (x :: r1)
            = List.find? (fun i => i.id == a) r1 :=
          List.find?_cons_of_neg _ (by simp [hxa])
        have h2 : List.find? (fun i => i.id == a) (y :: r2)
            = List.find? (fun i => i.id == a) r2 :=
          List.find?_cons_of_neg _ (by simp [hya])
        rw [h1, h2]
        exact ih r2 hr a

theorem find_selectable_strip : ∀ (l1 l2 : List Item),
    l1.map stripItem = l2.map stripItem →
    (l1.find? (fun i => !i.disabled)).map stripItem
      = (l2.find? (fun i => !i.disabled)).map stripItem := by
  intro l1
  induction l1 with
  | nil =>
    intro l2 h
    cases l2 with
    | nil => rfl
    | cons y r2 => cases h
  | cons x r1 ih =>
    intro l2 h
    cases l2 with
    | nil => cases h
    | cons y r2 =>
      simp only [List.map_cons, List.cons.injEq] at h
      obtain ⟨hxy, hr⟩ := h
      have hdis : x.disabled = y.disabled := congrArg (fun q => q.2.2.2) hxy
      cases hxa : (!x.disabled) with
      | true =>
        have hya : (!y.disabled) = true := by rw [← hdis]; exact hxa
        have h1 : List.find? (fun i => !i.disabled) (x :: r1) = some x :=
          List.find?_cons_of_pos _ (by simpa using hxa)
        have h2 : List.find? (fun i => !i.disabled) (y :: r2) = some y :=
          List.find?_cons_of_pos _ (by simpa using hya)
        rw [h1, h2, Option.map_some', Option.map_some', hxy]
      | false =>
        have hya : (!y.disabled) = false := by rw [← hdis]; exact hxa
        have h1 : List.find? (fun i => !i.disabled) (x :: r1)
            = List.find? (fun i => !i.disabled) r1 :=
          List.find?_cons_of_neg _ (by simp [hxa])
        have h2 : List.find? (fun i => !i.disabled) (y :: r2)
            = List.find? (fun i => !i.disabled) r2 :=
          List.find?_cons_of_neg _ (by simp [hya])
        rw [h1, h2]
        exact ih r2 hr

/-- Two states with equal shapes look up strip-equal records. -/
theorem findItem_strip {t u : SelectState} (h : shape t = shape u)
    (a : Nat) :
    (findItem t a).map stripItem = (findItem u a).map stripItem :=
  find_id_strip t.items u.items (congrArg (fun q => q.1) h) a

/-- Two states with equal shapes agree on the first selectable record up
to the selected flag. -/
theorem getFirstSelectable_strip {t u : SelectState}
    (h : shape t = shape u) :
    (getFirstSelectable t).map stripItem
      = (getFirstSelectable u).map stripItem :=
  find_selectable_strip t.items u.items (congrArg (fun q => q.1) h)

theorem mem_id_unique (its : List Item) (hwf : WFids its) :
    ∀ a ∈ its, ∀ b ∈ its, a.id = b.id → a = b := by
  intro a ha b hb hab
  have h2 := find_of_mem_nodup its hwf a ha
  have h3 := find_of_mem_nodup its hwf b hb
  rw [hab] at h2
  have h4 := h2.symm.trans h3
  injection h4

theorem selIdsOf_updItems_true_mem_iff (its : List Item) (j : Nat)
    (hmem : j ∈ its.map (fun i => i.id)) (a : Nat) :
    a ∈ selIdsOf (updItems its j true) ↔ (a = j ∨ a ∈ selIdsOf its) := by
  constructor
  · intro ha
    unfold selIdsOf updItems at ha
    simp only [List.mem_map, List.mem_filter] at ha
    obtain ⟨r, ⟨hrm, hrsel⟩, hrid⟩ := ha
    obtain ⟨it0, hit0, hg⟩ := hrm
    by_cases hj : (it0.id == j) = true
    · left
      rw [hj] at hg
      have : r.id = it0.id := by
        rw [← hg]
        rfl
      rw [← hrid, this]
      simpa using hj
    · right
      rw [Bool.not_eq_true] at hj
      rw [hj] at hg
      simp only [Bool.false_eq_true, if_false] at hg
      unfold selIdsOf
      simp only [List.mem_map, List.mem_filter]
      exact ⟨it0, ⟨hit0, by rw [hg]; exact hrsel⟩, by rw [hg]; exact hrid⟩
  · intro ha
    rcases ha with he | hmem2
    · subst he
      exact mem_selIdsOf_updItems_true its a hmem
    · by_cases he : a = j
      · subst he
        exact mem_selIdsOf_updItems_true its a hmem
      · exact mem_selIdsOf_updItems_ne its j a true he hmem2

theorem list_le_one_mem_eq (l : List Nat) (a : Nat) (hlen : l.length ≤ 1)
    (ha : a ∈ l) : l = [a] := by
  cases l with
  | nil => cases ha
  | cons x rest =>
    cases rest with
    | nil =>
      rw [List.mem_singleton] at ha
      rw [ha]
    | cons y r2 => simp at hlen

theorem mem_ids_of_mem_selIds (s : SelectState) (a : Nat)
    (ha : a ∈ selIds s) : a ∈ s.items.map (fun it => it.id) :=
  mem_selIdsOf s.items a ha

/-- Deselecting via the cascade when nothing remains selected afterwards:
with a placeholder the label sync is quiet; without one it force-selects
the first selectable item (writing its value into the input) or clears the
input when none exists. -/
theorem handle_desel_sole (f : Nat) (s1 : SelectState) (j : Nat)
    (it1 : Item) (hm : s1.multiple = false) (hwf : WF s1)
    (hfind : findItem s1 j = some it1) (hsel : it1.selected = false)
    (hnil : selIds s1 = []) (hf : s1.items.length + 6 ≤ f) :
    (placeholderStr s1 ≠ "" →
      selIds (handleSelectedChange f s1 j).1 = []
      ∧ (handleSelectedChange f s1 j).1.inputValue = s1.inputValue
      ∧ (handleSelectedChange f s1 j).1.taglist = s1.taglist)
    ∧ (∀ itf, placeholderStr s1 = "" →
        getFirstSelectable s1 = some itf →
        selIds (handleSelectedChange f s1 j).1 = [itf.id]
        ∧ (handleSelectedChange f s1 j).1.inputValue = itemValueFromDOM itf
        ∧ (handleSelectedChange f s1 j).1.taglist = s1.taglist)
    ∧ (placeholderStr s1 = "" → getFirstSelectable s1 = none →
        selIds (handleSelectedChange f s1 j).1 = []
        ∧ (handleSelectedChange f s1 j).1.inputValue = ""
        ∧ (handleSelectedChange f s1 j).1.taglist = s1.taglist) := by
  cases f with
  | zero => omega
  | succ f =>
    unfold handleSelectedChange
    simp only [findItem_setBulk, hfind, hsel, Bool.false_eq_true, if_false]
    rw [onItemDeselected_single _ _ (by exact hm)]
    have hselX : selectedItem (setBulk (setBulk s1 true) false) = none := by
      rw [selectedItem_setBulk, selectedItem_setBulk]
      exact selectedItem_none_of_ids_nil s1 hm hnil
    refine ⟨?_, ?_, ?_⟩
    · intro hp
      obtain ⟨hi, hv, ht, _, _⟩ := syncLabel_quiet f
        (setBulk (setBulk s1 true) false) (Or.inr (Or.inl hp))
      refine ⟨?_, hv, ht⟩
      show selIdsOf (syncLabel f (setBulk (setBulk s1 true) false)).1.items
        = []
      rw [hi]
      exact hnil
    · intro itf hp hfs
      obtain ⟨h1, h2, h3, _, _⟩ := syncLabel_autosel_some f
        (setBulk (setBulk s1 true) false) itf (by exact hm) (by exact hwf)
        hp hselX hfs (by show s1.items.length + 5 ≤ f; omega)
      exact ⟨h1, h2, h3⟩
    · intro hp hfs
      obtain ⟨h1, h2, h3, _, _⟩ := syncLabel_autosel_none f
        (setBulk (setBulk s1 true) false) (by exact hm) hp hselX hfs
        (by omega)
      refine ⟨?_, h2, h3⟩
      rw [h1]
      exact hnil

/-- Removing the selected attribute from the only selected item: the
result depends on the placeholder and the first selectable item exactly as
the label-sync side effect dictates. -/
theorem setSelAttr_false_sole (f : Nat) (s : SelectState) (j : Nat)
    (it : Item) (hm : s.multiple = false) (hwf : WF s)
    (hfind : findItem s j = some it) (hsel : it.selected = true)
    (hone : selIds s = [j]) (hf : s.items.length + 7 ≤ f) :
    (placeholderStr s ≠ "" →
      selIds (setSelAttr f s j false).1 = []
      ∧ (setSelAttr f s j false).1.inputValue = s.inputValue
      ∧ (setSelAttr f s j false).1.taglist = s.taglist)
    ∧ (∀ itf, placeholderStr s = "" → getFirstSelectable s = some itf →
        selIds (setSelAttr f s j false).1 = [itf.id]
        ∧ (setSelAttr f s j false).1.inputValue = itemValueFromDOM itf
        ∧ (setSelAttr f s j false).1.taglist = s.taglist)
    ∧ (placeholderStr s = "" → getFirstSelectable s = none →
        selIds (setSelAttr f s j false).1 = []
        ∧ (setSelAttr f s j false).1.inputValue = ""
        ∧ (setSelAttr f s j false).1.taglist = s.taglist) := by
  cases f with
  | zero => omega
  | succ f =>
    unfold setSelAttr
    simp only [hfind, hsel, Bool.true_eq_false, if_false]
    have hfind2 : findItem (updateSelected s j false) j
        = some {it with selected := false} := by
      rw [findItem_updateSelected_self, hfind]
      rfl
    have hwf2 : WF (updateSelected s j false) := by
      unfold WF WFids
      rw [items_updateSelected, updItems_map_id]
      exact hwf
    have hnil2 : selIds (updateSelected s j false) = [] := by
      show selIdsOf (updItems s.items j false) = []
      rw [selIdsOf_updItems_false s.items j hwf]
      have : selIdsOf s.items = [j] := hone
      rw [this, List.erase_cons_head]
    have hstrip : (getFirstSelectable (updateSelected s j false)).map
        stripItem = (getFirstSelectable s).map stripItem :=
      getFirstSelectable_strip (shape_updateSelected s j false)
    obtain ⟨hq, ha, hn⟩ := handle_desel_sole f (updateSelected s j false) j
      {it with selected := false} (by exact hm) hwf2 hfind2 rfl hnil2
      (by rw [items_updateSelected, updItems_length]; omega)
    refine ⟨?_, ?_, ?_⟩
    · intro hp
      obtain ⟨h1, h2, h3⟩ := hq hp
      exact ⟨h1, h2.trans (inputValue_updateSelected s j false),
        h3.trans (taglist_updateSelected s j false)⟩
    · intro itf hp hfs
      rw [hfs, Option.map_some'] at hstrip
      cases hfs2 : getFirstSelectable (updateSelected s j false) with
      | none =>
        rw [hfs2, Option.map_none'] at hstrip
        cases hstrip
      | some itf2 =>
        rw [hfs2, Option.map_some'] at hstrip
        have hstripe : stripItem itf2 = stripItem itf := by
          injection hstrip
        obtain ⟨h1, h2, h3⟩ := ha itf2 hp hfs2
        refine ⟨?_, ?_, h3.trans (taglist_updateSelected s j false)⟩
        · rw [h1, id_eq_of_strip hstripe]
        · rw [h2, value_eq_of_strip hstripe]
    · intro hp hfs
      rw [hfs, Option.map_none'] at hstrip
      cases hfs2 : getFirstSelectable (updateSelected s j false) with
      | some itf2 =>
        rw [hfs2, Option.map_some'] at hstrip
        cases hstrip
      | none =>
        obtain ⟨h1, h2, h3⟩ := hn hp hfs2
        exact ⟨h1, h2, h3.trans (taglist_updateSelected s j false)⟩

theorem getFirstSelected_of_selIds_single (t : SelectState) (a : Nat)
    (h : selIds t = [a]) :
    ∃ sel, getFirstSelected t = some sel ∧ sel.id = a ∧ sel ∈ t.items
      ∧ sel.selected = true := by
  unfold selIds selIdsOf at h
  obtain ⟨itb, hfil, hid⟩ := map_singleton_inv _ _ _ h
  cases hfind : t.items.find? (fun i => i.selected) with
  | none =>
    exfalso
    have hnone := List.find?_eq_none.mp hfind
    have hmem : itb ∈ t.items.filter (fun it => it.selected) := by
      rw [hfil]
      exact List.mem_cons_self _ _
    rw [List.mem_filter] at hmem
    exact absurd hmem.2 (by simpa using hnone itb hmem.1)
  | some x =>
    have hxsel : x.selected = true := List.find?_some hfind
    have hxmem : x ∈ t.items := List.mem_of_find?_eq_some hfind
    have hxfil : x ∈ t.items.filter (fun it => it.selected) := by
      rw [List.mem_filter]
      exact ⟨hxmem, hxsel⟩
    rw [hfil, List.mem_singleton] at hxfil
    subst hxfil
    exact ⟨x, hfind, hid, hxmem, hxsel⟩

/-- `_setStateFromDOM` with exactly one selected item: the selection is
kept and the input rewritten to the selected item's value. -/
theorem setStateFromDOM_selected (f : Nat) (t : SelectState) (a : Nat)
    (hm : t.multiple = false) (hone : selIds t = [a]) :
    ∃ sel, getFirstSelected t = some sel ∧ sel.id = a ∧ sel ∈ t.items
      ∧ selIds (setStateFromDOM f t).1 = [a]
      ∧ (setStateFromDOM f t).1.inputValue = itemValueFromDOM sel
      ∧ (setStateFromDOM f t).1.multiple = false := by
  obtain ⟨sel, hfsel, hselid, hselmem, hselsel⟩ :=
    getFirstSelected_of_selIds_single t a hone
  have hdrop : (selIds t).dropLast = [] := by
    rw [hone]
    rfl
  have hd : deselectAllExceptLast f t = (t, []) := by
    unfold deselectAllExceptLast
    rw [hdrop, deselEach_nil]
  have hquiet : selectedItem (setInput t (itemValueFromDOM sel)) ≠ none := by
    rw [selectedItem_setInput]
    apply selectedItem_single_ne_none t hm
    rw [hone]
    simp
  obtain ⟨h1, h2, _, _, _⟩ := syncLabel_quiet f
    (setInput t (itemValueFromDOM sel)) (Or.inr (Or.inr hquiet))
  refine ⟨sel, hfsel, hselid, hselmem, ?_, ?_, ?_⟩ <;>
    · unfold setStateFromDOM
      rw [if_pos hm]
      simp only [hd, hfsel]
      first
      | (show selIdsOf (syncLabel f
            (setInput t (itemValueFromDOM sel))).1.items = [a]
         rw [h1, items_setInput]
         exact hone)
      | (show (syncLabel f
            (setInput t (itemValueFromDOM sel))).1.inputValue
            = itemValueFromDOM sel
         rw [h2, inputValue_setInput])
      | (show (syncLabel f
            (setInput t (itemValueFromDOM sel))).1.multiple = false
         rw [shape_eq_multiple (shape_syncLabel f _), multiple_setInput]
         exact hm)

theorem placeholderStr_eq_of_shape {t u : SelectState}
    (h : shape t = shape u) : placeholderStr t = placeholderStr u := by
  unfold placeholderStr
  rw [shape_eq_placeholder h]

/-- The single-mode `values` loop over ids none of whose items matches:
no target is found, and the state either keeps its selection untouched
(when no listed item was selected), ends with nothing selected, or ends
with the auto-selected first selectable item carrying its value in the
input. -/
theorem singleLoop_nomatch_general (f : Nat) (v : String) :
    ∀ (l : List Nat) (st : SelectState),
    st.multiple = false → WF st → selCount st ≤ 1 →
    (∀ id ∈ l, ∀ it, findItem st id = some it →
      itemValueFromDOM it ≠ v) →
    st.items.length + 7 ≤ f →
    (valuesSetSingleLoop f v st l none).2.2 = none
    ∧ shape (valuesSetSingleLoop f v st l none).1 = shape st
    ∧ ((selIds (valuesSetSingleLoop f v st l none).1 = selIds st
        ∧ (valuesSetSingleLoop f v st l none).1.inputValue = st.inputValue
        ∧ (∀ id ∈ l, id ∉ selIds st))
      ∨ selIds (valuesSetSingleLoop f v st l none).1 = []
      ∨ (placeholderStr st = "" ∧ ∃ itf, getFirstSelectable st = some itf
          ∧ selIds (valuesSetSingleLoop f v st l none).1 = [itf.id]
          ∧ (valuesSetSingleLoop f v st l none).1.inputValue
            = itemValueFromDOM itf)) := by
  intro l
  induction l with
  | nil =>
    intro st hm hwf hc hall hf
    exact ⟨rfl, rfl, Or.inl ⟨rfl, rfl,
      fun id hid => absurd hid (List.not_mem_nil id)⟩⟩
  | cons id rest ih =>
    intro st hm hwf hc hall hf
    have htail := fun id2 h2 => hall id2 (List.mem_cons_of_mem id h2)
    cases hfind : findItem st id with
    | none =>
      have heq : valuesSetSingleLoop f v st (id :: rest) none
          = valuesSetSingleLoop f v st rest none := by
        simp only [valuesSetSingleLoop, hfind]
      have hnotin : id ∉ selIds st := fun hmm =>
        absurd (mem_ids_of_mem_selIds st id hmm)
          ((findItem_none_iff st id).mp hfind)
      obtain ⟨g1, g2, g3⟩ := ih st hm hwf hc htail hf
      rw [heq]
      refine ⟨g1, g2, ?_⟩
      rcases g3 with ⟨d1, d2, d3⟩ | d | d
      · refine Or.inl ⟨d1, d2, ?_⟩
        intro id2 h2
        rcases List.mem_cons.mp h2 with he | hr
        · subst he
          exact hnotin
        · exact d3 id2 hr
      · exact Or.inr (Or.inl d)
      · exact Or.inr (Or.inr d)
    | some it =>
      have hvne : itemValueFromDOM it ≠ v :=
        hall id (List.mem_cons_self id rest) it hfind
      by_cases hitsel : it.selected = true
      · have hone : selIds st = [id] := list_le_one_mem_eq _ id
          (by rw [← selCount_eq_length]; exact hc)
          (mem_selIds_of_findItem st id it hfind hitsel)
        obtain ⟨hq, ha, hn⟩ := setSelAttr_false_sole f st id it hm hwf
          hfind hitsel hone (by omega)
        have hsh2 : shape (setSelAttr f st id false).1 = shape st :=
          shape_setSelAttr f st id false
        have hm2 : (setSelAttr f st id false).1.multiple = false :=
          (shape_eq_multiple hsh2).trans hm
        have hwf2 : WF (setSelAttr f st id false).1 := shape_eq_WF hsh2 hwf
        have hc2 : selCount (setSelAttr f st id false).1 ≤ 1 :=
          setSelAttr_count f st id false hm hwf hc (by omega)
        have hall2 : ∀ id2 ∈ rest, ∀ it2,
            findItem (setSelAttr f st id false).1 id2 = some it2 →
            itemValueFromDOM it2 ≠ v := by
          intro id2 h2 it2 hf2
          have hstripf := findItem_strip hsh2 id2
          rw [hf2, Option.map_some'] at hstripf
          cases hf3 : findItem st id2 with
          | none =>
            rw [hf3, Option.map_none'] at hstripf
            cases hstripf
          | some it3 =>
            rw [hf3, Option.map_some'] at hstripf
            have hstr : stripItem it2 = stripItem it3 := by
              injection hstripf
            rw [value_eq_of_strip hstr]
            exact htail id2 h2 it3 hf3
        obtain ⟨g1, g2, g3⟩ := ih (setSelAttr f st id false).1 hm2 hwf2
          hc2 hall2 (by rw [shape_eq_len hsh2]; exact hf)
        have e1 : (valuesSetSingleLoop f v st (id :: rest) none).2.2
            = (valuesSetSingleLoop f v (setSelAttr f st id false).1
                rest none).2.2 := by
          simp only [valuesSetSingleLoop, hfind]
          rw [if_neg hvne]
        have e2 : (valuesSetSingleLoop f v st (id :: rest) none).1
            = (valuesSetSingleLoop f v (setSelAttr f st id false).1
                rest none).1 := by
          simp only [valuesSetSingleLoop, hfind]
          rw [if_neg hvne]
        rw [e1, e2]
        refine ⟨g1, g2.trans hsh2, ?_⟩
        rcases g3 with ⟨d1, d2, d3⟩ | d | ⟨dp, itf2, dfs, dids, din⟩
        · by_cases hp : placeholderStr st = ""
          · cases hfs : getFirstSelectable st with
            | some itf =>
              obtain ⟨ha1, ha2, _⟩ := ha itf hp hfs
              refine Or.inr (Or.inr ⟨hp, itf, rfl, ?_, ?_⟩)
              · rw [d1, ha1]
              · rw [d2, ha2]
            | none =>
              obtain ⟨hn1, _, _⟩ := hn hp hfs
              refine Or.inr (Or.inl ?_)
              rw [d1, hn1]
          · obtain ⟨hq1, _, _⟩ := hq hp
            refine Or.inr (Or.inl ?_)
            rw [d1, hq1]
        · exact Or.inr (Or.inl d)
        · have hpS : placeholderStr st = "" :=
            (placeholderStr_eq_of_shape hsh2).symm.trans dp
          have hstripf := getFirstSelectable_strip hsh2
          rw [dfs, Option.map_some'] at hstripf
          cases hfs : getFirstSelectable st with
          | none =>
            rw [hfs, Option.map_none'] at hstripf
            cases hstripf
          | some itf =>
            rw [hfs, Option.map_some'] at hstripf
            have hstr : stripItem itf2 = stripItem itf := by
              injection hstripf
            refine Or.inr (Or.inr ⟨hpS, itf, rfl, ?_, ?_⟩)
            · rw [dids, id_eq_of_strip hstr]
            · rw [din, value_eq_of_strip hstr]
      · have hselF : it.selected = false := by
          cases h : it.selected with
          | false => rfl
          | true => exact absurd h hitsel
        have hstep : setSelAttr f st id false = (st, []) :=
          setSelAttr_noop f st id it false hfind hselF
        have heq : valuesSetSingleLoop f v st (id :: rest) none
            = valuesSetSingleLoop f v st rest none := by
          simp only [valuesSetSingleLoop, hfind]
          rw [if_neg hvne]
          simp only [hstep]
          rfl
        have hnotin : id ∉ selIds st := by
          intro hmm
          obtain ⟨it', hf', hs'⟩ := findItem_of_selIds st hwf id hmm
          rw [hfind] at hf'
          have he : it = it' := by injection hf'
          exact hitsel (he ▸ hs')
        obtain ⟨g1, g2, g3⟩ := ih st hm hwf hc htail hf
        rw [heq]
        refine ⟨g1, g2, ?_⟩
        rcases g3 with ⟨d1, d2, d3⟩ | d | d
        · refine Or.inl ⟨d1, d2, ?_⟩
          intro id2 h2
          rcases List.mem_cons.mp h2 with he | hr
          · subst he
            exact hnotin
          · exact d3 id2 hr
        · exact Or.inr (Or.inl d)
        · exact Or.inr (Or.inr d)

/-- The single-mode `values` loop when some listed item matches: the first
match becomes the target and the only selected item, and the input carries
the assigned value — from any starting selection, provided the input
mirrors the selected item's value (the setter skips the write when the
match was already selected). -/
theorem singleLoop_match_general (f : Nat) (v : String) :
    ∀ (l : List Nat) (st : SelectState),
    st.multiple = false → WF st → selCount st ≤ 1 →
    (∀ a it', selIds st = [a] → findItem st a = some it' →
      st.inputValue = itemValueFromDOM it') →
    l.Nodup →
    (∃ id ∈ l, ∃ it, findItem st id = some it
      ∧ itemValueFromDOM it = v) →
    st.items.length + 7 ≤ f →
    ∃ t, (valuesSetSingleLoop f v st l none).2.2 = some t
      ∧ selIds (valuesSetSingleLoop f v st l none).1 = [t]
      ∧ (valuesSetSingleLoop f v st l none).1.inputValue = v := by
  intro l
  induction l with
  | nil =>
    intro st _ _ _ _ _ hex _
    obtain ⟨i2, h2, _⟩ := hex
    cases h2
  | cons id rest ih =>
    intro st hm hwf hc hcoh hnodup hex hf
    rw [List.nodup_cons] at hnodup
    cases hfind : findItem st id with
    | none =>
      have heq : valuesSetSingleLoop f v st (id :: rest) none
          = valuesSetSingleLoop f v st rest none := by
        simp only [valuesSetSingleLoop, hfind]
      have hex2 : ∃ id2 ∈ rest, ∃ it2, findItem st id2 = some it2
          ∧ itemValueFromDOM it2 = v := by
        obtain ⟨id2, hid2, it2, hfind2, hv2⟩ := hex
        rcases List.mem_cons.mp hid2 with he | hr
        · subst he
          rw [hfind] at hfind2
          cases hfind2
        · exact ⟨id2, hr, it2, hfind2, hv2⟩
      rw [heq]
      exact ih st hm hwf hc hcoh hnodup.2 hex2 hf
    | some it =>
      by_cases hv : itemValueFromDOM it = v
      · by_cases hitsel : it.selected = true
        · have hone : selIds st = [id] := list_le_one_mem_eq _ id
            (by rw [← selCount_eq_length]; exact hc)
            (mem_selIds_of_findItem st id it hfind hitsel)
          have hall2 : ∀ id2 ∈ rest, findItem st id2 = none
              ∨ ∃ it2, findItem st id2 = some it2
                ∧ it2.selected = false := by
            intro id2 h2
            cases hf2 : findItem st id2 with
            | none => exact Or.inl rfl
            | some it2 =>
              refine Or.inr ⟨it2, rfl, ?_⟩
              cases hs2 : it2.selected with
              | false => rfl
              | true =>
                exfalso
                have hmm := mem_selIds_of_findItem st id2 it2 hf2 hs2
                rw [hone, List.mem_singleton] at hmm
                exact hnodup.1 (hmm ▸ h2)
          have hloop := valuesSetSingleLoop_target_noop f v rest st id
            hall2
          have hstep : setSelAttr f st id true = (st, []) :=
            setSelAttr_noop f st id it true hfind hitsel
          refine ⟨id, ?_, ?_, ?_⟩
          · show (valuesSetSingleLoop f v st (id :: rest) none).2.2
              = some id
            simp only [valuesSetSingleLoop, hfind]
            rw [if_pos hv]
            simp only [hstep, hloop]
          · show selIds (valuesSetSingleLoop f v st
              (id :: rest) none).1 = [id]
            simp only [valuesSetSingleLoop, hfind]
            rw [if_pos hv]
            simp only [hstep, hloop]
            exact hone
          · show (valuesSetSingleLoop f v st
              (id :: rest) none).1.inputValue = v
            simp only [valuesSetSingleLoop, hfind]
            rw [if_pos hv]
            simp only [hstep, hloop]
            rw [hcoh id it hone hfind]
            exact hv
        · have hselF : it.selected = false := by
            cases h : it.selected with
            | false => rfl
            | true => exact absurd h hitsel
          obtain ⟨h1, h2, h3⟩ := setSelAttr_true_single f st id it hm hwf
            hfind hselF (by omega)
          have hall2 : ∀ id2 ∈ rest,
              findItem (setSelAttr f st id true).1 id2 = none
              ∨ ∃ it2, findItem (setSelAttr f st id true).1 id2 = some it2
                ∧ it2.selected = false := by
            intro id2 hid2
            cases hf2 : findItem (setSelAttr f st id true).1 id2 with
            | none => exact Or.inl rfl
            | some it2 =>
              refine Or.inr ⟨it2, rfl, ?_⟩
              cases hs2 : it2.selected with
              | false => rfl
              | true =>
                exfalso
                have hmem2 : id2 ∈ selIds (setSelAttr f st id true).1 :=
                  mem_selIds_of_findItem _ id2 it2 hf2 hs2
                rw [h1, List.mem_singleton] at hmem2
                exact hnodup.1 (hmem2 ▸ hid2)
          have hloop := valuesSetSingleLoop_target_noop f v rest
            (setSelAttr f st id true).1 id hall2
          refine ⟨id, ?_, ?_, ?_⟩
          · show (valuesSetSingleLoop f v st (id :: rest) none).2.2
              = some id
            simp only [valuesSetSingleLoop, hfind]
            rw [if_pos hv]
            simp only [hloop]
          · show selIds (valuesSetSingleLoop f v st
              (id :: rest) none).1 = [id]
            simp only [valuesSetSingleLoop, hfind]
            rw [if_pos hv]
            simp only [hloop]
            exact h1
          · show (valuesSetSingleLoop f v st
              (id :: rest) none).1.inputValue = v
            simp only [valuesSetSingleLoop, hfind]
            rw [if_pos hv]
            simp only [hloop]
            rw [h2]
            exact hv
      · by_cases hitsel : it.selected = true
        · have hone : selIds st = [id] := list_le_one_mem_eq _ id
            (by rw [← selCount_eq_length]; exact hc)
            (mem_selIds_of_findItem st id it hfind hitsel)
          obtain ⟨hq, ha, hn⟩ := setSelAttr_false_sole f st id it hm hwf
            hfind hitsel hone (by omega)
          have hsh2 : shape (setSelAttr f st id false).1 = shape st :=
            shape_setSelAttr f st id false
          have hm2 : (setSelAttr f st id false).1.multiple = false :=
            (shape_eq_multiple hsh2).trans hm
          have hwf2 : WF (setSelAttr f st id false).1 :=
            shape_eq_WF hsh2 hwf
          have hc2 : selCount (setSelAttr f st id false).1 ≤ 1 :=
            setSelAttr_count f st id false hm hwf hc (by omega)
          have hcoh2 : ∀ a it', selIds (setSelAttr f st id false).1 = [a] →
              findItem (setSelAttr f st id false).1 a = some it' →
              (setSelAttr f st id false).1.inputValue
                = itemValueFromDOM it' := by
            intro a it' hids hfind2
            by_cases hp : placeholderStr st = ""
            · cases hfs : getFirstSelectable st with
              | some itf =>
                obtain ⟨ha1, ha2, _⟩ := ha itf hp hfs
                rw [ha1] at hids
                have haid : a = itf.id := by injection hids with hh; exact hh.symm
                subst haid
                have hmemf : itf ∈ st.items :=
                  getFirstSelectable_mem st itf hfs
                have hfindl : findItem st itf.id = some itf :=
                  findItem_of_mem st hwf itf hmemf
                have hstripf := findItem_strip hsh2 itf.id
                rw [hfind2, hfindl, Option.map_some', Option.map_some']
                  at hstripf
                have hstr : stripItem it' = stripItem itf := by
                  injection hstripf
                rw [ha2, value_eq_of_strip hstr]
              | none =>
                obtain ⟨hn1, _, _⟩ := hn hp hfs
                rw [hn1] at hids
                cases hids
            · obtain ⟨hq1, _, _⟩ := hq hp
              rw [hq1] at hids
              cases hids
          have hex2 : ∃ id2 ∈ rest, ∃ it2,
              findItem (setSelAttr f st id false).1 id2 = some it2
              ∧ itemValueFromDOM it2 = v := by
            obtain ⟨id2, hid2, it2, hfind2, hv2⟩ := hex
            rcases List.mem_cons.mp hid2 with he | hr
            · subst he
              rw [hfind] at hfind2
              have he2 : it = it2 := by injection hfind2
              exact absurd (he2 ▸ hv2) hv
            · have hstripf := findItem_strip hsh2 id2
              rw [hfind2, Option.map_some'] at hstripf
              cases hf3 : findItem (setSelAttr f st id false).1 id2 with
              | none =>
                rw [hf3, Option.map_none'] at hstripf
                cases hstripf
              | some it3 =>
                rw [hf3, Option.map_some'] at hstripf
                have hstr : stripItem it3 = stripItem it2 := by
                  injection hstripf
                exact ⟨id2, hr, it3, hf3,
                  (value_eq_of_strip hstr).trans hv2⟩
          obtain ⟨t, g1, g2, g3⟩ := ih (setSelAttr f st id false).1 hm2
            hwf2 hc2 hcoh2 hnodup.2 hex2
            (by rw [shape_eq_len hsh2]; exact hf)
          have e1 : (valuesSetSingleLoop f v st (id :: rest) none).2.2
              = (valuesSetSingleLoop f v (setSelAttr f st id false).1
                  rest none).2.2 := by
            simp only [valuesSetSingleLoop, hfind]
            rw [if_neg hv]
          have e2 : (valuesSetSingleLoop f v st (id :: rest) none).1
              = (valuesSetSingleLoop f v (setSelAttr f st id false).1
                  rest none).1 := by
            simp only [valuesSetSingleLoop, hfind]
            rw [if_neg hv]
          rw [e1, e2]
          exact ⟨t, g1, g2, g3⟩
        · have hselF : it.selected = false := by
            cases h : it.selected with
            | false => rfl
            | true => exact absurd h hitsel
          have hstep : setSelAttr f st id false = (st, []) :=
            setSelAttr_noop f st id it false hfind hselF
          have heq : valuesSetSingleLoop f v st (id :: rest) none
              = valuesSetSingleLoop f v st rest none := by
            simp only [valuesSetSingleLoop, hfind]
            rw [if_neg hv]
            simp only [hstep]
            rfl
          have hex2 : ∃ id2 ∈ rest, ∃ it2, findItem st id2 = some it2
              ∧ itemValueFromDOM it2 = v := by
            obtain ⟨id2, hid2, it2, hfind2, hv2⟩ := hex
            rcases List.mem_cons.mp hid2 with he | hr
            · subst he
              rw [hfind] at hfind2
              have he2 : it = it2 := by injection hfind2
              exact absurd (he2 ▸ hv2) hv
            · exact ⟨id2, hr, it2, hfind2, hv2⟩
          rw [heq]
          exact ih st hm hwf hc hcoh hnodup.2 hex2 hf

/-- The single-mode `values` setter when no item matches: the fallback
`_setStateFromDOM` yields an empty read with a placeholder or no
selectable item, and the auto-selected first selectable item's value
otherwise — from any starting selection. -/
theorem assignValues_single_nomatch (s : SelectState) (v : String)
    (hm : s.multiple = false) (hwf : WF s) (hc : selCount s ≤ 1)
    (hnone : ∀ it ∈ s.items, itemValueFromDOM it ≠ v) :
    (placeholderStr s ≠ "" → valuesGetter (assignValues s [v]).1 = [])
    ∧ (∀ itf, placeholderStr s = "" → getFirstSelectable s = some itf →
        valuesGetter (assignValues s [v]).1 = [itemValueFromDOM itf])
    ∧ (placeholderStr s = "" → getFirstSelectable s = none →
        valuesGetter (assignValues s [v]).1 = []) := by
  have hall : ∀ id ∈ s.items.map (fun it2 => it2.id), ∀ it,
      findItem s id = some it → itemValueFromDOM it ≠ v :=
    fun id _ it hf => hnone it (findItem_mem s id it hf)
  obtain ⟨g1, g2, g3⟩ := singleLoop_nomatch_general (opFuel s) v
    (s.items.map (fun it2 => it2.id)) s hm hwf hc hall
    (by show s.items.length + 7 ≤ s.items.length + 16; omega)
  have hres : (assignValues s [v]).1 = (setStateFromDOM (opFuel s)
      (valuesSetSingleLoop (opFuel s) v s
        (s.items.map (fun it2 => it2.id)) none).1).1 :=
    assignValues_single_noTarget s v hm g1
  have hmL : (valuesSetSingleLoop (opFuel s) v s
      (s.items.map (fun it2 => it2.id)) none).1.multiple = false :=
    (shape_eq_multiple g2).trans hm
  have hwfL : WF (valuesSetSingleLoop (opFuel s) v s
      (s.items.map (fun it2 => it2.id)) none).1 := shape_eq_WF g2 hwf
  have hfuelL : (valuesSetSingleLoop (opFuel s) v s
      (s.items.map (fun it2 => it2.id)) none).1.items.length + 6
      ≤ opFuel s := by
    rw [shape_eq_len g2]
    show s.items.length + 6 ≤ s.items.length + 16
    omega
  refine ⟨?_, ?_, ?_⟩
  · intro hp
    have hidsnil : selIds (valuesSetSingleLoop (opFuel s) v s
        (s.items.map (fun it2 => it2.id)) none).1 = [] := by
      rcases g3 with ⟨d1, _, d3⟩ | d | ⟨dp, _⟩
      · have hnil : selIds s = [] := by
          rw [List.eq_nil_iff_forall_not_mem]
          intro a ha
          exact d3 a (mem_ids_of_mem_selIds s a ha) ha
        rw [d1, hnil]
      · exact d
      · exact absurd dp hp
    obtain ⟨q1, _, _⟩ := setStateFromDOM_fresh (opFuel s) _ hmL hwfL
      hidsnil hfuelL
    rw [hres]
    apply q1
    rw [placeholderStr_eq_of_shape g2]
    exact hp
  · intro itf hp hfs
    have hstripf := getFirstSelectable_strip g2
    rw [hfs, Option.map_some'] at hstripf
    cases hfsL : getFirstSelectable (valuesSetSingleLoop (opFuel s) v s
        (s.items.map (fun it2 => it2.id)) none).1 with
    | none =>
      rw [hfsL, Option.map_none'] at hstripf
      cases hstripf
    | some itfL =>
      rw [hfsL, Option.map_some'] at hstripf
      have hstr : stripItem itfL = stripItem itf := by
        injection hstripf
      have hpL : placeholderStr (valuesSetSingleLoop (opFuel s) v s
          (s.items.map (fun it2 => it2.id)) none).1 = "" := by
        rw [placeholderStr_eq_of_shape g2]
        exact hp
      rcases g3 with ⟨d1, _, d3⟩ | d | ⟨dp, itf2, dfs, dids, din⟩
      · have hnil : selIds s = [] := by
          rw [List.eq_nil_iff_forall_not_mem]
          intro a ha
          exact d3 a (mem_ids_of_mem_selIds s a ha) ha
        have hidsnil : selIds (valuesSetSingleLoop (opFuel s) v s
            (s.items.map (fun it2 => it2.id)) none).1 = [] := by
          rw [d1, hnil]
        obtain ⟨_, q2, _⟩ := setStateFromDOM_fresh (opFuel s) _ hmL hwfL
          hidsnil hfuelL
        rw [hres, q2 itfL hpL hfsL, value_eq_of_strip hstr]
      · obtain ⟨_, q2, _⟩ := setStateFromDOM_fresh (opFuel s) _ hmL hwfL
          d hfuelL
        rw [hres, q2 itfL hpL hfsL, value_eq_of_strip hstr]
      · have hitf2 : itf2 = itf := by
          rw [dfs] at hfs
          injection hfs
        subst hitf2
        obtain ⟨sel, _, hselid, hselmem, r1, r2, r3⟩ :=
          setStateFromDOM_selected (opFuel s) _ itf2.id hmL dids
        obtain ⟨itb, hsome⟩ := selectedItem_some_of_ids_single _ itf2.id
          r3 r1
        have hfindsel : findItem (valuesSetSingleLoop (opFuel s) v s
            (s.items.map (fun it2 => it2.id)) none).1 itf2.id
            = some sel := by
          have := findItem_of_mem _ hwfL sel hselmem
          rw [hselid] at this
          exact this
        have hfinds : findItem s itf2.id = some itf2 :=
          findItem_of_mem s hwf itf2 (getFirstSelectable_mem s itf2 dfs)
        have hstripi := findItem_strip g2 itf2.id
        rw [hfindsel, hfinds, Option.map_some', Option.map_some']
          at hstripi
        have hstr2 : stripItem sel = stripItem itf2 := by
          injection hstripi
        rw [hres, valuesGetter_single_some _ itb r3 hsome, r2,
          value_eq_of_strip hstr2]
  · intro hp hfs
    have hstripf := getFirstSelectable_strip g2
    rw [hfs, Option.map_none'] at hstripf
    have hfsL : getFirstSelectable (valuesSetSingleLoop (opFuel s) v s
        (s.items.map (fun it2 => it2.id)) none).1 = none := by
      cases hfsL2 : getFirstSelectable (valuesSetSingleLoop (opFuel s) v s
          (s.items.map (fun it2 => it2.id)) none).1 with
      | none => rfl
      | some itfL =>
        rw [hfsL2, Option.map_some'] at hstripf
        cases hstripf
    have hpL : placeholderStr (valuesSetSingleLoop (opFuel s) v s
        (s.items.map (fun it2 => it2.id)) none).1 = "" := by
      rw [placeholderStr_eq_of_shape g2]
      exact hp
    have hidsnil : selIds (valuesSetSingleLoop (opFuel s) v s
        (s.items.map (fun it2 => it2.id)) none).1 = [] := by
      rcases g3 with ⟨d1, _, d3⟩ | d | ⟨_, itf2, dfs, _⟩
      · have hnil : selIds s = [] := by
          rw [List.eq_nil_iff_forall_not_mem]
          intro a ha
          exact d3 a (mem_ids_of_mem_selIds s a ha) ha
        rw [d1, hnil]
      · exact d
      · rw [dfs] at hfs
        cases hfs
    obtain ⟨_, _, q3⟩ := setStateFromDOM_fresh (opFuel s) _ hmL hwfL
      hidsnil hfuelL
    rw [hres]
    exact q3 hpL hfsL

theorem assignValues_single_match (s : SelectState) (v : String)
    (hm : s.multiple = false) (hwf : WF s) (hc : selCount s ≤ 1)
    (hcoh : ∀ it, selectedItem s = some it →
      s.inputValue = itemValueFromDOM it)
    (hex : ∃ it ∈ s.items, itemValueFromDOM it = v) :
    valuesGetter (assignValues s [v]).1 = [v] := by
  have hcoh2 : ∀ a it', selIds s = [a] → findItem s a = some it' →
      s.inputValue = itemValueFromDOM it' := by
    intro a it' hids hfind
    obtain ⟨itb, hlast, hidb, _, hmemb⟩ :=
      getLastSelected_of_selIds_single s a hids
    have hsel : selectedItem s = some itb := by
      rw [selectedItem_single s hm]
      exact hlast
    have hfb : findItem s a = some itb := by
      have hh := findItem_of_mem s hwf itb hmemb
      rw [hidb] at hh
      exact hh
    rw [hfb] at hfind
    have he : itb = it' := by injection hfind
    rw [← he]
    exact hcoh itb hsel
  obtain ⟨it0, hmem0, hval0⟩ := hex
  have hexl : ∃ id ∈ s.items.map (fun it2 => it2.id), ∃ it,
      findItem s id = some it ∧ itemValueFromDOM it = v :=
    ⟨it0.id, List.mem_map.mpr ⟨it0, hmem0, rfl⟩, it0,
      findItem_of_mem s hwf it0 hmem0, hval0⟩
  obtain ⟨t, h1, h2, h3⟩ := singleLoop_match_general (opFuel s) v
    (s.items.map (fun it2 => it2.id)) s hm hwf hc hcoh2
    (show (s.items.map (fun it2 => it2.id)).Nodup from hwf) hexl
    (by show s.items.length + 7 ≤ s.items.length + 16; omega)
  rw [assignValues_single_someTarget s v t hm h1]
  have hmul : (valuesSetSingleLoop (opFuel s) v s
      (s.items.map (fun it2 => it2.id)) none).1.multiple = false :=
    (shape_eq_multiple (shape_valuesSetSingleLoop v _ _ s none)).trans hm
  obtain ⟨itb, hsome⟩ := selectedItem_some_of_ids_single _ t hmul h2
  rw [valuesGetter_single_some _ itb hmul hsome, h3]

/-! ### The multiple-mode `values` loop -/

theorem multiple_setTags (s : SelectState) (l : List Nat) :
    (setTags s l).multiple = s.multiple := rfl

theorem onItemSelected_multiple (s : SelectState) (id : Nat) (it : Item)
    (hm : s.multiple = true) (hfind : findItem s id = some it) :
    onItemSelected s id = (setTags s (s.taglist.erase id ++ [id]),
      [Act.viewNotify s.bulk, Act.viewNotify s.bulk]) := by
  unfold onItemSelected addTagToTagList
  rw [hfind]
  simp only [hm, if_true]

theorem onItemDeselected_multiple (s : SelectState) (id : Nat)
    (hm : s.multiple = true) :
    (onItemDeselected s id).1.items = s.items
    ∧ (onItemDeselected s id).1.inputValue = s.inputValue
    ∧ (onItemDeselected s id).1.taglist = s.taglist.erase id
    ∧ (onItemDeselected s id).1.multiple = true := by
  unfold onItemDeselected removeTagFromTagList
  simp only [hm, if_true]
  by_cases htag : s.taglist.contains id = true
  · rw [if_pos htag]
    exact ⟨rfl, rfl, rfl, hm⟩
  · rw [if_neg htag]
    refine ⟨rfl, rfl, ?_, hm⟩
    have hnm : id ∉ s.taglist := fun hmm => htag (List.elem_iff.mpr hmm)
    rw [List.erase_of_not_mem hnm]

/-- `_onItemSelectedChange` for a selection in multiple mode: the item
keeps its flag, its tag is appended (an existing tag moves to the end)
and nothing else changes. -/
theorem handle_select_multiple (f : Nat) (s1 : SelectState) (j : Nat)
    (it1 : Item) (hm : s1.multiple = true)
    (hfind : findItem s1 j = some it1) (hsel : it1.selected = true)
    (hf : 1 ≤ f) :
    (handleSelectedChange f s1 j).1.items = s1.items
    ∧ (handleSelectedChange f s1 j).1.inputValue = s1.inputValue
    ∧ (handleSelectedChange f s1 j).1.taglist
      = s1.taglist.erase j ++ [j] := by
  cases f with
  | zero => omega
  | succ f =>
    unfold handleSelectedChange
    simp only [findItem_setBulk, hfind, hsel, if_true]
    rw [onItemSelected_multiple (setBulk s1 true) j it1 (by exact hm)
      (by rw [findItem_setBulk]; exact hfind)]
    rw [if_neg (show ¬(setTags (setBulk s1 true)
        ((setBulk s1 true).taglist.erase j ++ [j])).multiple = false by
      rw [multiple_setTags, multiple_setBulk, hm]
      decide)]
    have hm2 : (setBulk (setTags (setBulk s1 true)
        ((setBulk s1 true).taglist.erase j ++ [j])) false).multiple
        = true := by
      rw [multiple_setBulk, multiple_setTags, multiple_setBulk]
      exact hm
    obtain ⟨hi, hv, ht, _, _⟩ := syncLabel_quiet f
      (setBulk (setTags (setBulk s1 true)
        ((setBulk s1 true).taglist.erase j ++ [j])) false) (Or.inl hm2)
    exact ⟨hi, hv, ht⟩

/-- `_onItemSelectedChange` for a deselection in multiple mode: the tag is
removed (a no-op when absent) and nothing else changes. -/
theorem handle_desel_multiple (f : Nat) (s1 : SelectState) (j : Nat)
    (it1 : Item) (hm : s1.multiple = true)
    (hfind : findItem s1 j = some it1) (hsel : it1.selected = false)
    (hf : 1 ≤ f) :
    (handleSelectedChange f s1 j).1.items = s1.items
    ∧ (handleSelectedChange f s1 j).1.inputValue = s1.inputValue
    ∧ (handleSelectedChange f s1 j).1.taglist = s1.taglist.erase j := by
  cases f with
  | zero => omega
  | succ f =>
    unfold handleSelectedChange
    simp only [findItem_setBulk, hfind, hsel, Bool.false_eq_true, if_false]
    obtain ⟨hdi, hdv, hdt, hdm⟩ := onItemDeselected_multiple
      (setBulk s1 true) j (by exact hm)
    have hm2 : (setBulk (onItemDeselected (setBulk s1 true) j).1
        false).multiple = true := by
      rw [multiple_setBulk, hdm]
    obtain ⟨hi, hv, ht, _, _⟩ := syncLabel_quiet f
      (setBulk (onItemDeselected (setBulk s1 true) j).1 false)
      (Or.inl hm2)
    refine ⟨?_, ?_, ?_⟩
    · show (syncLabel f (setBulk (onItemDeselected
        (setBulk s1 true) j).1 false)).1.items = s1.items
      rw [hi, items_setBulk, hdi, items_setBulk]
    · show (syncLabel f (setBulk (onItemDeselected
        (setBulk s1 true) j).1 false)).1.inputValue = s1.inputValue
      rw [hv, inputValue_setBulk, hdv, inputValue_setBulk]
    · show (syncLabel f (setBulk (onItemDeselected
        (setBulk s1 true) j).1 false)).1.taglist = s1.taglist.erase j
      rw [ht, taglist_setBulk, hdt, taglist_setBulk]

/-- Setting the selected attribute in multiple mode: the flag flips, the
tag is appended, nothing else changes. -/
theorem setSelAttr_true_multiple (f : Nat) (s : SelectState) (j : Nat)
    (it : Item) (hm : s.multiple = true) (hfind : findItem s j = some it)
    (hsel : it.selected = false) (hf : 2 ≤ f) :
    (setSelAttr f s j true).1.items = updItems s.items j true
    ∧ (setSelAttr f s j true).1.inputValue = s.inputValue
    ∧ (setSelAttr f s j true).1.taglist = s.taglist.erase j ++ [j] := by
  cases f with
  | zero => omega
  | succ f =>
    unfold setSelAttr
    simp only [hfind, hsel, Bool.false_eq_true, if_false]
    have hfind2 : findItem (updateSelected s j true) j
        = some {it with selected := true} := by
      rw [findItem_updateSelected_self, hfind]
      rfl
    obtain ⟨hi, hv, ht⟩ := handle_select_multiple f
      (updateSelected s j true) j {it with selected := true}
      (by exact hm) hfind2 rfl (by omega)
    refine ⟨?_, ?_, ?_⟩
    · rw [hi, items_updateSelected]
    · rw [hv, inputValue_updateSelected]
    · rw [ht, taglist_updateSelected]

/-- Removing the selected attribute in multiple mode: the flag flips, the
tag is removed, nothing else changes. -/
theorem setSelAttr_false_multiple (f : Nat) (s : SelectState) (j : Nat)
    (it : Item) (hm : s.multiple = true) (hfind : findItem s j = some it)
    (hsel : it.selected = true) (hf : 2 ≤ f) :
    (setSelAttr f s j false).1.items = updItems s.items j false
    ∧ (setSelAttr f s j false).1.inputValue = s.inputValue
    ∧ (setSelAttr f s j false).1.taglist = s.taglist.erase j := by
  cases f with
  | zero => omega
  | succ f =>
    unfold setSelAttr
    simp only [hfind, hsel, Bool.true_eq_false, if_false]
    have hfind2 : findItem (updateSelected s j false) j
        = some {it with selected := false} := by
      rw [findItem_updateSelected_self, hfind]
      rfl
    obtain ⟨hi, hv, ht⟩ := handle_desel_multiple f
      (updateSelected s j false) j {it with selected := false}
      (by exact hm) hfind2 rfl (by omega)
    refine ⟨?_, ?_, ?_⟩
    · rw [hi, items_updateSelected]
    · rw [hv, inputValue_updateSelected]
    · rw [ht, taglist_updateSelected]

/-- Shape-equal states agree on whether a looked-up item's value is among
the assigned values. -/
theorem bmatch_iff_of_shape {t u : SelectState} (h : shape t = shape u)
    (vs : List String) (a : Nat) :
    (∃ it, findItem t a = some it
      ∧ vs.contains (itemValueFromDOM it) = true)
    ↔ (∃ it, findItem u a = some it
      ∧ vs.contains (itemValueFromDOM it) = true) := by
  have hstripf := findItem_strip h a
  constructor
  · rintro ⟨it, hf, hc⟩
    rw [hf, Option.map_some'] at hstripf
    cases hf2 : findItem u a with
    | none =>
      rw [hf2, Option.map_none'] at hstripf
      cases hstripf
    | some it2 =>
      rw [hf2, Option.map_some'] at hstripf
      have hstr : stripItem it = stripItem it2 := by injection hstripf
      exact ⟨it2, rfl, by rw [← value_eq_of_strip hstr]; exact hc⟩
  · rintro ⟨it, hf, hc⟩
    rw [hf, Option.map_some'] at hstripf
    cases hf2 : findItem t a with
    | none =>
      rw [hf2, Option.map_none'] at hstripf
      cases hstripf
    | some it2 =>
      rw [hf2, Option.map_some'] at hstripf
      have hstr : stripItem it2 = stripItem it := by injection hstripf
      exact ⟨it2, rfl, by rw [value_eq_of_strip hstr]; exact hc⟩

/-- The multiple-mode `values` loop: afterwards the tag list holds exactly
the listed item ids whose value is among the assigned values (plus any
unlisted preexisting tags), stays duplicate-free, and keeps mirroring the
selected items. -/
theorem multiLoop_spec (f : Nat) (vs : List String) :
    ∀ (l : List Nat) (st : SelectState),
    st.multiple = true → WF st → l.Nodup →
    (∀ id ∈ l, id ∈ st.items.map (fun i => i.id)) →
    st.taglist.Nodup →
    (∀ a, a ∈ st.taglist ↔ a ∈ selIds st) →
    2 ≤ f →
    shape (valuesSetMultiLoop f vs st l).1 = shape st
    ∧ (valuesSetMultiLoop f vs st l).1.taglist.Nodup
    ∧ (∀ a, a ∈ (valuesSetMultiLoop f vs st l).1.taglist ↔
        ((a ∈ l ∧ ∃ it, findItem st a = some it
          ∧ vs.contains (itemValueFromDOM it) = true)
         ∨ (a ∉ l ∧ a ∈ st.taglist))) := by
  intro l
  induction l with
  | nil =>
    intro st _ _ _ _ htn hco _
    refine ⟨rfl, htn, ?_⟩
    intro a
    show a ∈ st.taglist ↔ _
    simp [List.not_mem_nil]
  | cons id rest ih =>
    intro st hm hwf hnodup hall htn hco hf
    rw [List.nodup_cons] at hnodup
    obtain ⟨it0, hmem0, hid0⟩ := List.mem_map.mp
      (hall id (List.mem_cons_self id rest))
    have hfind : findItem st id = some it0 := by
      have hh := find_of_mem_nodup st.items hwf it0 hmem0
      rw [hid0] at hh
      exact hh
    have htail : ∀ id2 ∈ rest, id2 ∈ st.items.map (fun i => i.id) :=
      fun id2 h2 => hall id2 (List.mem_cons_of_mem id h2)
    cases hb : vs.contains (itemValueFromDOM it0) with
    | true =>
      have hbmid : ∃ it, findItem st id = some it
          ∧ vs.contains (itemValueFromDOM it) = true := ⟨it0, hfind, hb⟩
      by_cases hsel0 : it0.selected = true
      · -- already selected and tagged: write is a no-op
        have hidin : id ∈ st.taglist :=
          (hco id).mpr (mem_selIds_of_findItem st id it0 hfind hsel0)
        have hstep : setSelAttr f st id true = (st, []) :=
          setSelAttr_noop f st id it0 true hfind hsel0
        have e2 : (valuesSetMultiLoop f vs st (id :: rest)).1
            = (valuesSetMultiLoop f vs st rest).1 := by
          simp only [valuesSetMultiLoop, hfind, hb, hstep]
        obtain ⟨g1, g2, g3⟩ := ih st hm hwf hnodup.2 htail htn hco hf
        rw [e2]
        refine ⟨g1, g2, ?_⟩
        intro a
        rw [g3 a]
        simp only [List.mem_cons]
        constructor
        · rintro (⟨hr, hbm2⟩ | ⟨hnr, htl⟩)
          · exact Or.inl ⟨Or.inr hr, hbm2⟩
          · by_cases he : a = id
            · subst he
              exact Or.inl ⟨Or.inl rfl, hbmid⟩
            · exact Or.inr ⟨fun hc => by
                rcases hc with he2 | hr2
                · exact he he2
                · exact hnr hr2, htl⟩
        · rintro (⟨(he | hr), hbm2⟩ | ⟨hnc, htl⟩)
          · subst he
            exact Or.inr ⟨hnodup.1, hidin⟩
          · exact Or.inl ⟨hr, hbm2⟩
          · exact Or.inr ⟨fun hr => hnc (Or.inr hr), htl⟩
      · -- fresh selection: flag set, tag appended
        have hselF : it0.selected = false := by
          cases h : it0.selected with
          | false => rfl
          | true => exact absurd h hsel0
        obtain ⟨hi2, hv2, ht2raw⟩ := setSelAttr_true_multiple f st id it0
          hm hfind hselF hf
        have hidnotsel : id ∉ selIds st := by
          intro hmm
          obtain ⟨it', hf', hs'⟩ := findItem_of_selIds st hwf id hmm
          rw [hfind] at hf'
          have he : it0 = it' := by injection hf'
          rw [← he] at hs'
          exact hsel0 hs'
        have hidnot : id ∉ st.taglist := fun h => hidnotsel ((hco id).mp h)
        have ht2 : (setSelAttr f st id true).1.taglist
            = st.taglist ++ [id] := by
          rw [ht2raw, List.erase_of_not_mem hidnot]
        have hsh2 : shape (setSelAttr f st id true).1 = shape st :=
          shape_setSelAttr f st id true
        have hm2 : (setSelAttr f st id true).1.multiple = true :=
          (shape_eq_multiple hsh2).trans hm
        have hwf2 : WF (setSelAttr f st id true).1 := shape_eq_WF hsh2 hwf
        have hall2 : ∀ id2 ∈ rest,
            id2 ∈ (setSelAttr f st id true).1.items.map (fun i => i.id) :=
          fun id2 h2 => by
            rw [shape_eq_ids hsh2]
            exact htail id2 h2
        have hnd2 : (setSelAttr f st id true).1.taglist.Nodup := by
          rw [ht2, List.nodup_append]
          refine ⟨htn, List.nodup_singleton _, ?_⟩
          intro a ha hb2
          rw [List.mem_singleton] at hb2
          subst hb2
          exact hidnot ha
        have hmemiff := selIdsOf_updItems_true_mem_iff st.items id
          (hall id (List.mem_cons_self id rest))
        have hco2 : ∀ a, a ∈ (setSelAttr f st id true).1.taglist ↔
            a ∈ selIds (setSelAttr f st id true).1 := by
          intro a
          rw [ht2]
          show _ ↔ a ∈ selIdsOf (setSelAttr f st id true).1.items
          rw [hi2, hmemiff a]
          simp only [List.mem_append, List.mem_singleton]
          rw [hco a]
          exact or_comm
        obtain ⟨g1, g2, g3⟩ := ih (setSelAttr f st id true).1 hm2 hwf2
          hnodup.2 hall2 hnd2 hco2 hf
        have e2 : (valuesSetMultiLoop f vs st (id :: rest)).1
            = (valuesSetMultiLoop f vs (setSelAttr f st id true).1
                rest).1 := by
          simp only [valuesSetMultiLoop, hfind, hb]
        rw [e2]
        refine ⟨g1.trans hsh2, g2, ?_⟩
        intro a
        rw [g3 a, bmatch_iff_of_shape hsh2 vs a, ht2]
        simp only [List.mem_append, List.mem_cons, List.not_mem_nil,
          or_false]
        constructor
        · rintro (⟨hr, hbm2⟩ | ⟨hnr, (htl | he)⟩)
          · exact Or.inl ⟨Or.inr hr, hbm2⟩
          · refine Or.inr ⟨fun hc => ?_, htl⟩
            rcases hc with he2 | hr2
            · subst he2
              exact hidnot htl
            · exact hnr hr2
          · subst he
            exact Or.inl ⟨Or.inl rfl, hbmid⟩
        · rintro (⟨(he | hr), hbm2⟩ | ⟨hnc, htl⟩)
          · subst he
            exact Or.inr ⟨hnodup.1, Or.inr rfl⟩
          · exact Or.inl ⟨hr, hbm2⟩
          · exact Or.inr ⟨fun hr => hnc (Or.inr hr), Or.inl htl⟩
    | false =>
      have hbmidneg : ¬∃ it, findItem st id = some it
          ∧ vs.contains (itemValueFromDOM it) = true := by
        rintro ⟨it', hf', hc'⟩
        rw [hfind] at hf'
        have he : it0 = it' := by injection hf'
        rw [← he] at hc'
        rw [hb] at hc'
        cases hc'
      by_cases hsel0 : it0.selected = true
      · -- deselect and drop the tag
        obtain ⟨hi2, hv2, ht2⟩ := setSelAttr_false_multiple f st id it0
          hm hfind hsel0 hf
        have hsh2 : shape (setSelAttr f st id false).1 = shape st :=
          shape_setSelAttr f st id false
        have hm2 : (setSelAttr f st id false).1.multiple = true :=
          (shape_eq_multiple hsh2).trans hm
        have hwf2 : WF (setSelAttr f st id false).1 := shape_eq_WF hsh2 hwf
        have hall2 : ∀ id2 ∈ rest,
            id2 ∈ (setSelAttr f st id false).1.items.map (fun i => i.id) :=
          fun id2 h2 => by
            rw [shape_eq_ids hsh2]
            exact htail id2 h2
        have hnd2 : (setSelAttr f st id false).1.taglist.Nodup := by
          rw [ht2]
          exact htn.erase id
        have hco2 : ∀ a, a ∈ (setSelAttr f st id false).1.taglist ↔
            a ∈ selIds (setSelAttr f st id false).1 := by
          intro a
          rw [ht2]
          show _ ↔ a ∈ selIdsOf (setSelAttr f st id false).1.items
          rw [hi2, selIdsOf_updItems_false st.items id hwf]
          rw [htn.mem_erase_iff,
            (selIdsOf_nodup st.items hwf).mem_erase_iff]
          rw [hco a]
          exact Iff.rfl
        obtain ⟨g1, g2, g3⟩ := ih (setSelAttr f st id false).1 hm2 hwf2
          hnodup.2 hall2 hnd2 hco2 hf
        have e2 : (valuesSetMultiLoop f vs st (id :: rest)).1
            = (valuesSetMultiLoop f vs (setSelAttr f st id false).1
                rest).1 := by
          simp only [valuesSetMultiLoop, hfind, hb]
        rw [e2]
        refine ⟨g1.trans hsh2, g2, ?_⟩
        intro a
        rw [g3 a, bmatch_iff_of_shape hsh2 vs a, ht2,
          htn.mem_erase_iff]
        simp only [List.mem_cons]
        constructor
        · rintro (⟨hr, hbm2⟩ | ⟨hnr, hne, htl⟩)
          · exact Or.inl ⟨Or.inr hr, hbm2⟩
          · refine Or.inr ⟨fun hc => ?_, htl⟩
            rcases hc with he2 | hr2
            · exact hne he2
            · exact hnr hr2
        · rintro (⟨(he | hr), hbm2⟩ | ⟨hnc, htl⟩)
          · subst he
            exact absurd hbm2 hbmidneg
          · exact Or.inl ⟨hr, hbm2⟩
          · exact Or.inr ⟨fun hr => hnc (Or.inr hr),
              fun he => hnc (Or.inl he), htl⟩
      · -- unselected non-match: no-op
        have hselF : it0.selected = false := by
          cases h : it0.selected with
          | false => rfl
          | true => exact absurd h hsel0
        have hidnotsel : id ∉ selIds st := by
          intro hmm
          obtain ⟨it', hf', hs'⟩ := findItem_of_selIds st hwf id hmm
          rw [hfind] at hf'
          have he : it0 = it' := by injection hf'
          rw [← he] at hs'
          exact hsel0 hs'
        have hidnot : id ∉ st.taglist := fun h => hidnotsel ((hco id).mp h)
        have hstep : setSelAttr f st id false = (st, []) :=
          setSelAttr_noop f st id it0 false hfind hselF
        have e2 : (valuesSetMultiLoop f vs st (id :: rest)).1
            = (valuesSetMultiLoop f vs st rest).1 := by
          simp only [valuesSetMultiLoop, hfind, hb, hstep]
        obtain ⟨g1, g2, g3⟩ := ih st hm hwf hnodup.2 htail htn hco hf
        rw [e2]
        refine ⟨g1, g2, ?_⟩
        intro a
        rw [g3 a]
        simp only [List.mem_cons]
        constructor
        · rintro (⟨hr, hbm2⟩ | ⟨hnr, htl⟩)
          · exact Or.inl ⟨Or.inr hr, hbm2⟩
          · refine Or.inr ⟨fun hc => ?_, htl⟩
            rcases hc with he2 | hr2
            · subst he2
              exact hidnot htl
            · exact hnr hr2
        · rintro (⟨(he | hr), hbm2⟩ | ⟨hnc, htl⟩)
          · subst he
            exact absurd hbm2 hbmidneg
          · exact Or.inl ⟨hr, hbm2⟩
          · exact Or.inr ⟨fun hr => hnc (Or.inr hr), htl⟩

/-- A `filterMap` that yields the same value on every member produces that
value once per element. -/
theorem filterMap_const_replicate {α : Type} (g : α → Option String)
    (v : String) :
    ∀ tl : List α, (∀ a ∈ tl, g a = some v) →
    tl.filterMap g = List.replicate tl.length v := by
  intro tl
  induction tl with
  | nil => intro _; rfl
  | cons x xs ih =>
    intro h
    simp only [List.filterMap_cons, h x (List.mem_cons_self x xs),
      List.length_cons, List.replicate_succ]
    exact congrArg (List.cons v)
      (ih (fun a ha => h a (List.mem_cons_of_mem x ha)))

/-- Two duplicate-free lists with the same members have the same length. -/
theorem length_eq_of_nodup_mem_iff {l1 l2 : List Nat}
    (h1 : l1.Nodup) (h2 : l2.Nodup) (h : ∀ a, a ∈ l1 ↔ a ∈ l2) :
    l1.length = l2.length :=
  ((List.perm_ext_iff_of_nodup h1 h2).mpr h).length_eq

/-- Assigning `values = [v]` to a multiple-mode Select whose tag list is
duplicate-free and mirrors the selected items reads back one copy of `v`
per item whose value equals `v`. -/
theorem assignValues_multi (s : SelectState) (v : String)
    (hm : s.multiple = true) (hwf : WF s)
    (htn : s.taglist.Nodup)
    (hco : ∀ a, a ∈ s.taglist ↔ a ∈ selIds s) :
    valuesGetter (assignValues s [v]).1 =
      List.replicate
        ((s.items.filter (fun it => itemValueFromDOM it == v)).length)
        v := by
  have e1 : (assignValues s [v]).1
      = (valuesSetMultiLoop (opFuel s) [v] s
          (s.items.map (fun it => it.id))).1 := by
    simp [assignValues, hm]
  obtain ⟨g1, g2, g3⟩ := multiLoop_spec (opFuel s) [v]
    (s.items.map (fun it => it.id)) s hm hwf
    (show (s.items.map (fun it => it.id)).Nodup from hwf)
    (fun _ ha => ha) htn hco (by unfold opFuel; omega)
  have hcont : ∀ x : String, ([v].contains x = true) ↔ x = v := by
    intro x
    simp [List.contains]
  have hchar : ∀ a,
      a ∈ (valuesSetMultiLoop (opFuel s) [v] s
        (s.items.map (fun it => it.id))).1.taglist ↔
      ∃ it, findItem s a = some it ∧ itemValueFromDOM it = v := by
    intro a
    rw [g3 a]
    constructor
    · rintro (⟨_, it, hf, hc⟩ | ⟨hnid, htl⟩)
      · exact ⟨it, hf, (hcont _).mp hc⟩
      · exact absurd (mem_ids_of_mem_selIds s a ((hco a).mp htl)) hnid
    · rintro ⟨it, hf, hv⟩
      exact Or.inl ⟨findItem_mem_ids s a it hf,
        it, hf, (hcont _).mpr hv⟩
  have hchar2 : ∀ a,
      a ∈ (valuesSetMultiLoop (opFuel s) [v] s
        (s.items.map (fun it => it.id))).1.taglist ↔
      a ∈ (s.items.filter
        (fun it => itemValueFromDOM it == v)).map (fun it => it.id) := by
    intro a
    rw [hchar a, List.mem_map]
    constructor
    · rintro ⟨it, hf, hv⟩
      refine ⟨it, ?_, findItem_id s a it hf⟩
      rw [List.mem_filter]
      exact ⟨findItem_mem s a it hf, by rw [hv]; exact beq_self_eq_true v⟩
    · rintro ⟨it, hfl, hid⟩
      rw [List.mem_filter] at hfl
      have hf : findItem s it.id = some it :=
        findItem_of_mem s hwf it hfl.1
      rw [hid] at hf
      exact ⟨it, hf, by
        have := hfl.2
        rwa [beq_iff_eq] at this⟩
  have hndmatch : ((s.items.filter
      (fun it => itemValueFromDOM it == v)).map
        (fun it => it.id)).Nodup :=
    List.Nodup.sublist
      ((List.filter_sublist s.items).map (fun it => it.id)) hwf
  have hlen : (valuesSetMultiLoop (opFuel s) [v] s
        (s.items.map (fun it => it.id))).1.taglist.length
      = (s.items.filter (fun it => itemValueFromDOM it == v)).length := by
    rw [length_eq_of_nodup_mem_iff g2 hndmatch hchar2]
    exact List.length_map _ _
  have hm2 : (valuesSetMultiLoop (opFuel s) [v] s
      (s.items.map (fun it => it.id))).1.multiple = true :=
    (shape_eq_multiple g1).trans hm
  have hall : ∀ a ∈ (valuesSetMultiLoop (opFuel s) [v] s
      (s.items.map (fun it => it.id))).1.taglist,
      (findItem (valuesSetMultiLoop (opFuel s) [v] s
        (s.items.map (fun it => it.id))).1 a).map itemValueFromDOM
        = some v := by
    intro a ha
    obtain ⟨it, hf, hv⟩ := (hchar a).mp ha
    have hs := findItem_strip g1 a
    rw [hf, Option.map_some'] at hs
    cases hf2 : findItem (valuesSetMultiLoop (opFuel s) [v] s
        (s.items.map (fun it => it.id))).1 a with
    | none =>
      rw [hf2, Option.map_none'] at hs
      cases hs
    | some it2 =>
      rw [hf2, Option.map_some'] at hs
      have hstr : stripItem it2 = stripItem it := by injection hs
      rw [Option.map_some', value_eq_of_strip hstr, hv]
  rw [e1]
  rw [show valuesGetter (valuesSetMultiLoop (opFuel s) [v] s
      (s.items.map (fun it => it.id))).1
      = (valuesSetMultiLoop (opFuel s) [v] s
        (s.items.map (fun it => it.id))).1.taglist.filterMap
        (fun id => (findItem (valuesSetMultiLoop (opFuel s) [v] s
          (s.items.map (fun it => it.id))).1 id).map itemValueFromDOM)
    from by simp [valuesGetter, hm2]]
  rw [filterMap_const_replicate _ v _ hall, hlen]

/-- C2 (amended): on a single-mode Select in any well-formed state
satisfying the component's own invariants — at most one selected item, the
hidden input mirroring the selected item's value — setting `values = [v]`
and reading back returns `[v]` when some item's value equals `v`; when no
item matches, it returns `[]` when a placeholder is set or no item is
selectable, and the auto-selected first selectable item's value when no
placeholder is set.  In multiple mode (tag list duplicate-free and
mirroring the selected items) the round-trip instead returns one copy of
`v` per item whose value equals `v`, so duplicated item values come back
duplicated. -/
theorem claimC2_valuesRoundTrip (s : SelectState) (v : String)
    (hwf : WF s) :
    (s.multiple = false → selCount s ≤ 1 →
      (∀ it, selectedItem s = some it →
        s.inputValue = itemValueFromDOM it) →
      ((∃ it ∈ s.items, itemValueFromDOM it = v) →
        valuesGetter (assignValues s [v]).1 = [v])
      ∧ ((∀ it ∈ s.items, itemValueFromDOM it ≠ v) →
        (placeholderStr s ≠ "" →
          valuesGetter (assignValues s [v]).1 = [])
        ∧ (∀ itf, placeholderStr s = "" →
            getFirstSelectable s = some itf →
            valuesGetter (assignValues s [v]).1 = [itemValueFromDOM itf])
        ∧ (placeholderStr s = "" → getFirstSelectable s = none →
            valuesGetter (assignValues s [v]).1 = [])))
    ∧ (s.multiple = true → s.taglist.Nodup →
      (∀ a, a ∈ s.taglist ↔ a ∈ selIds s) →
      valuesGetter (assignValues s [v]).1 =
        List.replicate
          ((s.items.filter (fun it => itemValueFromDOM it == v)).length)
          v) := by
  constructor
  · intro hm hc hcoh
    exact ⟨fun hex => assignValues_single_match s v hm hwf hc hcoh hex,
      fun hnone => assignValues_single_nomatch s v hm hwf hc hnone⟩
  · intro hm htn hco
    exact assignValues_multi s v hm hwf htn hco

/-- C2 witness: the amended round trip at a concrete non-fresh single-mode
Select — first item (value "a") selected, input mirroring it — where
assigning `values = ["b"]` reads back `["b"]`. -/
theorem claimC2_valuesRoundTrip_witness :
    valuesGetter (assignValues sampleSelectedSingle ["b"]).1 = ["b"] :=
  ((claimC2_valuesRoundTrip sampleSelectedSingle "b"
      (by show ([0, 1] : List Nat).Nodup; decide)).1
    rfl (by decide)
    (fun it h => by
      have h' : some ({ id := 0, valueAttr := some "a", content := "A",
                        disabled := false, selected := true } : Item)
          = some it := h
      have h2 := Option.some.inj h'
      rw [← h2]
      rfl)).1
    ⟨{ id := 1, valueAttr := some "b", content := "B", disabled := false,
       selected := false },
     by exact List.mem_cons_of_mem _ (List.mem_cons_self _ _), rfl⟩

end CoralSpec
